import Mathlib

/-!
# Contiguous frame pool (`cont_frame_pool.C`)

A shallow embedding of `ContFramePool`.  The management information of a pool
is two bit arrays that live in raw memory: `bitmap` starts at the first info
frame and `bitmap2` starts `nframes / 8` bytes later (constructor, lines
172-177).  The embedding keeps that layout: `mem` is the list of bytes from the
address `bitmap` upward, so that `bitmap[index]` is `mem[index]` and
`bitmap2[index]` is `mem[nframes / 8 + index]`, also when `index` runs past the
end of the first array, which the release loop does not prevent.

Frame numbers and indices are natural numbers; the pools considered are far
below the 32-bit range of the C types, so no wrap-around is modelled.
-/

namespace ContFramePool

/-- Modelled from the spec: `FRAME_SIZE` is declared in `cont_frame_pool.H`, which is not among
the sources; the specification gives the frame size as 4096 bytes. -/
def FRAME_SIZE : Nat := 4096

/-- The three frame states of the header comment, and the fourth bit pattern. -/
inductive FrameState where
  | FREE
  | HEAD_OF_SEQUENCE
  | ALLOCATED_TAIL
  | BOTH_SET
deriving DecidableEq

/-- How a call ends: it returns, or an `assert` fails (the kernel halts, with the memory as it
was at that point), or the call reads a byte beyond the modelled memory. -/
inductive Outcome (σ : Type) where
  | done (s : σ)
  | assertFailed (s : σ)
  | outside
deriving DecidableEq

/-- The data members of `ContFramePool`, with the bytes the two bitmap pointers address. -/
structure Pool where
  base_frame_no : Nat
  nframes : Nat
  info_frame_no : Nat
  n_info_frames : Nat
  mem : List Nat
deriving DecidableEq

/-- Read `bitmap[index]`. -/
def bitmap (p : Pool) (index : Nat) : Nat := p.mem.getD index 0

/-- Read `bitmap2[index]`, where `bitmap2 = bitmap + nframes / 8`. -/
def bitmap2 (p : Pool) (index : Nat) : Nat := p.mem.getD (p.nframes / 8 + index) 0

/-- Write `bitmap[index] = v`. -/
def set_bitmap (p : Pool) (index v : Nat) : Pool := { p with mem := p.mem.set index v }

/-- Write `bitmap2[index] = v`. -/
def set_bitmap2 (p : Pool) (index v : Nat) : Pool :=
  { p with mem := p.mem.set (p.nframes / 8 + index) v }

/-- The byte `mask = 0x80; mask = mask >> pos;`. -/
def mask (pos : Nat) : Nat := 0x80 >>> pos

/-- The byte `~mask` stored back into an `unsigned char`. -/
def notMask (m : Nat) : Nat := m ^^^ 0xFF

/-- The test `bitmap[index] & mask` for pool-relative frame `i`. -/
def bitmapResult (p : Pool) (i : Nat) : Bool := bitmap p (i / 8) &&& mask (i % 8) != 0

/-- The test `bitmap2[index] & mask` for pool-relative frame `i`. -/
def bitmap2Result (p : Pool) (i : Nat) : Bool := bitmap2 p (i / 8) &&& mask (i % 8) != 0

/-- State of pool-relative frame `i`, bits ordered `[bitmap][bitmap2]` (constructor, lines
186-188): `10` free, `01` head of sequence, `00` allocated. -/
def frame_state (p : Pool) (i : Nat) : FrameState :=
  match bitmapResult p i, bitmap2Result p i with
  | true, false => FrameState.FREE
  | false, true => FrameState.HEAD_OF_SEQUENCE
  | false, false => FrameState.ALLOCATED_TAIL
  | true, true => FrameState.BOTH_SET

/-- The loop of `needed_info_frames`: `pageNumber++`, return once
`numberOfFramesRepresentedPerFrameUsed * pageNumber >= _n_frames`. -/
def needed_info_frames_loop (n_frames : Nat) : Nat → Nat → Nat
  | 0, pageNumber => pageNumber
  | fuel + 1, pageNumber =>
    if (FRAME_SIZE / 2) * (pageNumber + 1) ≥ n_frames then pageNumber + 1
    else needed_info_frames_loop n_frames fuel (pageNumber + 1)

/-- `ContFramePool::needed_info_frames`; the loop returns within `_n_frames + 1` rounds. -/
def needed_info_frames (n_frames : Nat) : Nat :=
  needed_info_frames_loop n_frames (n_frames + 1) 0

/-- Constructor, lines 189-192: `bitmap[i] = 0xFF; bitmap2[i] = 0x00;` while `i * 8 < nframes`. -/
def init_free : Nat → Nat → Pool → Pool
  | 0, _, p => p
  | k + 1, i, p => init_free k (i + 1) (set_bitmap2 (set_bitmap p i 0xFF) i 0x00)

/-- Clear the `bitmap` bit of pool-relative frame `i`:
`bitmap[index] = bitmap[index] & mask` with the inverted mask. -/
def clear_bitmap_bit (p : Pool) (i : Nat) : Pool :=
  set_bitmap p (i / 8) (bitmap p (i / 8) &&& notMask (mask (i % 8)))

/-- Clear the `bitmap` bit of `k` frames from frame `j` on: the loop of constructor lines 198-208
and of `get_frames` lines 252-261. -/
def mark_allocated : Nat → Nat → Pool → Pool
  | 0, _, p => p
  | k + 1, j, p => mark_allocated k (j + 1) (clear_bitmap_bit p j)

/-- `ContFramePool::ContFramePool`, on the memory `memory` found at the address of `bitmap`
(the constructor writes its first `nframes / 4` bytes and leaves the rest as it is; a `memory`
too short to hold the two arrays is outside the model).  The registry `framePools` is the list
of pools handed to `release_frames`. -/
def construct (base_frame_no n_frames info_frame_no n_info_frames : Nat) (memory : List Nat) :
    Outcome Pool :=
  let p : Pool := ⟨base_frame_no, n_frames, info_frame_no, n_info_frames, memory⟩
  let neededInfoFrames := needed_info_frames n_frames
  if info_frame_no ≠ 0 ∧ ¬ neededInfoFrames ≤ n_info_frames then Outcome.assertFailed p
  else if n_frames % 8 ≠ 0 then Outcome.assertFailed p
  else if memory.length < n_frames / 8 + n_frames / 8 then Outcome.outside
  else
    let p1 := init_free (n_frames / 8) 0 p
    if info_frame_no = 0 then
      let p2 := set_bitmap2 (set_bitmap p1 0 0x7F) 0 0x80
      Outcome.done (mark_allocated (neededInfoFrames - 1) 1 p2)
    else Outcome.done p1

/-- The scan of `get_frames` from frame `i` on, `fuel = nframes - i` iterations left, with the
locals `consecutiveFreeFrames` and `indexOfHeadOfSequence`.  Returns the frame number and the
pool afterwards. -/
def get_frames_loop (p : Pool) (n_frames : Nat) : Nat → Nat → Nat → Nat → Nat × Pool
  | 0, _, _, _ => (0, p)
  | fuel + 1, i, consecutiveFreeFrames, indexOfHeadOfSequence =>
    if bitmapResult p i then
      let head := if indexOfHeadOfSequence = 0 then i else indexOfHeadOfSequence
      if consecutiveFreeFrames + 1 ≥ n_frames then
        let p1 := set_bitmap2 p (head / 8) (bitmap2 p (head / 8) ||| mask (head % 8))
        let p2 := clear_bitmap_bit p1 head
        (p.base_frame_no + head, mark_allocated (i - head) (head + 1) p2)
      else get_frames_loop p n_frames fuel (i + 1) (consecutiveFreeFrames + 1) head
    else get_frames_loop p n_frames fuel (i + 1) 0 0

/-- `ContFramePool::get_frames`. -/
def get_frames (p : Pool) (n_frames : Nat) : Nat × Pool :=
  get_frames_loop p n_frames p.nframes 0 0 0

/-- `ContFramePool::mark_inaccessible(unsigned long _frame_no)`, the one-frame overload. -/
def mark_inaccessible_frame (p : Pool) (frame_no : Nat) : Outcome Pool :=
  if frame_no ≥ p.base_frame_no ∧ frame_no < p.base_frame_no + p.nframes then
    let index := (frame_no - p.base_frame_no) / 8
    let m := notMask (mask ((frame_no - p.base_frame_no) % 8))
    let p1 := set_bitmap p index (bitmap p index &&& m)
    Outcome.done (set_bitmap2 p1 index (bitmap2 p1 index &&& m))
  else Outcome.assertFailed p

/-- The loop of `mark_inaccessible(_base_frame_no, _n_frames)`: `k` frames from frame `i` on. -/
def mark_inaccessible_loop : Nat → Nat → Pool → Outcome Pool
  | 0, _, p => Outcome.done p
  | k + 1, i, p =>
    match mark_inaccessible_frame p i with
    | Outcome.done p1 => mark_inaccessible_loop k (i + 1) p1
    | o => o

/-- `ContFramePool::mark_inaccessible(_base_frame_no, _n_frames)`. -/
def mark_inaccessible (p : Pool) (base_frame_no n_frames : Nat) : Outcome Pool :=
  mark_inaccessible_loop n_frames base_frame_no p

/-- The `while` loop of `release_frame` (lines 364-377) at `frameIndex`: it tests the `bitmap`
bit only (`bitmap2Result` is read from `bitmap` too and not used), sets it while it is clear,
and has no bound on `frameIndex`.  The fuel covers every bit of the modelled memory. -/
def release_walk : Nat → Pool → Nat → Outcome Pool
  | 0, _, _ => Outcome.outside
  | fuel + 1, p, frameIndex =>
    if p.mem.length ≤ frameIndex / 8 then Outcome.outside
    else if bitmapResult p frameIndex then Outcome.done p
    else
      release_walk fuel
        (set_bitmap p (frameIndex / 8) (bitmap p (frameIndex / 8) ||| mask (frameIndex % 8)))
        (frameIndex + 1)

/-- `ContFramePool::release_frame`; called with `frame_no >= base_frame_no` only. -/
def release_frame (p : Pool) (frame_no : Nat) : Outcome Pool :=
  let frameIndex := frame_no - p.base_frame_no
  let index := frameIndex / 8
  let m := mask (frameIndex % 8)
  if p.mem.length ≤ index then Outcome.outside
  else if bitmapResult p frameIndex then Outcome.assertFailed p
  else if p.mem.length ≤ p.nframes / 8 + index then Outcome.outside
  else if bitmap2Result p frameIndex then
    let p1 := set_bitmap p index (bitmap p index ||| m)
    let p2 := set_bitmap2 p1 index (bitmap2 p1 index &&& notMask m)
    release_walk (8 * p.mem.length) p2 (frameIndex + 1)
  else Outcome.assertFailed p

/-- The range test of the static `release_frames` (line 325). -/
def in_pool_range (p : Pool) (first_frame_no : Nat) : Bool :=
  first_frame_no ≥ p.base_frame_no && first_frame_no ≤ p.base_frame_no + p.nframes

/-- The static `ContFramePool::release_frames` over the registered pools `framePools`, in
registration order; the result lists the pools as they are afterwards. -/
def release_frames : List Pool → Nat → Outcome (List Pool)
  | [], _ => Outcome.done []
  | p :: rest, first_frame_no =>
    if in_pool_range p first_frame_no then
      match release_frame p first_frame_no with
      | Outcome.done p1 =>
        match release_frames rest first_frame_no with
        | Outcome.done ps => Outcome.done (p1 :: ps)
        | Outcome.assertFailed ps => Outcome.assertFailed (p1 :: ps)
        | Outcome.outside => Outcome.outside
      | Outcome.assertFailed p1 => Outcome.assertFailed (p1 :: rest)
      | Outcome.outside => Outcome.outside
    else
      match release_frames rest first_frame_no with
      | Outcome.done ps => Outcome.done (p :: ps)
      | Outcome.assertFailed ps => Outcome.assertFailed (p :: ps)
      | Outcome.outside => Outcome.outside

/-- Frames `k, ..., k + n - 1` of the pool are all FREE. -/
def free_run (p : Pool) (k n : Nat) : Prop :=
  k + n ≤ p.nframes ∧ ∀ j, j < n → frame_state p (k + j) = FrameState.FREE

instance (p : Pool) (k n : Nat) : Decidable (free_run p k n) := by
  unfold free_run; exact inferInstance

/-- An 8-frame pool at frame 1024 whose bitmaps live in frame 513 of another pool, as the
constructor leaves it: every frame FREE. -/
def process_pool_8 : Pool := ⟨1024, 8, 513, 1, [0xFF, 0x00]⟩

/-- An 8-frame pool at frame 512 with self-hosted bitmaps, as the constructor leaves it: frame 512
HEAD_OF_SEQUENCE, the others FREE. -/
def kernel_pool_8 : Pool := ⟨512, 8, 0, 0, [0x7F, 0x80]⟩

/-- A 16-frame pool at frame 512 with self-hosted bitmaps, as the constructor leaves it. -/
def kernel_pool_16 : Pool := ⟨512, 16, 0, 0, [0x7F, 0xFF, 0x80, 0x00]⟩

/-- The pool `kernel_pool_16` after `mark_inaccessible(514, 2)`: states H F A A F ... F. -/
def holed_pool_16 : Pool := ⟨512, 16, 0, 0, [0x4F, 0xFF, 0x80, 0x00]⟩

/-- The pool `kernel_pool_8` after two `get_frames(2)` calls: states H H A H A F F F. -/
def two_runs_8 : Pool := ⟨512, 8, 0, 0, [0x07, 0xD0]⟩

/-- An 8-frame pool at frame 520, bitmaps in frame 513 of another pool, after `get_frames(1)`:
frame 520 HEAD_OF_SEQUENCE, the others FREE. -/
def upper_pool_8 : Pool := ⟨520, 8, 513, 1, [0x7F, 0x80]⟩

end ContFramePool

/-!
# Logical region pool (`vm_pool.C`)

`VMPool` keeps its tracking list in the first page of the pool: `memoryRegions` points at
`base_address` and entry `e` is the pair of words `memoryRegions[2e]` (start) and
`memoryRegions[2e + 1]` (length); `memoryRegionsSize` counts words.  The embedding keeps the
words as a function from the word index, so that the words that follow the list in the page,
which `release` and `is_legitimate` read, are part of the state.  The list is taken as an array
of its own: the words from index 1024 on, which would lie in the second page of the pool, are
not identified with region memory.  The page table is outside this embedding: `release` returns
the page numbers it hands to `free_page`, in call order, and `release_wrapping` takes
`free_page` as a parameter.

The functions come twice.  `allocate`, `release` and `is_legitimate` and their loops take every
address sum as the exact sum of natural numbers: they describe the code wherever no sum of a
call reaches 2 ^ 32.  `allocate_wrapping` and `release_wrapping` and their loops take every
`unsigned long` sum modulo 2 ^ 32, as the 32-bit target of the kernel does, and give no result
where a loop of the code does not end.  The theorems `allocate_wrapping_eq`,
`allocate_wrapping_found` and `release_wrapping_pool` relate the two.
-/

namespace VMPool

/-- Modelled from the spec: `Machine::PAGE_SIZE` is declared in `machine.H`, which is not among
the sources; the specification gives the page size as 4096 bytes. -/
def PAGE_SIZE : Nat := 4096

/-- The data members of `VMPool` that the allocator uses, with the words `memoryRegions`
addresses. -/
structure Pool where
  base_address : Nat
  size : Nat
  memoryRegions : Nat → Nat
  memoryRegionsSize : Nat

/-- The assignment `memoryRegions[i] = v`. -/
def store (m : Nat → Nat) (i v : Nat) : Nat → Nat := fun k => if k = i then v else m k

/-- The words of a page given as a list, zero behind it. -/
def words (l : List Nat) : Nat → Nat := fun k => l.getD k 0

/-- `VMPool::VMPool` on a first page that holds the words `memory`: the list starts empty, the
words are left as they are. -/
def construct (base_address size : Nat) (memory : Nat → Nat) : Pool :=
  ⟨base_address, size, memory, 0⟩

/-- The loop of `allocate`, lines 93-97: `memoryToAllocate += PAGE_SIZE; pagesToAllocate++` while
`memoryToAllocate < _size`.  Returns `(memoryToAllocate, pagesToAllocate)`.  The sum is exact;
`round_up_loop_wrapping` takes it modulo 2 ^ 32. -/
def round_up_loop (size : Nat) : Nat → Nat → Nat → Nat × Nat
  | 0, memoryToAllocate, pagesToAllocate => (memoryToAllocate, pagesToAllocate)
  | fuel + 1, memoryToAllocate, pagesToAllocate =>
    if memoryToAllocate < size then
      round_up_loop size fuel (memoryToAllocate + PAGE_SIZE) (pagesToAllocate + 1)
    else (memoryToAllocate, pagesToAllocate)

/-- The inner loop of `allocate`, lines 117-135, for the page at address `i`, from entry word
`j` on.  Returns `(withinExistingRegion, firstReleasedIndex)`.  The end of a region is the exact
sum; `scan_regions_wrapping` takes it modulo 2 ^ 32. -/
def scan_regions (st : Pool) (i : Nat) : Nat → Nat → Nat → Bool × Nat
  | 0, _, firstReleasedIndex => (false, firstReleasedIndex)
  | fuel + 1, j, firstReleasedIndex =>
    if j < st.memoryRegionsSize then
      let released := if st.memoryRegions j = 0 then j else firstReleasedIndex
      if i ≥ st.memoryRegions j ∧ i < st.memoryRegions j + st.memoryRegions (j + 1) then
        (true, released)
      else scan_regions st i fuel (j + 2) released
    else (false, firstReleasedIndex)

/-- The outer loop of `allocate`, lines 112-176, from the page at address `i` on, with the locals
`startAddress`, `pagesAbleToBeAllocated`, `atStartPoint` and `firstReleasedIndex`.  Returns the
address handed out (0 when the pool is full) and the pool afterwards.  The sums are exact;
`allocate_loop_wrapping` takes them modulo 2 ^ 32. -/
def allocate_loop (st : Pool) (memoryToAllocate pagesToAllocate : Nat) :
    Nat → Nat → Nat → Nat → Bool → Nat → Nat × Pool
  | 0, _, _, _, _, _ => (0, st)
  | fuel + 1, i, startAddress, pagesAbleToBeAllocated, atStartPoint, firstReleasedIndex =>
    if i < st.base_address + st.size then
      let r := scan_regions st i st.memoryRegionsSize 0 firstReleasedIndex
      let withinExistingRegion := r.1
      let released := r.2
      let pages := if withinExistingRegion then 0 else pagesAbleToBeAllocated + 1
      let start :=
        if withinExistingRegion then 0 else if atStartPoint then i else startAddress
      let atStart := if withinExistingRegion then true else false
      if pages ≥ pagesToAllocate then
        if released = st.memoryRegionsSize then
          (start,
            { st with
              memoryRegions :=
                store (store st.memoryRegions st.memoryRegionsSize start)
                  (st.memoryRegionsSize + 1) memoryToAllocate
              memoryRegionsSize := st.memoryRegionsSize + 2 })
        else
          (start,
            { st with
              memoryRegions :=
                store (store st.memoryRegions released start) (released + 1) memoryToAllocate })
      else allocate_loop st memoryToAllocate pagesToAllocate fuel (i + PAGE_SIZE) start pages
        atStart released
    else (0, st)

/-- `VMPool::allocate` with exact sums.  Both loops advance by at least one byte or one page a
round, so `_size` rounds and `size` rounds cover them.  `allocate_wrapping` has the 32-bit
arithmetic. -/
def allocate (st : Pool) (size : Nat) : Nat × Pool :=
  let r := round_up_loop size size 0 0
  allocate_loop st r.1 r.2 st.size (st.base_address + PAGE_SIZE) 0 0 true st.memoryRegionsSize

/-- The loop of `release`, lines 214-217: the page numbers `j >> 12` handed to `free_page`, for
`j` from the current address on while `j < bound`, every call taken to return.  The sums are
exact; `free_pages_wrapping` takes them modulo 2 ^ 32 and has `free_page` as a parameter. -/
def free_pages (bound : Nat) : Nat → Nat → List Nat
  | 0, _ => []
  | fuel + 1, j =>
    if j < bound then (j >>> 12) :: free_pages bound fuel (j + PAGE_SIZE) else []

/-- The loop of `release`, lines 209-223, from entry word `i` on (`i <= memoryRegionsSize`).
Returns the pool afterwards and the pages handed to `free_page`. -/
def release_loop (st : Pool) (start_address : Nat) : Nat → Nat → Pool × List Nat
  | 0, _ => (st, [])
  | fuel + 1, i =>
    if i ≤ st.memoryRegionsSize then
      if st.memoryRegions i = start_address then
        ({ st with memoryRegions := store (store st.memoryRegions i 0) (i + 1) 0 },
          free_pages (st.memoryRegions i + st.memoryRegions (i + 1)) (st.memoryRegions (i + 1))
            start_address)
      else release_loop st start_address fuel (i + 2)
    else (st, [])

/-- `VMPool::release` with exact sums; `release_wrapping` has the 32-bit arithmetic. -/
def release (st : Pool) (start_address : Nat) : Pool × List Nat :=
  release_loop st start_address (st.memoryRegionsSize + 1) 0

/-- The loop of `is_legitimate`, lines 237-243, from entry word `i` on. -/
def is_legitimate_loop (st : Pool) (address : Nat) : Nat → Nat → Bool
  | 0, _ => false
  | fuel + 1, i =>
    if i ≤ st.memoryRegionsSize then
      if address ≥ st.memoryRegions i ∧
          address < st.memoryRegions i + st.memoryRegions (i + 1) then true
      else is_legitimate_loop st address fuel (i + 2)
    else false

/-- `VMPool::is_legitimate`. -/
def is_legitimate (st : Pool) (address : Nat) : Bool :=
  if address ≥ st.base_address ∧ address < st.base_address + PAGE_SIZE then true
  else is_legitimate_loop st address (st.memoryRegionsSize + 1) 0

/-- The number of pages `_size` rounds up to. -/
def pages_of (size : Nat) : Nat := (size + (PAGE_SIZE - 1)) / PAGE_SIZE

/-- Address `a` lies in a tracked region: an entry of the first `memoryRegionsSize` words with
`start <= a < start + length`.  A cleared entry `(0, 0)` holds no address. -/
def covered (st : Pool) (a : Nat) : Prop :=
  ∃ j, j < st.memoryRegionsSize ∧ j % 2 = 0 ∧
    st.memoryRegions j ≤ a ∧ a < st.memoryRegions j + st.memoryRegions (j + 1)

instance (st : Pool) (a : Nat) : Decidable (covered st a) := by
  unfold covered; exact inferInstance

/-- The `p` pages from address `s` on are pages of the pool behind its first page (`s` is
`base_address + k * PAGE_SIZE` with `k >= 1`, and the last of them starts below the end of the
pool) and none of them is covered by a tracked region. -/
def page_run (st : Pool) (s p : Nat) : Prop :=
  (∃ k, 1 ≤ k ∧ s = st.base_address + k * PAGE_SIZE) ∧
    s + (p - 1) * PAGE_SIZE < st.base_address + st.size ∧
    ∀ t, t < p → ¬ covered st (s + t * PAGE_SIZE)

/-- Word index `f` is a tracked entry whose start word is 0, the test `allocate` uses to find a
released entry. -/
def released_slot (st : Pool) (f : Nat) : Prop :=
  f < st.memoryRegionsSize ∧ f % 2 = 0 ∧ st.memoryRegions f = 0

/-- What one call of `allocate` for `p` pages (`len` bytes) does, as a relation between the pool
`st` before and the result `r`: either no run of `p` free pages exists, and the call returns 0
and leaves the pool as it is; or the call returns the lowest address of such a run and writes
the pair `(address, len)` over a released entry, or behind the list when there is none. -/
def alloc_post (st : Pool) (p len : Nat) (r : Nat × Pool) : Prop :=
  (r = (0, st) ∧ ∀ s, ¬ page_run st s p) ∨
  (page_run st r.1 p ∧ (∀ s, page_run st s p → r.1 ≤ s) ∧
    (((∀ f, ¬ released_slot st f) ∧
        r.2 = { st with
          memoryRegions :=
            store (store st.memoryRegions st.memoryRegionsSize r.1)
              (st.memoryRegionsSize + 1) len
          memoryRegionsSize := st.memoryRegionsSize + 2 }) ∨
      (∃ f, released_slot st f ∧
        r.2 = { st with
          memoryRegions := store (store st.memoryRegions f r.1) (f + 1) len })))

/-- The shape the tracking list keeps: the word count is even; every tracked entry is cleared,
`(0, 0)`, or holds a region that starts `k >= 1` pages behind `base_address` and is `q >= 1`
pages long; and two tracked entries with non-zero start hold disjoint regions. -/
def tracking_invariant (st : Pool) : Prop :=
  st.memoryRegionsSize % 2 = 0 ∧
  (∀ j, j < st.memoryRegionsSize → j % 2 = 0 →
    (st.memoryRegions j = 0 ∧ st.memoryRegions (j + 1) = 0) ∨
    ∃ k q, 1 ≤ k ∧ 1 ≤ q ∧ st.memoryRegions j = st.base_address + k * PAGE_SIZE ∧
      st.memoryRegions (j + 1) = q * PAGE_SIZE) ∧
  (∀ j1 j2, j1 < st.memoryRegionsSize → j2 < st.memoryRegionsSize → j1 % 2 = 0 → j2 % 2 = 0 →
    j1 ≠ j2 → st.memoryRegions j1 ≠ 0 → st.memoryRegions j2 ≠ 0 →
    st.memoryRegions j1 + st.memoryRegions (j1 + 1) ≤ st.memoryRegions j2 ∨
    st.memoryRegions j2 + st.memoryRegions (j2 + 1) ≤ st.memoryRegions j1)

/-- What one call of `release` does, as a relation between the pool `st` before and the result
`r`: either no entry word of even index up to `memoryRegionsSize` (included) equals the address,
and nothing happens; or the first such entry `i` has its pages handed to `free_page` and its two
words set to 0. -/
def release_post (st : Pool) (start_address : Nat) (r : Pool × List Nat) : Prop :=
  (r = (st, []) ∧
    ∀ i, i ≤ st.memoryRegionsSize → i % 2 = 0 → st.memoryRegions i ≠ start_address) ∨
  ∃ i, i ≤ st.memoryRegionsSize ∧ i % 2 = 0 ∧ st.memoryRegions i = start_address ∧
    (∀ i1, i1 < i → i1 % 2 = 0 → st.memoryRegions i1 ≠ start_address) ∧
    r = ({ st with memoryRegions := store (store st.memoryRegions i 0) (i + 1) 0 },
      free_pages (st.memoryRegions i + st.memoryRegions (i + 1)) (st.memoryRegions (i + 1))
        start_address)

/-- The states a pool goes through: construction on any first page, then `allocate` with
`_size >= 1` and `release` calls. -/
inductive Reachable : Pool → Prop where
  | construct (base_address size : Nat) (memory : Nat → Nat) :
    Reachable (construct base_address size memory)
  | allocate (st : Pool) (size : Nat) : Reachable st → 1 ≤ size → Reachable (allocate st size).2
  | release (st : Pool) (start_address : Nat) :
    Reachable st → Reachable (release st start_address).1

/-- The `p` pages from address `s` on lie inside `[base_address + PAGE_SIZE, base_address + size)`,
`s` being `base_address + k * PAGE_SIZE` with `k >= 1`, and none of them is covered by a tracked
region. -/
def fits (st : Pool) (s p : Nat) : Prop :=
  (∃ k, 1 ≤ k ∧ s = st.base_address + k * PAGE_SIZE) ∧
    s + p * PAGE_SIZE ≤ st.base_address + st.size ∧
    ∀ t, t < p → ¬ covered st (s + t * PAGE_SIZE)

/-- The pair `(s, len)` is a tracked entry of the list. -/
def recorded (st : Pool) (s len : Nat) : Prop :=
  ∃ j, j < st.memoryRegionsSize ∧ j % 2 = 0 ∧
    st.memoryRegions j = s ∧ st.memoryRegions (j + 1) = len

/-- A pool of 16 pages at address 65536 on a zeroed first page, after `allocate(1)`,
`allocate(4096)` and the release of the first region: the list is `(0, 0), (73728, 4096)`. -/
def fragmented_pool : Pool :=
  (release (allocate (allocate (construct 65536 65536 (words [])) 1).2 4096).2 69632).1

/-- A pool of 16 pages at address 65536 whose first page holds the stale words 73728 and 8192
behind the place of the first entry, after `allocate(1)`: the list is `(69632, 4096)`. -/
def stale_pool : Pool :=
  (allocate (construct 65536 65536 (words [0, 0, 73728, 8192])) 1).2

end VMPool

/-! # Page table

`page_table.C` of "3-Completing Virtual Memory".  The statics `kernel_mem_pool`,
`process_mem_pool` and `shared_size` and the members of `current_page_table` form one state.
The directory and the leaf tables are reached at their physical addresses (they lie in the
identity-mapped shared area), so `memory` is physical memory as a function from the address of
a 32-bit word to its value; `unsigned long` products are taken modulo 2 ^ 32.  The bitmaps of
the two frame pools are kept in the pools, apart from `memory`.  Reloading CR3 and the console
output are left out.
-/

namespace PageTable

/-- Modelled from the spec: `PageTable::PAGE_SIZE` is declared in `page_table.H`, which is not
among the sources; the specification gives the page size as 4096 bytes. -/
def PAGE_SIZE : Nat := 4096

/-- Modelled from the spec: `PageTable::ENTRIES_PER_PAGE` is declared in `page_table.H`, which
is not among the sources; the specification gives 10-bit directory and leaf indices, 1024
entries of four bytes a page. -/
def ENTRIES_PER_PAGE : Nat := 1024

/-- The statics of `PageTable` and the members of the current page table. -/
structure State where
  kernel_mem_pool : ContFramePool.Pool
  process_mem_pool : ContFramePool.Pool
  shared_size : Nat
  page_directory : Nat
  memory : Nat → Nat
  VMPools : List VMPool.Pool

/-- Entry `i` of the table of `unsigned long` at address `table`: `table[i]`. -/
def read (memory : Nat → Nat) (table i : Nat) : Nat := memory (table + 4 * i)

/-- The assignment `table[i] = v`. -/
def write (memory : Nat → Nat) (table i v : Nat) : Nat → Nat :=
  fun x => if x = table + 4 * i then v else memory x

/-- `PageTable::check_address`, lines 133-141, over the registered pools in order. -/
def check_address : List VMPool.Pool → Nat → Bool
  | [], _ => false
  | pool :: rest, address =>
    if VMPool.is_legitimate pool address then true else check_address rest address

/-- The loop of `handle_fault`, lines 105-107: `innerPT[i] = 0x2` for `k` entries from `i`. -/
def fill_not_present (innerPT : Nat) : Nat → Nat → (Nat → Nat) → (Nat → Nat)
  | 0, _, memory => memory
  | k + 1, i, memory => fill_not_present innerPT k (i + 1) (write memory innerPT i 0x2)

/-- How `handle_fault` ends: it returns, or `abort()` is called. -/
inductive FaultResult where
  | handled (s : State)
  | aborted (s : State)

/-- `PageTable::handle_fault` for the faulting address read from CR2. -/
def handle_fault (s : State) (address : Nat) : FaultResult :=
  if ¬ check_address s.VMPools address then FaultResult.aborted s
  else
    let pageDirectoryIndex := address >>> 22
    let s1 : State :=
      if read s.memory s.page_directory pageDirectoryIndex &&& 0x1 ≠ 0x1 then
        let r := ContFramePool.get_frames s.kernel_mem_pool 1
        let innerPT := (r.1 * PAGE_SIZE) % 2 ^ 32
        let m1 := fill_not_present innerPT ENTRIES_PER_PAGE 0 s.memory
        let m2 := write m1 s.page_directory pageDirectoryIndex innerPT
        let m3 := write m2 s.page_directory pageDirectoryIndex
          (read m2 s.page_directory pageDirectoryIndex ||| 0x3)
        ⟨r.2, s.process_mem_pool, s.shared_size, s.page_directory, m3, s.VMPools⟩
      else s
    let innerPT := read s1.memory s1.page_directory pageDirectoryIndex &&& 0xFFFFF000
    let pageTableIndex := (address >>> 12) &&& 0x3FF
    let r := ContFramePool.get_frames s1.process_mem_pool 1
    let newFrameAddress := (r.1 * PAGE_SIZE) % 2 ^ 32
    FaultResult.handled ⟨s1.kernel_mem_pool, r.2, s1.shared_size, s1.page_directory,
      write s1.memory innerPT pageTableIndex (newFrameAddress ||| 0x3), s1.VMPools⟩

/-- The local `newFrame` of `handle_fault`, line 123: what `process_mem_pool->get_frames(1)`
returns in the call made in state `s`. -/
def newFrame (s : State) : Nat := (ContFramePool.get_frames s.process_mem_pool 1).1

/-- `PageTable::free_page`.  The static `ContFramePool::release_frames` runs over the
registered frame pools, the kernel pool first as `kernel.C` constructs them. -/
def free_page (s : State) (page_no : Nat) : ContFramePool.Outcome State :=
  let pageDirectoryIndex := page_no >>> 10
  let innerPT := read s.memory s.page_directory pageDirectoryIndex &&& 0xFFFFF000
  let pageTableIndex := page_no &&& 0x3FF
  if read s.memory innerPT pageTableIndex &&& 0x1 ≠ 0x1 then
    match ContFramePool.release_frames [s.kernel_mem_pool, s.process_mem_pool]
        (read s.memory innerPT pageTableIndex / PAGE_SIZE) with
    | ContFramePool.Outcome.done ps =>
      ContFramePool.Outcome.done ⟨ps.getD 0 s.kernel_mem_pool, ps.getD 1 s.process_mem_pool,
        s.shared_size, s.page_directory, write s.memory innerPT pageTableIndex 0x2, s.VMPools⟩
    | ContFramePool.Outcome.assertFailed ps =>
      ContFramePool.Outcome.assertFailed ⟨ps.getD 0 s.kernel_mem_pool,
        ps.getD 1 s.process_mem_pool, s.shared_size, s.page_directory, s.memory, s.VMPools⟩
    | ContFramePool.Outcome.outside => ContFramePool.Outcome.outside
  else ContFramePool.Outcome.done s

/-- Constructor, lines 46-49: `innerPT[i] = address | 3; address += PAGE_SIZE`. -/
def fill_identity (innerPT : Nat) : Nat → Nat → Nat → (Nat → Nat) → (Nat → Nat)
  | 0, _, _, memory => memory
  | k + 1, i, address, memory =>
    fill_identity innerPT k (i + 1) ((address + PAGE_SIZE) % 2 ^ 32)
      (write memory innerPT i (address ||| 3))

/-- Constructor, lines 52-55: `page_directory[i] = innerPT; page_directory[i] |= 3`. -/
def fill_directory (page_directory innerPT : Nat) : Nat → Nat → (Nat → Nat) → (Nat → Nat)
  | 0, _, memory => memory
  | k + 1, i, memory =>
    let m1 := write memory page_directory i innerPT
    fill_directory page_directory innerPT k (i + 1)
      (write m1 page_directory i (read m1 page_directory i ||| 3))

/-- Constructor, lines 58-60: `page_directory[i] = 0 | 2`, the loop that starts at `i = 1`. -/
def fill_rest (page_directory : Nat) : Nat → Nat → (Nat → Nat) → (Nat → Nat)
  | 0, _, memory => memory
  | k + 1, i, memory => fill_rest page_directory k (i + 1) (write memory page_directory i (0 ||| 2))

/-- `PageTable::PageTable` after `init_paging(kernel, process, shared_size)`, on the physical
memory `memory`. -/
def construct (kernel process : ContFramePool.Pool) (shared_size : Nat) (memory : Nat → Nat) :
    State :=
  let r1 := ContFramePool.get_frames kernel (shared_size / (PAGE_SIZE * ENTRIES_PER_PAGE))
  let frameAddr := (r1.1 * PAGE_SIZE) % 2 ^ 32
  let r2 := ContFramePool.get_frames r1.2 (shared_size / (PAGE_SIZE * ENTRIES_PER_PAGE))
  let ptFrameAddr := (r2.1 * PAGE_SIZE) % 2 ^ 32
  let m1 := fill_identity ptFrameAddr ENTRIES_PER_PAGE 0 0 memory
  let m2 := fill_directory frameAddr ptFrameAddr (shared_size / (PAGE_SIZE * ENTRIES_PER_PAGE)) 0 m1
  let m3 := fill_rest frameAddr (ENTRIES_PER_PAGE - 1) 1 m2
  ⟨r2.2, process, shared_size, frameAddr, m3, []⟩

/-- `PageTable::register_pool`. -/
def register_pool (s : State) (vm_pool : VMPool.Pool) : State :=
  ⟨s.kernel_mem_pool, s.process_mem_pool, s.shared_size, s.page_directory, s.memory,
    s.VMPools ++ [vm_pool]⟩

/-- The leaf table directory entry `j` points at: `page_directory[j] & 0xFFFFF000`. -/
def leaf_table (s : State) (j : Nat) : Nat :=
  read s.memory s.page_directory j &&& 0xFFFFF000

/-- The address of the frame `kernel_mem_pool->get_frames(1)` hands out next, line 102. -/
def next_table (s : State) : Nat :=
  ((ContFramePool.get_frames s.kernel_mem_pool 1).1 * PAGE_SIZE) % 2 ^ 32

/-- The directory, the leaf tables of its present entries and the frame the kernel pool hands
out next are different pages, and the directory starts a page. -/
def tables_separate (s : State) : Prop :=
  s.page_directory % PAGE_SIZE = 0 ∧ next_table s ≠ s.page_directory ∧
  ∀ j, j < ENTRIES_PER_PAGE → read s.memory s.page_directory j &&& 0x1 = 0x1 →
    leaf_table s j ≠ s.page_directory ∧ leaf_table s j ≠ next_table s

/-- The page at address `x` is a frame of the kernel pool that is not free: its `bitmap` bit
is clear. -/
def table_frame_allocated (s : State) (x : Nat) : Prop :=
  ∃ i, i < s.kernel_mem_pool.nframes ∧
    x = (s.kernel_mem_pool.base_frame_no + i) * PAGE_SIZE ∧
    ContFramePool.bitmapResult s.kernel_mem_pool i = false

/-- The directory and the leaf tables of its present entries lie in frames of the kernel pool
that are not free, and no leaf table is the directory. -/
def tables_allocated (s : State) : Prop :=
  table_frame_allocated s s.page_directory ∧
  ∀ j, j < ENTRIES_PER_PAGE → read s.memory s.page_directory j &&& 0x1 = 0x1 →
    leaf_table s j ≠ s.page_directory ∧ table_frame_allocated s (leaf_table s j)

/-- The pool can supply a frame: it is a pool as the constructor lays it out (the frame count
a multiple of 8, the two bitmaps with their `nframes / 8` bytes each), it lies below frame
2 ^ 20, so that the address of a frame fits 32 bits, and it has a FREE frame. -/
def can_supply (p : ContFramePool.Pool) : Prop :=
  p.nframes % 8 = 0 ∧ p.nframes / 8 + p.nframes / 8 ≤ p.mem.length ∧
  p.base_frame_no + p.nframes ≤ 2 ^ 20 ∧
  ∃ i, i < p.nframes ∧ ContFramePool.frame_state p i = ContFramePool.FrameState.FREE

/-- The call `get_frames(1)` that leads from pool `p` to pool `q` takes one frame: one frame
of the pool, counted as free by the scan before, is HEAD_OF_SEQUENCE afterwards, and every
other frame of the pool keeps its state. -/
def takes_one_frame (p q : ContFramePool.Pool) : Prop :=
  ∃ i, i < p.nframes ∧ ContFramePool.bitmapResult p i = true ∧
    ContFramePool.frame_state q i = ContFramePool.FrameState.HEAD_OF_SEQUENCE ∧
    ∀ j, j < p.nframes → j ≠ i → ContFramePool.frame_state q j = ContFramePool.frame_state p j

/-- Modelled from the spec: the translation of the hardware, which is no code of the sources:
the address is mapped when its directory entry and its leaf entry are present. -/
def mapped (s : State) (address : Nat) : Bool :=
  (read s.memory s.page_directory (address >>> 22) &&& 0x1 == 0x1) &&
    (read s.memory (leaf_table s (address >>> 22)) ((address >>> 12) &&& 0x3FF) &&& 0x1 == 0x1)

/-- Modelled from the spec: a touch of a logical address: the access proceeds without a fault
when the address is mapped, otherwise `handle_fault` runs. -/
def touch (s : State) (address : Nat) : FaultResult :=
  if mapped s address then FaultResult.handled s else handle_fault s address


/-- An 8-frame kernel pool at frame 512 with self-hosted bitmaps after two `get_frames(1)`:
frames 512 (bitmaps), 513 (page directory) and 514 (first leaf table) HEAD_OF_SEQUENCE, the
others FREE. -/
def paging_kernel_pool : ContFramePool.Pool := ⟨512, 8, 0, 0, [0x1F, 0xE0]⟩

/-- Physical memory with the directory of a 4 MB shared area in frame 513: entry 0 points at the
leaf table in frame 514 and is present, the other 1023 entries hold 2; every other word is 0. -/
def paging_memory : Nat → Nat :=
  fun x => if x = 2101248 then 2105347 else if 2101248 < x ∧ x < 2105344 then 2 else 0

/-- A logical pool of 16 pages at 1 GB, no region allocated: its first page is legitimate. -/
def paging_vm_pool : VMPool.Pool := VMPool.construct 1073741824 65536 (VMPool.words [])

/-- A state after boot: the pools of `kernel.C` scaled to 8 frames each, the process pool fresh,
a 4 MB shared area, the directory in frame 513, one registered logical pool. -/
def paging_state : State :=
  ⟨paging_kernel_pool, ContFramePool.process_pool_8, 4194304, 2101248, paging_memory,
    [paging_vm_pool]⟩

/-- The state `paging_state` with every frame of the process pool HEAD_OF_SEQUENCE. -/
def exhausted_state : State :=
  ⟨paging_kernel_pool, ⟨1024, 8, 513, 1, [0x00, 0xFF]⟩, 4194304, 2101248, paging_memory,
    [paging_vm_pool]⟩

/-- The state `paging_state` with frame 1024 of the process pool HEAD_OF_SEQUENCE and the word
at physical address 4 holding 4194304, the address of frame 1024 with the present bit clear.
Directory entry 256 is not present. -/
def low_word_state : State :=
  ⟨paging_kernel_pool, ⟨1024, 8, 513, 1, [0x7F, 0x80]⟩, 4194304, 2101248,
    write paging_memory 0 1 4194304, [paging_vm_pool]⟩

end PageTable

namespace ContFramePool

/-- The loop of `needed_info_frames` with its `unsigned int` arithmetic: `pageNumber++` and the
product `numberOfFramesRepresentedPerFrameUsed * pageNumber` are taken modulo 2 ^ 32.  The result
is `none` when the loop has not returned within `fuel` rounds. -/
def needed_info_frames_wrapping_loop (n_frames : Nat) : Nat → Nat → Option Nat
  | 0, _ => none
  | fuel + 1, pageNumber =>
    if ((FRAME_SIZE / 2) * ((pageNumber + 1) % 2 ^ 32)) % 2 ^ 32 ≥ n_frames then
      some ((pageNumber + 1) % 2 ^ 32)
    else needed_info_frames_wrapping_loop n_frames fuel ((pageNumber + 1) % 2 ^ 32)

/-- `ContFramePool::needed_info_frames` with 32-bit arithmetic, run for at most `fuel` rounds. -/
def needed_info_frames_wrapping (n_frames fuel : Nat) : Option Nat :=
  needed_info_frames_wrapping_loop n_frames fuel 0


/-- A 16-frame pool at frame 1024, bitmaps in frame 513 of another pool, after the constructor,
`mark_inaccessible(1024, 3)`, `get_frames(1)` and `get_frames(12)`: frames 1024..1026
inaccessible, frame 1027 HEAD_OF_SEQUENCE, and the run that frame 1028 heads extends to the
last frame of the pool. -/
def run_to_end_pool : Pool := ⟨1024, 16, 513, 1, [0x00, 0x00, 0x18, 0x00]⟩

end ContFramePool

namespace PageTable

/-- The state `paging_state` with a kernel pool that has no FREE frame left: frames 512..515
HEAD_OF_SEQUENCE, frames 516..519 ALLOCATED_TAIL. -/
def kernel_exhausted_state : State :=
  ⟨⟨512, 8, 0, 0, [0x00, 0xF0]⟩, ContFramePool.process_pool_8, 4194304, 2101248, paging_memory,
    [paging_vm_pool]⟩

end PageTable

namespace VMPool

/-- The pool after `k` calls `allocate(1)` in a row. -/
def allocate_times : Nat → Pool → Pool
  | 0, st => st
  | k + 1, st => allocate_times k (allocate st 1).2

/-- Every tracked entry that holds a region starts below the end of the pool. -/
def starts_inside (st : Pool) : Prop :=
  ∀ j, j < st.memoryRegionsSize → j % 2 = 0 → st.memoryRegions j ≠ 0 →
    st.memoryRegions j < st.base_address + st.size

/-- The first `m` entries of the list hold the first `m` pages behind the first page of the
pool, one page each, and the list has no further entry. -/
def packed (st : Pool) (m : Nat) : Prop :=
  st.memoryRegionsSize = 2 * m ∧
  ∀ e, e < m → st.memoryRegions (2 * e) = st.base_address + (e + 1) * PAGE_SIZE ∧
    st.memoryRegions (2 * e + 1) = PAGE_SIZE

end VMPool

namespace VMPool

/-! ## The 32-bit arithmetic of `vm_pool.C`

`unsigned long` has 32 bits on the i386 target of the kernel.  The definitions below follow
`allocate` and `release` sum by sum, every `unsigned long` sum taken modulo 2 ^ 32, and return
`none` when a loop has not ended within the rounds allowed.  `free_page` is a call into the page
table: it is a parameter, a step on a page table state that may not return.
-/

/-- The loop of `allocate`, lines 93-97, in `unsigned long` arithmetic: `memoryToAllocate +=
PAGE_SIZE` and `pagesToAllocate++` are taken modulo 2 ^ 32.  The result is `none` when the loop
has not ended within `fuel` rounds. -/
def round_up_loop_wrapping (size : Nat) : Nat → Nat → Nat → Option (Nat × Nat)
  | 0, _, _ => none
  | fuel + 1, memoryToAllocate, pagesToAllocate =>
    if memoryToAllocate < size then
      round_up_loop_wrapping size fuel ((memoryToAllocate + PAGE_SIZE) % 2 ^ 32)
        ((pagesToAllocate + 1) % 2 ^ 32)
    else some (memoryToAllocate, pagesToAllocate)

/-- The inner loop of `allocate`, lines 117-135, for the page at address `i`, from entry word
`j` on, with the end of a region, `memoryRegions[j] + memoryRegions[j+1]`, taken modulo 2 ^ 32
(line 128).  Returns `(withinExistingRegion, firstReleasedIndex)`. -/
def scan_regions_wrapping (st : Pool) (i : Nat) : Nat → Nat → Nat → Bool × Nat
  | 0, _, firstReleasedIndex => (false, firstReleasedIndex)
  | fuel + 1, j, firstReleasedIndex =>
    if j < st.memoryRegionsSize then
      let released := if st.memoryRegions j = 0 then j else firstReleasedIndex
      if i ≥ st.memoryRegions j ∧
          i < (st.memoryRegions j + st.memoryRegions (j + 1)) % 2 ^ 32 then
        (true, released)
      else scan_regions_wrapping st i fuel (j + 2) released
    else (false, firstReleasedIndex)

/-- The outer loop of `allocate`, lines 112-176, in `unsigned long` arithmetic: the bound
`base_address + size`, the step `i += PAGE_SIZE` and `pagesAbleToBeAllocated++` are taken modulo
2 ^ 32.  Returns the address handed out (0 from line 179) and the pool afterwards, `none` when
the loop has not ended within `fuel` rounds. -/
def allocate_loop_wrapping (st : Pool) (memoryToAllocate pagesToAllocate : Nat) :
    Nat → Nat → Nat → Nat → Bool → Nat → Option (Nat × Pool)
  | 0, _, _, _, _, _ => none
  | fuel + 1, i, startAddress, pagesAbleToBeAllocated, atStartPoint, firstReleasedIndex =>
    if i < (st.base_address + st.size) % 2 ^ 32 then
      let r := scan_regions_wrapping st i st.memoryRegionsSize 0 firstReleasedIndex
      let withinExistingRegion := r.1
      let released := r.2
      let pages := if withinExistingRegion then 0 else (pagesAbleToBeAllocated + 1) % 2 ^ 32
      let start :=
        if withinExistingRegion then 0 else if atStartPoint then i else startAddress
      let atStart := if withinExistingRegion then true else false
      if pages ≥ pagesToAllocate then
        if released = st.memoryRegionsSize then
          some (start,
            { st with
              memoryRegions :=
                store (store st.memoryRegions st.memoryRegionsSize start)
                  (st.memoryRegionsSize + 1) memoryToAllocate
              memoryRegionsSize := st.memoryRegionsSize + 2 })
        else
          some (start,
            { st with
              memoryRegions :=
                store (store st.memoryRegions released start) (released + 1) memoryToAllocate })
      else allocate_loop_wrapping st memoryToAllocate pagesToAllocate fuel
        ((i + PAGE_SIZE) % 2 ^ 32) start pages atStart released
    else some (0, st)

/-- `VMPool::allocate` in `unsigned long` arithmetic, each of its two loops run for at most
`fuel` rounds. -/
def allocate_wrapping (fuel : Nat) (st : Pool) (size : Nat) : Option (Nat × Pool) :=
  match round_up_loop_wrapping size fuel 0 0 with
  | none => none
  | some r =>
    allocate_loop_wrapping st r.1 r.2 fuel ((st.base_address + PAGE_SIZE) % 2 ^ 32) 0 0 true
      st.memoryRegionsSize

/-- The loop of `release`, lines 214-217, in `unsigned long` arithmetic: `free_page(j >> 12)` for
`j` from the current address on while `j < bound`, the step `j += PAGE_SIZE` taken modulo
2 ^ 32.  Returns the page table state after the calls, `none` when a call does not return or the
loop has not ended within `fuel` rounds. -/
def free_pages_wrapping {σ : Type} (free_page : σ → Nat → Option σ) (bound : Nat) :
    Nat → Nat → σ → Option σ
  | 0, _, _ => none
  | fuel + 1, j, pt =>
    if j < bound then
      match free_page pt (j >>> 12) with
      | none => none
      | some pt1 => free_pages_wrapping free_page bound fuel ((j + PAGE_SIZE) % 2 ^ 32) pt1
    else some pt

/-- The loop of `release`, lines 209-223, from entry word `i` on (`i <= memoryRegionsSize`), the
bound of the inner loop, `memoryRegions[i] + memoryRegions[i+1]`, taken modulo 2 ^ 32 (line
214).  Returns the pool and the page table state afterwards. -/
def release_loop_wrapping {σ : Type} (free_page : σ → Nat → Option σ) (st : Pool)
    (start_address fuel : Nat) : Nat → Nat → σ → Option (Pool × σ)
  | 0, _, _ => none
  | rounds + 1, i, pt =>
    if i ≤ st.memoryRegionsSize then
      if st.memoryRegions i = start_address then
        match free_pages_wrapping free_page
            ((st.memoryRegions i + st.memoryRegions (i + 1)) % 2 ^ 32) fuel start_address pt with
        | none => none
        | some pt1 =>
          some ({ st with memoryRegions := store (store st.memoryRegions i 0) (i + 1) 0 }, pt1)
      else release_loop_wrapping free_page st start_address fuel rounds (i + 2) pt
    else some (st, pt)

/-- `VMPool::release` in `unsigned long` arithmetic, on the page table state `pt`, the loop of
lines 214-217 run for at most `fuel` rounds.  The loop over the entries ends within
`memoryRegionsSize + 1` rounds. -/
def release_wrapping {σ : Type} (free_page : σ → Nat → Option σ) (fuel : Nat) (st : Pool)
    (start_address : Nat) (pt : σ) : Option (Pool × σ) :=
  release_loop_wrapping free_page st start_address fuel (st.memoryRegionsSize + 1) 0 pt

/-- The calls `free_page(p)` for the page numbers `p` of a list, in the order of the list, each
made when the one before it has returned. -/
def free_page_calls {σ : Type} (free_page : σ → Nat → Option σ) : List Nat → σ → Option σ
  | [], pt => some pt
  | p :: rest, pt =>
    match free_page pt p with
    | none => none
    | some pt1 => free_page_calls free_page rest pt1

/-- A page table that only records the page numbers `free_page` is called with, in call
order. -/
def record_call (calls : List Nat) (page_no : Nat) : Option (List Nat) := some (calls ++ [page_no])

/-- The states a pool goes through with the 32-bit arithmetic of the code: construction on any
first page, then calls `allocate` with `_size >= 1` and calls `release`, with any page table,
that return. -/
inductive Reachable_wrapping : Pool → Prop where
  | construct (base_address size : Nat) (memory : Nat → Nat) :
    Reachable_wrapping (construct base_address size memory)
  | allocate (st : Pool) (size fuel : Nat) (r : Nat × Pool) :
    Reachable_wrapping st → 1 ≤ size → allocate_wrapping fuel st size = some r →
    Reachable_wrapping r.2
  | release {σ : Type} (free_page : σ → Nat → Option σ) (st : Pool) (start_address fuel : Nat)
    (pt : σ) (r : Pool × σ) :
    Reachable_wrapping st → release_wrapping free_page fuel st start_address pt = some r →
    Reachable_wrapping r.1

/-- No address sum of the scan of `allocate` leaves the 32-bit range: the first page of the pool
and the range of the pool, its size rounded up to whole pages, end below 2 ^ 32.  For a size that
is a multiple of PAGE_SIZE, at least one page, this is `base_address + size < 2 ^ 32`. -/
def below_top (st : Pool) : Prop :=
  st.base_address + PAGE_SIZE < 2 ^ 32 ∧
    st.base_address + pages_of st.size * PAGE_SIZE < 2 ^ 32

instance (st : Pool) : Decidable (below_top st) := by
  unfold below_top; exact inferInstance

/-- Every tracked entry `(start, length)` has `start + length < 2 ^ 32`: no region of the list
reaches the top of the 32-bit address space. -/
def regions_below_top (st : Pool) : Prop :=
  ∀ j, j < st.memoryRegionsSize → j % 2 = 0 →
    st.memoryRegions j + st.memoryRegions (j + 1) < 2 ^ 32

instance (st : Pool) : Decidable (regions_below_top st) := by
  unfold regions_below_top; exact inferInstance

/-- The pool after `k` calls `allocate(size)` in a row, in `unsigned long` arithmetic, `none`
when one of them has not returned within `fuel` rounds. -/
def allocate_times_wrapping (fuel size : Nat) : Nat → Pool → Option Pool
  | 0, st => some st
  | k + 1, st =>
    match allocate_wrapping fuel st size with
    | none => none
    | some r => allocate_times_wrapping fuel size k r.2

/-- The list holds `m` entries, each the pair `(a, len)`. -/
def repeated (st : Pool) (a len m : Nat) : Prop :=
  st.memoryRegionsSize = 2 * m ∧
  ∀ e, e < m → st.memoryRegions (2 * e) = a ∧ st.memoryRegions (2 * e + 1) = len

/-- The pool after `k` entries `(a, len)` are written behind the list, one after the other. -/
def record_times (a len : Nat) : Nat → Pool → Pool
  | 0, st => st
  | k + 1, st =>
    record_times a len k
      ⟨st.base_address, st.size,
        store (store st.memoryRegions st.memoryRegionsSize a) (st.memoryRegionsSize + 1) len,
        st.memoryRegionsSize + 2⟩

/-- The pool of 8191 bytes at 0xFFFFE000 after its first `allocate(1)`: the page at 0xFFFFF000,
the only one that starts behind the first page and below the end of the pool, is recorded as
the region (0xFFFFF000, 0x1000), which ends at 2 ^ 32. -/
def top_pool : Pool := ⟨4294959104, 8191, store (store (words []) 0 4294963200) 1 4096, 2⟩

/-- The pool of 16 pages at 65536 on a zeroed first page after `allocate(1)` and
`allocate(4096)`: the list is `(69632, 4096), (73728, 4096)`. -/
def two_regions_pool : Pool :=
  ⟨65536, 65536, store (store (store (store (words []) 0 69632) 1 4096) 2 73728) 3 4096, 4⟩

end VMPool

/-! # Scheduler

`scheduler.C` of "5-Drive IO".  The ready queue is a singly linked list through the member
`next` of the thread objects: `listEnd` points at the thread added last and the thread added
first has `next == NULL`.  Thread objects are named by their addresses, `NULL` is 0, and `next`
gives the member `next` of the object at an address.  `Thread::dispatch_to` and the console
output are left out: `yield` reports the thread it hands to `dispatch_to`.
-/

namespace Scheduler

/-- The member `listEnd` of the scheduler and the members `next` of the thread objects (the
class `Thread` is declared in `thread.H`, which is not among the sources; only its member `next`
is used). -/
structure State where
  listEnd : Nat
  next : Nat → Nat

/-- `Scheduler::Scheduler`: `listEnd = NULL`; the thread objects are as they are. -/
def construct (next : Nat → Nat) : State := ⟨0, next⟩

/-- `Scheduler::add`: `_thread->next = listEnd; listEnd = _thread`. -/
def add (s : State) (thread : Nat) : State :=
  ⟨thread, fun t => if t = thread then s.listEnd else s.next t⟩

/-- `Scheduler::resume`, which calls `add`. -/
def resume (s : State) (thread : Nat) : State := add s thread

/-- How `yield` ends: it returns at line 71 on an empty queue; or it reaches
`Thread::dispatch_to(currentNode)`; or the store `previousNode->next = NULL` of line 93 is made
with `previousNode == NULL`, a store through the null pointer, given with the thread and the
state `dispatch_to` is reached with if the store does no further harm; or the walk of lines
79-82 has not ended within the rounds allowed. -/
inductive Outcome where
  | emptyQueue (s : State)
  | dispatched (thread : Nat) (s : State)
  | nullStore (thread : Nat) (s : State)
  | walking

/-- The loop of `yield`, lines 79-82, with the locals `currentNode` and `previousNode`. -/
def yield_walk (next : Nat → Nat) : Nat → Nat → Nat → Option (Nat × Nat)
  | 0, _, _ => none
  | fuel + 1, currentNode, previousNode =>
    if next currentNode ≠ 0 then yield_walk next fuel (next currentNode) currentNode
    else some (currentNode, previousNode)

/-- `Scheduler::yield`, the walk run for at most `fuel` rounds. -/
def yield (s : State) (fuel : Nat) : Outcome :=
  if s.listEnd = 0 then Outcome.emptyQueue s
  else
    match yield_walk s.next fuel s.listEnd 0 with
    | none => Outcome.walking
    | some (currentNode, previousNode) =>
      let listEnd := if previousNode = 0 then 0 else s.listEnd
      let s1 : State := ⟨listEnd, fun t => if t = previousNode then 0 else s.next t⟩
      if previousNode = 0 then Outcome.nullStore currentNode s1
      else Outcome.dispatched currentNode s1

/-- The list that starts at `p` holds the threads `l`, the thread added last first: every one
is a thread object (not `NULL`), linked to the following one, and the last has `next == NULL`. -/
def chain (next : Nat → Nat) : Nat → List Nat → Prop
  | p, [] => p = 0
  | p, t :: rest => p = t ∧ t ≠ 0 ∧ chain next (next t) rest

/-- The ready queue of state `s` holds the threads `l`, the thread added last first, each
once. -/
def queue (s : State) (l : List Nat) : Prop := chain s.next s.listEnd l ∧ l.Nodup

end Scheduler

namespace ContFramePool

/-! ## The scan of `get_frames` -/

theorem bitmapResult_of_not_free (p : Pool) (i : Nat)
    (h : frame_state p i = FrameState.HEAD_OF_SEQUENCE ∨
      frame_state p i = FrameState.ALLOCATED_TAIL) : bitmapResult p i = false := by
  unfold frame_state at h
  cases hb : bitmapResult p i <;> cases hb2 : bitmap2Result p i <;> simp [hb, hb2] at h ⊢

theorem get_frames_loop_no_run (p : Pool) (n : Nat) (hn : 1 ≤ n)
    (hno : ∀ k, k + n ≤ p.nframes → ∃ j, j < n ∧ bitmapResult p (k + j) = false) :
    ∀ fuel i c h, i + fuel = p.nframes → c ≤ i → c < n →
      (∀ j, j < c → bitmapResult p (i - c + j) = true) →
      get_frames_loop p n fuel i c h = (0, p) := by
  intro fuel
  induction fuel with
  | zero => intros; rfl
  | succ fuel ih =>
    intro i c h hi hc hcn hrun
    unfold get_frames_loop
    by_cases hb : bitmapResult p i = true
    · by_cases hge : c + 1 ≥ n
      · exfalso
        obtain ⟨j, hj, hjf⟩ := hno (i - c) (by omega)
        by_cases hjc : j < c
        · rw [hrun j hjc] at hjf; cases hjf
        · have hij : i - c + j = i := by omega
          rw [hij, hb] at hjf; cases hjf
      · simp only [hb, hge, if_true, if_false]
        apply ih (i + 1) (c + 1) _ (by omega) (by omega) (by omega)
        intro j hj
        by_cases hjc : j < c
        · have hij : i + 1 - (c + 1) + j = i - c + j := by omega
          rw [hij]; exact hrun j hjc
        · have hij : i + 1 - (c + 1) + j = i := by omega
          rw [hij]; exact hb
    · simp only [hb, if_false]
      apply ih (i + 1) 0 0 (by omega) (by omega) (by omega)
      intro j hj; omega

/-! ## Claims on `get_frames` -/

/-- C1 (first fit), evaluated where the code departs from it: in the freshly constructed pool
`process_pool_8` frames 0 and 1 are FREE, so the lowest run of 2 free frames starts at
pool-relative index 0, yet `get_frames(2)` returns `base_frame_no + 1`: the local
`indexOfHeadOfSequence` uses 0 for "not set" and is overwritten at the second frame. -/
theorem get_frames_skips_frame_zero :
    construct 1024 8 513 1 [0, 0] = Outcome.done process_pool_8 ∧
    free_run process_pool_8 0 2 ∧
    (get_frames process_pool_8 2).1 = process_pool_8.base_frame_no + 1 := by
  decide

/-- C2 (marks of a successful allocation), evaluated where the code departs from it: on the
fresh pool `process_pool_8`, `get_frames(2)` returns f = 1025 and marks frame f
HEAD_OF_SEQUENCE, but frame f + 1 (pool-relative index 2) stays FREE instead of becoming
ALLOCATED_TAIL: only one frame is taken for a request of two. -/
theorem get_frames_marks_one_frame_for_two :
    get_frames process_pool_8 2 = (1025, ⟨1024, 8, 513, 1, [0xBF, 0x40]⟩) ∧
    frame_state (get_frames process_pool_8 2).2 1 = FrameState.HEAD_OF_SEQUENCE ∧
    frame_state (get_frames process_pool_8 2).2 2 = FrameState.FREE := by
  decide

/-- C3 (no run, no allocation), evaluated where the code departs from it: the pool reached from
construction by two `get_frames(1)` calls and the release of the first of the two frames has
frame 2, the head of the second allocation, with both bits set; it holds no run of 6 FREE
frames (the free runs are frame 1 and frames 3 to 7), yet `get_frames(6)` returns 513 and
rewrites the bitmaps, frame 514 handed out a second time: the scan tests the `bitmap` bit
alone (line 231), where the comment of line 240 takes every frame of the run to be FREE. -/
theorem get_frames_counts_both_set_frame :
    construct 512 8 0 0 [0, 0] = Outcome.done kernel_pool_8 ∧
    get_frames kernel_pool_8 1 = (513, ⟨512, 8, 0, 0, [0x3F, 0xC0]⟩) ∧
    get_frames ⟨512, 8, 0, 0, [0x3F, 0xC0]⟩ 1 = (514, ⟨512, 8, 0, 0, [0x1F, 0xE0]⟩) ∧
    release_frames [⟨512, 8, 0, 0, [0x1F, 0xE0]⟩] 513
      = Outcome.done [⟨512, 8, 0, 0, [0x7F, 0xA0]⟩] ∧
    (∀ k, ¬ free_run ⟨512, 8, 0, 0, [0x7F, 0xA0]⟩ k 6) ∧
    get_frames ⟨512, 8, 0, 0, [0x7F, 0xA0]⟩ 6 = (513, ⟨512, 8, 0, 0, [0x01, 0xE0]⟩) := by
  refine ⟨by decide, by decide, by decide, by decide, ?_, by decide⟩
  intro k hk
  have hk2 : k ≤ 2 := by
    have h8 := hk.1
    simp only at h8
    omega
  interval_cases k <;> revert hk <;> decide

/-- Where every window of n >= 1 contiguous frames of the pool holds a frame that is
HEAD_OF_SEQUENCE or ALLOCATED_TAIL, `get_frames(n)` returns 0 and leaves the pool, both bitmap
arrays included, unchanged.  In a pool without a frame that has both bits set these are the
pools with no run of n FREE frames. -/
theorem get_frames_no_run (p : Pool) (n : Nat) (hn : 1 ≤ n)
    (h : ∀ k, k + n ≤ p.nframes → ∃ j, j < n ∧
      (frame_state p (k + j) = FrameState.HEAD_OF_SEQUENCE ∨
        frame_state p (k + j) = FrameState.ALLOCATED_TAIL)) :
    get_frames p n = (0, p) := by
  unfold get_frames
  apply get_frames_loop_no_run p n hn _ p.nframes 0 0 0 (by omega) (by omega) (by omega)
  · intro j hj; omega
  · intro k hk
    obtain ⟨j, hj, hs⟩ := h k hk
    exact ⟨j, hj, bitmapResult_of_not_free p (k + j) hs⟩

/-- An instance of `get_frames_no_run`: a fragmented pool, states H F F H F F H H, has four
free frames but no run of three, and `get_frames(3)` returns 0 without touching it. -/
theorem get_frames_no_run_witness :
    get_frames ⟨512, 8, 0, 0, [0x6C, 0x93]⟩ 3 = (0, ⟨512, 8, 0, 0, [0x6C, 0x93]⟩) :=
  get_frames_no_run ⟨512, 8, 0, 0, [0x6C, 0x93]⟩ 3 (by decide) (by
    intro k hk
    have hk5 : k ≤ 5 := by simpa using hk
    interval_cases k <;> decide)

/-- C4 (no double allocation), evaluated where the code departs from it: on the fresh pool
`process_pool_8`, `get_frames(2)` returns 1025 and the next `get_frames(2)` returns 1026, so
frame 1026 lies in both [1025, 1025 + 2) and [1026, 1026 + 2). -/
theorem get_frames_twice_overlap :
    construct 1024 8 513 1 [0, 0] = Outcome.done process_pool_8 ∧
    get_frames process_pool_8 2 = (1025, ⟨1024, 8, 513, 1, [0xBF, 0x40]⟩) ∧
    get_frames ⟨1024, 8, 513, 1, [0xBF, 0x40]⟩ 2 = (1026, ⟨1024, 8, 513, 1, [0x8F, 0x60]⟩) ∧
    (get_frames process_pool_8 2).1 ≤ 1026 ∧ 1026 < (get_frames process_pool_8 2).1 + 2 ∧
    (get_frames (get_frames process_pool_8 2).2 2).1 ≤ 1026 ∧
    1026 < (get_frames (get_frames process_pool_8 2).2 2).1 + 2 := by
  decide

/-! ## Release of a frame that is not a head -/

theorem release_frame_not_head (p : Pool) (f : Nat) (h8 : p.nframes % 8 = 0)
    (hmem : p.nframes / 8 + p.nframes / 8 ≤ p.mem.length)
    (hlo : p.base_frame_no ≤ f) (hhi : f < p.base_frame_no + p.nframes)
    (hs : frame_state p (f - p.base_frame_no) ≠ FrameState.HEAD_OF_SEQUENCE) :
    release_frame p f = Outcome.assertFailed p := by
  have hidx : (f - p.base_frame_no) / 8 < p.nframes / 8 := by omega
  unfold release_frame
  simp only
  rw [if_neg (by omega)]
  by_cases hb : bitmapResult p (f - p.base_frame_no) = true
  · rw [if_pos hb]
  · rw [if_neg hb, if_neg (by omega)]
    by_cases hb2 : bitmap2Result p (f - p.base_frame_no) = true
    · exfalso
      apply hs
      unfold frame_state
      simp at hb
      rw [hb, hb2]
    · rw [if_neg hb2]

/-- When no pool registered before `p` passes the range test for `f`, and `f` is a frame of `p`
that is not HEAD_OF_SEQUENCE, `release_frames(f)` fails the assertion with every pool as it
was. -/
theorem release_frames_not_head (pre post : List Pool) (p : Pool) (f : Nat)
    (hpre : ∀ q, q ∈ pre → in_pool_range q f = false) (h8 : p.nframes % 8 = 0)
    (hmem : p.nframes / 8 + p.nframes / 8 ≤ p.mem.length)
    (hlo : p.base_frame_no ≤ f) (hhi : f < p.base_frame_no + p.nframes)
    (hs : frame_state p (f - p.base_frame_no) ≠ FrameState.HEAD_OF_SEQUENCE) :
    release_frames (pre ++ p :: post) f = Outcome.assertFailed (pre ++ p :: post) := by
  induction pre with
  | nil =>
    have hr : in_pool_range p f = true := by
      unfold in_pool_range
      simp
      omega
    simp only [List.nil_append]
    unfold release_frames
    rw [if_pos hr, release_frame_not_head p f h8 hmem hlo hhi hs]
  | cons q pre ih =>
    have hq : in_pool_range q f = false := hpre q (List.mem_cons_self q pre)
    have ih1 := ih (fun r hr => hpre r (List.mem_cons_of_mem q hr))
    simp only [List.cons_append]
    unfold release_frames
    simp only [hq, ih1]
    simp

/-! ## Claims on release and `mark_inaccessible` -/

/-- C5 (allocation/release round trip), evaluated where the code departs from it.  First: on the
pool built by the constructor and `mark_inaccessible(514, 2)`, `get_frames(1)` returns 513 and
`release_frames(513)` then also sets the two frames of the hole FREE, so the bitmaps after the
release differ from those before the allocation.  Second: on the pool reached from the fresh
`process_pool_8` by `get_frames(2)`, `get_frames(1)` returns 1024 and `release_frames(1024)`
leaves frame 1025, HEAD_OF_SEQUENCE before, with both bits set. -/
theorem release_after_get_frames_changes_bitmaps :
    (construct 512 16 0 0 [0, 0, 0, 0] = Outcome.done kernel_pool_16 ∧
      mark_inaccessible kernel_pool_16 514 2 = Outcome.done holed_pool_16 ∧
      get_frames holed_pool_16 1 = (513, ⟨512, 16, 0, 0, [0x0F, 0xFF, 0xC0, 0x00]⟩) ∧
      release_frames [⟨512, 16, 0, 0, [0x0F, 0xFF, 0xC0, 0x00]⟩] 513
        = Outcome.done [⟨512, 16, 0, 0, [0x7F, 0xFF, 0x80, 0x00]⟩] ∧
      frame_state holed_pool_16 2 = FrameState.ALLOCATED_TAIL ∧
      frame_state ⟨512, 16, 0, 0, [0x7F, 0xFF, 0x80, 0x00]⟩ 2 = FrameState.FREE) ∧
    (get_frames process_pool_8 2 = (1025, ⟨1024, 8, 513, 1, [0xBF, 0x40]⟩) ∧
      get_frames ⟨1024, 8, 513, 1, [0xBF, 0x40]⟩ 1 = (1024, ⟨1024, 8, 513, 1, [0x3F, 0xC0]⟩) ∧
      release_frames [⟨1024, 8, 513, 1, [0x3F, 0xC0]⟩] 1024
        = Outcome.done [⟨1024, 8, 513, 1, [0xFF, 0x40]⟩] ∧
      frame_state ⟨1024, 8, 513, 1, [0xBF, 0x40]⟩ 1 = FrameState.HEAD_OF_SEQUENCE ∧
      frame_state ⟨1024, 8, 513, 1, [0xFF, 0x40]⟩ 1 = FrameState.BOTH_SET) := by
  decide

/-- C6 (frame pool invariant), evaluated where the code departs from it.  From construction,
`get_frames(2)` twice and `release_frames` of the first run reach a pool whose frame 3 has both
bits set; and `mark_inaccessible(514, 2)` on a fresh pool leaves the ALLOCATED_TAIL frame 2
right after the FREE frame 1, with no HEAD_OF_SEQUENCE frame before it in its run. -/
theorem reachable_pool_breaks_invariant :
    (construct 512 8 0 0 [0, 0] = Outcome.done kernel_pool_8 ∧
      get_frames kernel_pool_8 2 = (513, ⟨512, 8, 0, 0, [0x1F, 0xC0]⟩) ∧
      get_frames ⟨512, 8, 0, 0, [0x1F, 0xC0]⟩ 2 = (515, two_runs_8) ∧
      release_frames [two_runs_8] 513 = Outcome.done [⟨512, 8, 0, 0, [0x7F, 0x90]⟩] ∧
      frame_state ⟨512, 8, 0, 0, [0x7F, 0x90]⟩ 3 = FrameState.BOTH_SET) ∧
    (construct 512 16 0 0 [0, 0, 0, 0] = Outcome.done kernel_pool_16 ∧
      mark_inaccessible kernel_pool_16 514 2 = Outcome.done holed_pool_16 ∧
      frame_state holed_pool_16 1 = FrameState.FREE ∧
      frame_state holed_pool_16 2 = FrameState.ALLOCATED_TAIL) := by
  decide

/-- C7 (release extent), evaluated where the code departs from it: in `two_runs_8` (states
H H A H A F F F) frame 513 heads the run 513, 514 and frame 515 heads the next run.  The release
of 513 does not stop at the boundary frame 515: it sets that frame's `bitmap` bit (both bits are
then set), sets the tail frame 516 of the next run FREE, and stops at the FREE frame 517. -/
theorem release_frame_runs_over_next_head :
    frame_state two_runs_8 1 = FrameState.HEAD_OF_SEQUENCE ∧
    frame_state two_runs_8 2 = FrameState.ALLOCATED_TAIL ∧
    frame_state two_runs_8 3 = FrameState.HEAD_OF_SEQUENCE ∧
    frame_state two_runs_8 4 = FrameState.ALLOCATED_TAIL ∧
    release_frame two_runs_8 513 = Outcome.done ⟨512, 8, 0, 0, [0x7F, 0x90]⟩ ∧
    frame_state ⟨512, 8, 0, 0, [0x7F, 0x90]⟩ 3 = FrameState.BOTH_SET ∧
    frame_state ⟨512, 8, 0, 0, [0x7F, 0x90]⟩ 4 = FrameState.FREE := by
  decide

/-- C8 (release of a frame that is not a head), evaluated where the code departs from it: two
adjacent pools, 512..519 and 520..527, both with every frame FREE; the byte that follows the
bitmaps of the lower pool in its info frame holds 0xFF.  Frame 520 is FREE in the upper pool.
`release_frames(520)` first passes the range test of the lower pool (`<=`), whose
`release_frame` reads the bits of index 8 beyond its arrays, takes them for a head and sets
every `bitmap2` bit of the lower pool; only then does the upper pool fail the assertion. -/
theorem release_frames_free_frame_changes_lower_pool :
    construct 512 8 300 1 [0, 0, 0xFF] = Outcome.done ⟨512, 8, 300, 1, [0xFF, 0x00, 0xFF]⟩ ∧
    construct 520 8 301 1 [0, 0] = Outcome.done ⟨520, 8, 301, 1, [0xFF, 0x00]⟩ ∧
    frame_state ⟨520, 8, 301, 1, [0xFF, 0x00]⟩ (520 - 520) = FrameState.FREE ∧
    release_frames [⟨512, 8, 300, 1, [0xFF, 0x00, 0xFF]⟩, ⟨520, 8, 301, 1, [0xFF, 0x00]⟩] 520
      = Outcome.assertFailed
          [⟨512, 8, 300, 1, [0xFF, 0xFF, 0xFF]⟩, ⟨520, 8, 301, 1, [0xFF, 0x00]⟩] ∧
    frame_state ⟨512, 8, 300, 1, [0xFF, 0x00, 0xFF]⟩ 0 = FrameState.FREE ∧
    frame_state ⟨512, 8, 300, 1, [0xFF, 0xFF, 0xFF]⟩ 0 = FrameState.BOTH_SET := by
  decide

/-- C9 (release routing), evaluated where the code departs from it: `kernel_pool_8` covers
frames 512..519 and `upper_pool_8` frames 520..527, with frame 520 HEAD_OF_SEQUENCE.  Frame 520
is outside the lower pool, yet the range test of `release_frames` accepts it for the lower
pool, whose `release_frame` is invoked first and fails its assertion, so frame 520 is not
released; with the upper pool alone in the registry the same call releases it. -/
theorem release_frames_delegates_to_lower_pool :
    get_frames ⟨520, 8, 513, 1, [0xFF, 0x00]⟩ 1 = (520, upper_pool_8) ∧
    ¬ (520 < kernel_pool_8.base_frame_no + kernel_pool_8.nframes) ∧
    in_pool_range kernel_pool_8 520 = true ∧
    release_frame kernel_pool_8 520 = Outcome.assertFailed kernel_pool_8 ∧
    release_frames [kernel_pool_8, upper_pool_8] 520
      = Outcome.assertFailed [kernel_pool_8, upper_pool_8] ∧
    release_frames [upper_pool_8] 520 = Outcome.done [⟨520, 8, 513, 1, [0xFF, 0x00]⟩] := by
  decide

/-- C10 (`mark_inaccessible`), evaluated where the code departs from it: on a fresh 16-frame
pool at frame 1024, `mark_inaccessible(1028, 2)` clears both bits of frame 1028 and of frame
1029, so the first frame of the range is ALLOCATED_TAIL, not HEAD_OF_SEQUENCE. -/
theorem mark_inaccessible_writes_no_head :
    construct 1024 16 513 1 [0, 0, 0, 0]
      = Outcome.done ⟨1024, 16, 513, 1, [0xFF, 0xFF, 0x00, 0x00]⟩ ∧
    mark_inaccessible ⟨1024, 16, 513, 1, [0xFF, 0xFF, 0x00, 0x00]⟩ 1028 2
      = Outcome.done ⟨1024, 16, 513, 1, [0xF3, 0xFF, 0x00, 0x00]⟩ ∧
    frame_state ⟨1024, 16, 513, 1, [0xF3, 0xFF, 0x00, 0x00]⟩ (1028 - 1024)
      = FrameState.ALLOCATED_TAIL ∧
    frame_state ⟨1024, 16, 513, 1, [0xF3, 0xFF, 0x00, 0x00]⟩ (1029 - 1024)
      = FrameState.ALLOCATED_TAIL := by
  decide

end ContFramePool

namespace VMPool

/-! ## The loops of `allocate` -/

theorem round_up_loop_eq (n : Nat) :
    ∀ fuel m p, m = p * PAGE_SIZE → n ≤ m + fuel → (p = 0 ∨ (p - 1) * PAGE_SIZE < n) →
      round_up_loop n fuel m p = (pages_of n * PAGE_SIZE, pages_of n) := by
  intro fuel
  induction fuel with
  | zero =>
    intro m p hm hf hp
    unfold round_up_loop
    have hpg : pages_of n = p := by
      unfold pages_of
      unfold PAGE_SIZE at *
      omega
    rw [hpg, hm]
  | succ fuel ih =>
    intro m p hm hf hp
    unfold round_up_loop
    by_cases hlt : m < n
    · rw [if_pos hlt]
      apply ih
      · rw [hm]; ring
      · unfold PAGE_SIZE; omega
      · right
        simp only [Nat.add_sub_cancel]
        rw [← hm]; exact hlt
    · rw [if_neg hlt]
      have hpg : pages_of n = p := by
        unfold pages_of
        unfold PAGE_SIZE at *
        omega
      rw [hpg, hm]

theorem round_up_eq (n : Nat) :
    round_up_loop n n 0 0 = (pages_of n * PAGE_SIZE, pages_of n) :=
  round_up_loop_eq n n 0 0 (by simp) (by omega) (Or.inl rfl)

theorem pages_of_pos (n : Nat) (hn : 1 ≤ n) : 1 ≤ pages_of n := by
  unfold pages_of PAGE_SIZE
  omega


theorem scan_regions_spec (st : Pool) (i : Nat) :
    ∀ fuel j fri, j % 2 = 0 → st.memoryRegionsSize ≤ j + 2 * fuel →
      ((scan_regions st i fuel j fri).1 = true ↔
        ∃ j1, j1 < st.memoryRegionsSize ∧ j1 % 2 = 0 ∧ j ≤ j1 ∧
          st.memoryRegions j1 ≤ i ∧ i < st.memoryRegions j1 + st.memoryRegions (j1 + 1)) ∧
      ((scan_regions st i fuel j fri).2 = fri ∨
        released_slot st (scan_regions st i fuel j fri).2) ∧
      ((scan_regions st i fuel j fri).1 = false →
        (∃ j1, released_slot st j1 ∧ j ≤ j1) →
        released_slot st (scan_regions st i fuel j fri).2) := by
  intro fuel
  induction fuel with
  | zero =>
    intro j fri hj hf
    have hres : scan_regions st i 0 j fri = (false, fri) := by unfold scan_regions; rfl
    rw [hres]
    refine ⟨⟨fun h => absurd h (by simp), ?_⟩, Or.inl rfl, ?_⟩
    · rintro ⟨j1, h1, _, h2, _⟩; omega
    · rintro _ ⟨j1, ⟨h1, _, _⟩, h2⟩; omega
  | succ fuel ih =>
    intro j fri hj hf
    by_cases hlt : j < st.memoryRegionsSize
    · have hrel : (if st.memoryRegions j = 0 then j else fri) = fri ∨
          released_slot st (if st.memoryRegions j = 0 then j else fri) := by
        by_cases hz : st.memoryRegions j = 0
        · right; rw [if_pos hz]; exact ⟨hlt, hj, hz⟩
        · left; rw [if_neg hz]
      by_cases hw : i ≥ st.memoryRegions j ∧
          i < st.memoryRegions j + st.memoryRegions (j + 1)
      · have hres : scan_regions st i (fuel + 1) j fri
            = (true, if st.memoryRegions j = 0 then j else fri) := by
          unfold scan_regions; rw [if_pos hlt]; simp only [if_pos hw]
        rw [hres]
        refine ⟨⟨fun _ => ⟨j, hlt, hj, le_refl j, hw.1, hw.2⟩, fun _ => rfl⟩, hrel, ?_⟩
        intro h; exact absurd h (by simp)
      · have hres : scan_regions st i (fuel + 1) j fri
            = scan_regions st i fuel (j + 2) (if st.memoryRegions j = 0 then j else fri) := by
          conv => lhs; unfold scan_regions
          rw [if_pos hlt]; simp only [if_neg hw]
        rw [hres]
        obtain ⟨iha, ihb, ihc⟩ :=
          ih (j + 2) (if st.memoryRegions j = 0 then j else fri) (by omega) (by omega)
        refine ⟨?_, ?_, ?_⟩
        · rw [iha]
          constructor
          · rintro ⟨j1, h1, h2, h3, h4⟩
            exact ⟨j1, h1, h2, by omega, h4⟩
          · rintro ⟨j1, h1, h2, h3, h4⟩
            have hne : j1 ≠ j := by
              intro he; subst he; exact hw ⟨h4.1, h4.2⟩
            exact ⟨j1, h1, h2, by omega, h4⟩
        · rcases ihb with h | h
          · rw [h]; exact hrel
          · exact Or.inr h
        · intro hfalse hex
          obtain ⟨j1, hr1, hle⟩ := hex
          by_cases hje : j1 = j
          · subst hje
            rcases ihb with h | h
            · rw [h, if_pos hr1.2.2]; exact hr1
            · exact h
          · exact ihc hfalse ⟨j1, hr1, by have := hr1.2.1; omega⟩
    · have hres : scan_regions st i (fuel + 1) j fri = (false, fri) := by
        unfold scan_regions; rw [if_neg hlt]
      rw [hres]
      refine ⟨⟨fun h => absurd h (by simp), ?_⟩, Or.inl rfl, ?_⟩
      · rintro ⟨j1, h1, _, h2, _⟩; omega
      · rintro _ ⟨j1, ⟨h1, _, _⟩, h2⟩; omega

theorem scan_regions_within (st : Pool) (i fri : Nat) :
    (scan_regions st i st.memoryRegionsSize 0 fri).1 = true ↔ covered st i := by
  rw [(scan_regions_spec st i st.memoryRegionsSize 0 fri (by rfl) (by omega)).1]
  unfold covered
  constructor
  · rintro ⟨j1, h1, h2, _, h3, h4⟩; exact ⟨j1, h1, h2, h3, h4⟩
  · rintro ⟨j1, h1, h2, h3, h4⟩; exact ⟨j1, h1, h2, Nat.zero_le _, h3, h4⟩


theorem allocate_loop_exit (st : Pool) (len p fuel i s c : Nat) (a : Bool) (f : Nat)
    (h : ¬ i < st.base_address + st.size) :
    allocate_loop st len p (fuel + 1) i s c a f = (0, st) := by
  unfold allocate_loop
  rw [if_neg h]

theorem allocate_loop_within (st : Pool) (len p fuel i s c : Nat) (a : Bool) (f : Nat)
    (h : i < st.base_address + st.size) (hp : 1 ≤ p)
    (hw : (scan_regions st i st.memoryRegionsSize 0 f).1 = true) :
    allocate_loop st len p (fuel + 1) i s c a f
      = allocate_loop st len p fuel (i + PAGE_SIZE) 0 0 true
          (scan_regions st i st.memoryRegionsSize 0 f).2 := by
  conv => lhs; unfold allocate_loop
  rw [if_pos h]
  simp only [hw, if_true]
  rw [if_neg (by omega)]

theorem allocate_loop_more (st : Pool) (len p fuel i s c : Nat) (a : Bool) (f : Nat)
    (h : i < st.base_address + st.size)
    (hw : (scan_regions st i st.memoryRegionsSize 0 f).1 = false) (hc : ¬ c + 1 ≥ p) :
    allocate_loop st len p (fuel + 1) i s c a f
      = allocate_loop st len p fuel (i + PAGE_SIZE) (if a = true then i else s) (c + 1) false
          (scan_regions st i st.memoryRegionsSize 0 f).2 := by
  conv => lhs; unfold allocate_loop
  rw [if_pos h]
  simp only [hw, if_false, Bool.false_eq_true]
  rw [if_neg hc]

theorem allocate_loop_append (st : Pool) (len p fuel i s c : Nat) (a : Bool) (f : Nat)
    (h : i < st.base_address + st.size)
    (hw : (scan_regions st i st.memoryRegionsSize 0 f).1 = false) (hc : c + 1 ≥ p)
    (hf : (scan_regions st i st.memoryRegionsSize 0 f).2 = st.memoryRegionsSize) :
    allocate_loop st len p (fuel + 1) i s c a f
      = (if a = true then i else s,
          { st with
            memoryRegions :=
              store (store st.memoryRegions st.memoryRegionsSize (if a = true then i else s))
                (st.memoryRegionsSize + 1) len
            memoryRegionsSize := st.memoryRegionsSize + 2 }) := by
  conv => lhs; unfold allocate_loop
  rw [if_pos h]
  simp only [hw, if_false, Bool.false_eq_true]
  rw [if_pos hc, if_pos hf]

theorem allocate_loop_reuse (st : Pool) (len p fuel i s c : Nat) (a : Bool) (f : Nat)
    (h : i < st.base_address + st.size)
    (hw : (scan_regions st i st.memoryRegionsSize 0 f).1 = false) (hc : c + 1 ≥ p)
    (hf : ¬ (scan_regions st i st.memoryRegionsSize 0 f).2 = st.memoryRegionsSize) :
    allocate_loop st len p (fuel + 1) i s c a f
      = (if a = true then i else s,
          { st with
            memoryRegions :=
              store
                (store st.memoryRegions (scan_regions st i st.memoryRegionsSize 0 f).2
                  (if a = true then i else s))
                ((scan_regions st i st.memoryRegionsSize 0 f).2 + 1) len }) := by
  conv => lhs; unfold allocate_loop
  rw [if_pos h]
  simp only [hw, if_false, Bool.false_eq_true]
  rw [if_pos hc, if_neg hf]


theorem no_page_run_of_scanned (st : Pool) (p k c : Nat) (hcp : c < p)
    (hend : st.size ≤ k * PAGE_SIZE)
    (hprev : ∀ k1, 1 ≤ k1 → k1 + c < k →
      ∃ t, t < p ∧ k1 + t < k ∧ covered st (st.base_address + (k1 + t) * PAGE_SIZE)) :
    ∀ s, ¬ page_run st s p := by
  rintro s ⟨⟨k1, hk1, hs⟩, hlast, hfree⟩
  subst hs
  by_cases hlt : k1 + c < k
  · obtain ⟨t, ht, _, hcov⟩ := hprev k1 hk1 hlt
    apply hfree t ht
    have e : st.base_address + k1 * PAGE_SIZE + t * PAGE_SIZE
        = st.base_address + (k1 + t) * PAGE_SIZE := by ring
    rw [e]; exact hcov
  · unfold PAGE_SIZE at hlast hend
    omega

theorem allocate_loop_spec (st : Pool) (len p : Nat) (hp : 1 ≤ p) :
    ∀ fuel k start c atStart fri,
      1 ≤ k → c + 1 ≤ k → c < p →
      st.size + 1 ≤ k * PAGE_SIZE + fuel →
      (∀ t, t < c → ¬ covered st (st.base_address + (k - c + t) * PAGE_SIZE)) →
      (0 < c → start = st.base_address + (k - c) * PAGE_SIZE ∧ atStart = false) →
      (c = 0 → atStart = true) →
      (∀ k1, 1 ≤ k1 → k1 + c < k →
        ∃ t, t < p ∧ k1 + t < k ∧ covered st (st.base_address + (k1 + t) * PAGE_SIZE)) →
      (fri = st.memoryRegionsSize ∨ released_slot st fri) →
      alloc_post st p len
        (allocate_loop st len p fuel (st.base_address + k * PAGE_SIZE) start c atStart fri) := by
  intro fuel
  induction fuel with
  | zero =>
    intro k start c atStart fri hk hck hcp hfuel hrun hstart hat hprev hfri
    have hres : allocate_loop st len p 0 (st.base_address + k * PAGE_SIZE) start c atStart fri
        = (0, st) := by unfold allocate_loop; rfl
    rw [hres]
    exact Or.inl ⟨rfl, no_page_run_of_scanned st p k c hcp (by omega) hprev⟩
  | succ fuel ih =>
    intro k start c atStart fri hk hck hcp hfuel hrun hstart hat hprev hfri
    have hnext : st.base_address + k * PAGE_SIZE + PAGE_SIZE
        = st.base_address + (k + 1) * PAGE_SIZE := by ring
    by_cases hlt : st.base_address + k * PAGE_SIZE < st.base_address + st.size
    · obtain ⟨_, hscb, hscc⟩ := scan_regions_spec st (st.base_address + k * PAGE_SIZE)
        st.memoryRegionsSize 0 fri (by rfl) (by omega)
      have hfri2 : (scan_regions st (st.base_address + k * PAGE_SIZE)
            st.memoryRegionsSize 0 fri).2 = st.memoryRegionsSize ∨
          released_slot st (scan_regions st (st.base_address + k * PAGE_SIZE)
            st.memoryRegionsSize 0 fri).2 := by
        rcases hscb with h | h
        · rw [h]; exact hfri
        · exact Or.inr h
      by_cases hcov : covered st (st.base_address + k * PAGE_SIZE)
      · -- the page lies in a tracked region: the run is reset
        have hw := (scan_regions_within st (st.base_address + k * PAGE_SIZE) fri).2 hcov
        rw [allocate_loop_within st len p fuel _ start c atStart fri hlt hp hw, hnext]
        apply ih (k + 1) 0 0 true _ (by omega) (by omega) (by omega)
          (by unfold PAGE_SIZE at *; omega)
        · intro t ht; omega
        · intro h; omega
        · intro _; rfl
        · intro k1 hk1 hk1k
          by_cases hold : k1 + c < k
          · obtain ⟨t, ht, htk, hc1⟩ := hprev k1 hk1 hold
            exact ⟨t, ht, by omega, hc1⟩
          · refine ⟨k - k1, by omega, by omega, ?_⟩
            have e : k1 + (k - k1) = k := by omega
            rw [e]; exact hcov
        · exact hfri2
      · have hw : (scan_regions st (st.base_address + k * PAGE_SIZE)
            st.memoryRegionsSize 0 fri).1 = false := by
          cases hb : (scan_regions st (st.base_address + k * PAGE_SIZE)
            st.memoryRegionsSize 0 fri).1
          · rfl
          · exact absurd ((scan_regions_within st _ fri).1 hb) hcov
        have hstart2 : (if atStart = true then st.base_address + k * PAGE_SIZE else start)
            = st.base_address + (k - c) * PAGE_SIZE := by
          by_cases hc0 : c = 0
          · rw [if_pos (hat hc0), hc0]; rfl
          · have h2 := hstart (by omega)
            rw [h2.2, h2.1]; rfl
        have hrun2 : ∀ t, t < c + 1 →
            ¬ covered st (st.base_address + (k - c + t) * PAGE_SIZE) := by
          intro t ht
          by_cases htc : t < c
          · exact hrun t htc
          · have e : k - c + t = k := by omega
            rw [e]; exact hcov
        by_cases hge : c + 1 ≥ p
        · -- the run is long enough: the region is recorded and returned
          have hrunp : page_run st (st.base_address + (k - c) * PAGE_SIZE) p := by
            refine ⟨⟨k - c, by omega, rfl⟩, ?_, ?_⟩
            · have e : st.base_address + (k - c) * PAGE_SIZE + (p - 1) * PAGE_SIZE
                  = st.base_address + k * PAGE_SIZE := by
                unfold PAGE_SIZE; omega
              rw [e]; exact hlt
            · intro t ht
              have e : st.base_address + (k - c) * PAGE_SIZE + t * PAGE_SIZE
                  = st.base_address + (k - c + t) * PAGE_SIZE := by ring
              rw [e]; exact hrun2 t (by omega)
          have hlow : ∀ s, page_run st s p → st.base_address + (k - c) * PAGE_SIZE ≤ s := by
            rintro s ⟨⟨k1, hk1, hs⟩, _, hfree⟩
            subst hs
            by_cases hold : k1 + c < k
            · exfalso
              obtain ⟨t, ht, _, hc1⟩ := hprev k1 hk1 hold
              apply hfree t ht
              have e : st.base_address + k1 * PAGE_SIZE + t * PAGE_SIZE
                  = st.base_address + (k1 + t) * PAGE_SIZE := by ring
              rw [e]; exact hc1
            · unfold PAGE_SIZE; omega
          by_cases hf : (scan_regions st (st.base_address + k * PAGE_SIZE)
              st.memoryRegionsSize 0 fri).2 = st.memoryRegionsSize
          · rw [allocate_loop_append st len p fuel _ start c atStart fri hlt hw hge hf,
              hstart2]
            refine Or.inr ⟨hrunp, hlow, Or.inl ⟨?_, rfl⟩⟩
            intro f hfrel
            have h3 := hscc hw ⟨f, hfrel, Nat.zero_le _⟩
            rw [hf] at h3
            exact absurd h3.1 (by omega)
          · rw [allocate_loop_reuse st len p fuel _ start c atStart fri hlt hw hge hf,
              hstart2]
            refine Or.inr ⟨hrunp, hlow, Or.inr ⟨_, ?_, rfl⟩⟩
            rcases hfri2 with h | h
            · exact absurd h hf
            · exact h
        · -- the run goes on
          rw [allocate_loop_more st len p fuel _ start c atStart fri hlt hw hge, hnext,
            hstart2]
          apply ih (k + 1) _ (c + 1) false _ (by omega) (by omega) (by omega)
            (by unfold PAGE_SIZE at *; omega)
          · intro t ht
            have e : k + 1 - (c + 1) + t = k - c + t := by omega
            rw [e]; exact hrun2 t ht
          · intro _
            have e : k + 1 - (c + 1) = k - c := by omega
            rw [e]; exact ⟨rfl, rfl⟩
          · intro h; omega
          · intro k1 hk1 hk1k
            obtain ⟨t, ht, htk, hc1⟩ := hprev k1 hk1 (by omega)
            exact ⟨t, ht, by omega, hc1⟩
          · exact hfri2
    · rw [allocate_loop_exit st len p fuel _ start c atStart fri hlt]
      exact Or.inl ⟨rfl, no_page_run_of_scanned st p k c hcp (by omega) hprev⟩

/-- The result of `allocate` satisfies `alloc_post` for the rounded-up page count. -/
theorem allocate_spec (st : Pool) (n : Nat) (hn : 1 ≤ n) :
    alloc_post st (pages_of n) (pages_of n * PAGE_SIZE) (allocate st n) := by
  unfold allocate
  simp only [round_up_eq]
  have h := allocate_loop_spec st (pages_of n * PAGE_SIZE) (pages_of n) (pages_of_pos n hn)
    st.size 1 0 0 true st.memoryRegionsSize (by omega) (by omega) (pages_of_pos n hn)
    (by unfold PAGE_SIZE; omega) (by intro t ht; omega) (by intro h; omega) (by intro _; rfl)
    (by intro k1 h1 h2; omega) (Or.inl rfl)
  simpa using h


/-! ## The tracking list stays well formed -/

theorem store_pair_start (m : Nat → Nat) (f a len : Nat) :
    store (store m f a) (f + 1) len f = a := by
  simp [store]

theorem store_pair_length (m : Nat → Nat) (f a len : Nat) :
    store (store m f a) (f + 1) len (f + 1) = len := by
  simp [store]

theorem store_pair_other (m : Nat → Nat) (f a len k : Nat) (h1 : k ≠ f) (h2 : k ≠ f + 1) :
    store (store m f a) (f + 1) len k = m k := by
  simp [store, h1, h2]

theorem new_region_disjoint (st : Pool) (a p : Nat) (hp : 1 ≤ p) (hrun : page_run st a p)
    (j k q : Nat) (hj : j < st.memoryRegionsSize) (hje : j % 2 = 0) (hq : 1 ≤ q)
    (hs : st.memoryRegions j = st.base_address + k * PAGE_SIZE)
    (hl : st.memoryRegions (j + 1) = q * PAGE_SIZE) :
    a + p * PAGE_SIZE ≤ st.memoryRegions j ∨
      st.memoryRegions j + st.memoryRegions (j + 1) ≤ a := by
  obtain ⟨⟨ka, hka, ha⟩, _, hfree⟩ := hrun
  by_contra hcon
  have h1 : st.base_address + k * 4096 < st.base_address + ka * 4096 + p * 4096 := by
    have h := hs; have h2 := ha
    unfold PAGE_SIZE at h h2 hcon
    omega
  have h2 : st.base_address + ka * 4096 < st.base_address + k * 4096 + q * 4096 := by
    have h := hs; have h2 := ha; have h3 := hl
    unfold PAGE_SIZE at h h2 h3 hcon
    omega
  by_cases hle : k ≤ ka
  · apply hfree 0 (by omega)
    refine ⟨j, hj, hje, ?_, ?_⟩
    · rw [hs, ha]; unfold PAGE_SIZE; omega
    · rw [hs, hl, ha]; unfold PAGE_SIZE; omega
  · apply hfree (k - ka) (by omega)
    refine ⟨j, hj, hje, ?_, ?_⟩
    · rw [hs, ha]; unfold PAGE_SIZE; omega
    · rw [hs, hl, ha]; unfold PAGE_SIZE; omega


theorem tracking_invariant_record (st : Pool) (hinv : tracking_invariant st) (a p : Nat)
    (hp : 1 ≤ p) (hrun : page_run st a p) (f m : Nat)
    (hf : (f = st.memoryRegionsSize ∧ m = st.memoryRegionsSize + 2) ∨
      (released_slot st f ∧ m = st.memoryRegionsSize)) :
    tracking_invariant
      ⟨st.base_address, st.size, store (store st.memoryRegions f a) (f + 1) (p * PAGE_SIZE),
        m⟩ := by
  obtain ⟨heven, hal, hdis⟩ := hinv
  have hfe : f % 2 = 0 := by
    rcases hf with ⟨h, _⟩ | ⟨h, _⟩
    · rw [h]; exact heven
    · exact h.2.1
  have hfm : f < m := by
    rcases hf with ⟨h1, h2⟩ | ⟨h1, h2⟩
    · omega
    · have := h1.1; omega
  have hold : ∀ j, j < m → j % 2 = 0 → j ≠ f → j < st.memoryRegionsSize := by
    intro j hj hje hne
    rcases hf with ⟨h1, h2⟩ | ⟨h1, h2⟩
    · omega
    · omega
  have hnew : ∃ k q, 1 ≤ k ∧ 1 ≤ q ∧ a = st.base_address + k * PAGE_SIZE ∧
      p * PAGE_SIZE = q * PAGE_SIZE := by
    obtain ⟨⟨k, hk, ha⟩, _, _⟩ := hrun
    exact ⟨k, p, hk, hp, ha, rfl⟩
  have hane : a ≠ 0 := by
    obtain ⟨k, q, hk, _, ha, _⟩ := hnew
    rw [ha]; unfold PAGE_SIZE; omega
  have hregion : ∀ j, j < st.memoryRegionsSize → j % 2 = 0 → st.memoryRegions j ≠ 0 →
      a + p * PAGE_SIZE ≤ st.memoryRegions j ∨
        st.memoryRegions j + st.memoryRegions (j + 1) ≤ a := by
    intro j hj hje hne
    rcases hal j hj hje with ⟨h0, _⟩ | ⟨k, q, _, hq, hs, hl⟩
    · exact absurd h0 hne
    · exact new_region_disjoint st a p hp hrun j k q hj hje hq hs hl
  refine ⟨?_, ?_, ?_⟩
  · show m % 2 = 0
    rcases hf with ⟨_, h2⟩ | ⟨_, h2⟩ <;> omega
  · intro j hj hje
    simp only at hj ⊢
    by_cases hjf : j = f
    · subst hjf
      rw [store_pair_start, store_pair_length]
      exact Or.inr hnew
    · rw [store_pair_other _ _ _ _ j hjf (by omega),
        store_pair_other _ _ _ _ (j + 1) (by omega) (by omega)]
      exact hal j (hold j hj hje hjf) hje
  · intro j1 j2 hj1 hj2 he1 he2 hne h1 h2
    simp only at hj1 hj2 h1 h2 ⊢
    by_cases hf1 : j1 = f
    · subst hf1
      have hj2o := hold j2 hj2 he2 (fun h => hne h.symm)
      rw [store_pair_other _ _ _ _ j2 (fun h => hne h.symm) (by omega)] at h2
      rw [store_pair_start, store_pair_length,
        store_pair_other _ _ _ _ j2 (fun h => hne h.symm) (by omega),
        store_pair_other _ _ _ _ (j2 + 1) (by omega) (by omega)]
      exact hregion j2 hj2o he2 h2
    · by_cases hf2 : j2 = f
      · subst hf2
        have hj1o := hold j1 hj1 he1 hf1
        rw [store_pair_other _ _ _ _ j1 hf1 (by omega)] at h1
        rw [store_pair_start, store_pair_length,
          store_pair_other _ _ _ _ j1 hf1 (by omega),
          store_pair_other _ _ _ _ (j1 + 1) (by omega) (by omega)]
        exact (hregion j1 hj1o he1 h1).symm
      · rw [store_pair_other _ _ _ _ j1 hf1 (by omega)] at h1
        rw [store_pair_other _ _ _ _ j2 hf2 (by omega)] at h2
        rw [store_pair_other _ _ _ _ j1 hf1 (by omega),
          store_pair_other _ _ _ _ (j1 + 1) (by omega) (by omega),
          store_pair_other _ _ _ _ j2 hf2 (by omega),
          store_pair_other _ _ _ _ (j2 + 1) (by omega) (by omega)]
        exact hdis j1 j2 (hold j1 hj1 he1 hf1) (hold j2 hj2 he2 hf2) he1 he2 hne h1 h2

theorem tracking_invariant_allocate (st : Pool) (hinv : tracking_invariant st) (n : Nat)
    (hn : 1 ≤ n) : tracking_invariant (allocate st n).2 := by
  rcases allocate_spec st n hn with ⟨h, _⟩ | ⟨hrun, _, ⟨_, h⟩ | ⟨f, hf, h⟩⟩
  · rw [h]; exact hinv
  · rw [h]
    exact tracking_invariant_record st hinv _ _ (pages_of_pos n hn) hrun st.memoryRegionsSize
      (st.memoryRegionsSize + 2) (Or.inl ⟨rfl, rfl⟩)
  · rw [h]
    exact tracking_invariant_record st hinv _ _ (pages_of_pos n hn) hrun f
      st.memoryRegionsSize (Or.inr ⟨hf, rfl⟩)


/-! ## The loops of `release` and `is_legitimate` -/

theorem release_loop_spec (st : Pool) (x : Nat) :
    ∀ fuel i, i % 2 = 0 → st.memoryRegionsSize + 1 ≤ i + 2 * fuel →
      (∀ i1, i1 < i → i1 % 2 = 0 → st.memoryRegions i1 ≠ x) →
      release_post st x (release_loop st x fuel i) := by
  intro fuel
  induction fuel with
  | zero =>
    intro i hi hf hprev
    have hres : release_loop st x 0 i = (st, []) := by unfold release_loop; rfl
    rw [hres]
    exact Or.inl ⟨rfl, fun i1 h1 h2 => hprev i1 (by omega) h2⟩
  | succ fuel ih =>
    intro i hi hf hprev
    by_cases hle : i ≤ st.memoryRegionsSize
    · by_cases hx : st.memoryRegions i = x
      · have hres : release_loop st x (fuel + 1) i
            = ({ st with memoryRegions := store (store st.memoryRegions i 0) (i + 1) 0 },
                free_pages (st.memoryRegions i + st.memoryRegions (i + 1))
                  (st.memoryRegions (i + 1)) x) := by
          unfold release_loop; rw [if_pos hle, if_pos hx]
        rw [hres]
        exact Or.inr ⟨i, hle, hi, hx, hprev, rfl⟩
      · have hres : release_loop st x (fuel + 1) i = release_loop st x fuel (i + 2) := by
          conv => lhs; unfold release_loop
          rw [if_pos hle, if_neg hx]
        rw [hres]
        apply ih (i + 2) (by omega) (by omega)
        intro i1 h1 h2
        by_cases he : i1 = i
        · rw [he]; exact hx
        · exact hprev i1 (by omega) h2
    · have hres : release_loop st x (fuel + 1) i = (st, []) := by
        unfold release_loop; rw [if_neg hle]
      rw [hres]
      exact Or.inl ⟨rfl, fun i1 h1 h2 => hprev i1 (by omega) h2⟩

theorem release_spec (st : Pool) (x : Nat) : release_post st x (release st x) := by
  unfold release
  exact release_loop_spec st x (st.memoryRegionsSize + 1) 0 (by rfl) (by omega)
    (fun i1 h1 _ => absurd h1 (by omega))

theorem tracking_invariant_release (st : Pool) (hinv : tracking_invariant st) (x : Nat) :
    tracking_invariant (release st x).1 := by
  rcases release_spec st x with ⟨h, _⟩ | ⟨i, hi, hie, _, _, h⟩
  · rw [h]; exact hinv
  · rw [h]
    obtain ⟨heven, hal, hdis⟩ := hinv
    refine ⟨heven, ?_, ?_⟩
    · intro j hj hje
      simp only at hj ⊢
      by_cases hji : j = i
      · subst hji
        rw [store_pair_start, store_pair_length]
        exact Or.inl ⟨rfl, rfl⟩
      · rw [store_pair_other _ _ _ _ j hji (by omega),
          store_pair_other _ _ _ _ (j + 1) (by omega) (by omega)]
        exact hal j hj hje
    · intro j1 j2 hj1 hj2 he1 he2 hne h1 h2
      simp only at hj1 hj2 h1 h2 ⊢
      by_cases hf1 : j1 = i
      · subst hf1
        rw [store_pair_start] at h1
        exact absurd rfl h1
      · by_cases hf2 : j2 = i
        · subst hf2
          rw [store_pair_start] at h2
          exact absurd rfl h2
        · rw [store_pair_other _ _ _ _ j1 hf1 (by omega)] at h1
          rw [store_pair_other _ _ _ _ j2 hf2 (by omega)] at h2
          rw [store_pair_other _ _ _ _ j1 hf1 (by omega),
            store_pair_other _ _ _ _ (j1 + 1) (by omega) (by omega),
            store_pair_other _ _ _ _ j2 hf2 (by omega),
            store_pair_other _ _ _ _ (j2 + 1) (by omega) (by omega)]
          exact hdis j1 j2 hj1 hj2 he1 he2 hne h1 h2

theorem reachable_invariant (st : Pool) (h : Reachable st) : tracking_invariant st := by
  induction h with
  | construct base_address size memory =>
    refine ⟨rfl, ?_, ?_⟩
    · intro j hj; exact absurd hj (Nat.not_lt_zero j)
    · intro j1 _ hj1; exact absurd hj1 (Nat.not_lt_zero j1)
  | allocate st size _ hsize ih => exact tracking_invariant_allocate st ih size hsize
  | release st x _ ih => exact tracking_invariant_release st ih x


/-! ## Claims on `allocate` -/

theorem fits_iff_page_run (st : Pool) (hsize : st.size % PAGE_SIZE = 0) (s p : Nat)
    (hp : 1 ≤ p) : fits st s p ↔ page_run st s p := by
  unfold fits page_run
  constructor
  · rintro ⟨⟨k, hk, hs⟩, hin, hfree⟩
    refine ⟨⟨k, hk, hs⟩, ?_, hfree⟩
    unfold PAGE_SIZE at *; omega
  · rintro ⟨⟨k, hk, hs⟩, hin, hfree⟩
    refine ⟨⟨k, hk, hs⟩, ?_, hfree⟩
    unfold PAGE_SIZE at *; omega

theorem free_pages_eq :
    ∀ q fuel j, q ≤ fuel →
      free_pages (j + q * PAGE_SIZE) fuel j
        = (List.range q).map (fun k => (j + k * PAGE_SIZE) >>> 12) := by
  intro q
  induction q with
  | zero =>
    intro fuel j _
    cases fuel with
    | zero => unfold free_pages; rfl
    | succ fuel =>
      unfold free_pages
      rw [if_neg (by omega)]
      rfl
  | succ q ih =>
    intro fuel j hq
    cases fuel with
    | zero => omega
    | succ fuel =>
      unfold free_pages
      rw [if_pos (by unfold PAGE_SIZE; omega)]
      have hb : j + (q + 1) * PAGE_SIZE = (j + PAGE_SIZE) + q * PAGE_SIZE := by ring
      rw [hb, ih fuel (j + PAGE_SIZE) (by omega), List.range_succ_eq_map, List.map_cons,
        List.map_map]
      congr 1
      apply List.map_congr_left
      intro k _
      show (j + PAGE_SIZE + k * PAGE_SIZE) >>> 12 = (j + (k + 1) * PAGE_SIZE) >>> 12
      congr 1
      ring

theorem page_number_eq (s k : Nat) : (s + k * PAGE_SIZE) >>> 12 = s / 4096 + k := by
  rw [Nat.shiftRight_eq_div_pow]
  unfold PAGE_SIZE
  omega

theorem is_legitimate_loop_spec (st : Pool) (x : Nat) :
    ∀ fuel i, i % 2 = 0 → st.memoryRegionsSize + 1 ≤ i + 2 * fuel →
      (is_legitimate_loop st x fuel i = true ↔
        ∃ j, j ≤ st.memoryRegionsSize ∧ j % 2 = 0 ∧ i ≤ j ∧
          st.memoryRegions j ≤ x ∧ x < st.memoryRegions j + st.memoryRegions (j + 1)) := by
  intro fuel
  induction fuel with
  | zero =>
    intro i hi hf
    have hres : is_legitimate_loop st x 0 i = false := by unfold is_legitimate_loop; rfl
    rw [hres]
    constructor
    · intro h; exact absurd h (by simp)
    · rintro ⟨j, h1, _, h2, _⟩; omega
  | succ fuel ih =>
    intro i hi hf
    by_cases hle : i ≤ st.memoryRegionsSize
    · by_cases hw : x ≥ st.memoryRegions i ∧
          x < st.memoryRegions i + st.memoryRegions (i + 1)
      · have hres : is_legitimate_loop st x (fuel + 1) i = true := by
          unfold is_legitimate_loop; rw [if_pos hle, if_pos hw]
        rw [hres]
        exact ⟨fun _ => ⟨i, hle, hi, le_refl i, hw.1, hw.2⟩, fun _ => rfl⟩
      · have hres : is_legitimate_loop st x (fuel + 1) i
            = is_legitimate_loop st x fuel (i + 2) := by
          conv => lhs; unfold is_legitimate_loop
          rw [if_pos hle, if_neg hw]
        rw [hres, ih (i + 2) (by omega) (by omega)]
        constructor
        · rintro ⟨j, h1, h2, h3, h4⟩
          exact ⟨j, h1, h2, by omega, h4⟩
        · rintro ⟨j, h1, h2, h3, h4⟩
          have hne : j ≠ i := by
            intro he; subst he; exact hw ⟨h4.1, h4.2⟩
          exact ⟨j, h1, h2, by omega, h4⟩
    · have hres : is_legitimate_loop st x (fuel + 1) i = false := by
        unfold is_legitimate_loop; rw [if_neg hle]
      rw [hres]
      constructor
      · intro h; exact absurd h (by simp)
      · rintro ⟨j, h1, _, h2, _⟩; omega

/-- What `is_legitimate` computes: the address lies in the first page, or in the pair of words
at an even index up to `memoryRegionsSize`, that index included. -/
theorem is_legitimate_iff (st : Pool) (x : Nat) :
    is_legitimate st x = true ↔
      (st.base_address ≤ x ∧ x < st.base_address + PAGE_SIZE) ∨
      ∃ j, j ≤ st.memoryRegionsSize ∧ j % 2 = 0 ∧
        st.memoryRegions j ≤ x ∧ x < st.memoryRegions j + st.memoryRegions (j + 1) := by
  unfold is_legitimate
  by_cases h1 : x ≥ st.base_address ∧ x < st.base_address + PAGE_SIZE
  · rw [if_pos h1]
    exact ⟨fun _ => Or.inl ⟨h1.1, h1.2⟩, fun _ => rfl⟩
  · rw [if_neg h1,
      is_legitimate_loop_spec st x (st.memoryRegionsSize + 1) 0 (by rfl) (by omega)]
    constructor
    · rintro ⟨j, h2, h3, _, h4⟩
      exact Or.inr ⟨j, h2, h3, h4⟩
    · rintro (h | ⟨j, h2, h3, h4⟩)
      · exact absurd ⟨h.1, h.2⟩ h1
      · exact ⟨j, h2, h3, Nat.zero_le _, h4⟩

/-- C19 (release of an address that is not tracked), evaluated where the code departs from it:
the list of `stale_pool` is the one entry (69632, 4096), and the two words behind it hold 73728
and 8192.  73728 is the start of no tracked entry, yet `release(73728)` reads the words at index
`memoryRegionsSize`, hands pages 18 and 19 to `free_page` and zeroes those words. -/
theorem release_matches_word_behind_list :
    stale_pool.memoryRegionsSize = 2 ∧
    stale_pool.memoryRegions 0 = 69632 ∧ stale_pool.memoryRegions 1 = 4096 ∧
    stale_pool.memoryRegions 2 = 73728 ∧ stale_pool.memoryRegions 3 = 8192 ∧
    (∀ j, j < stale_pool.memoryRegionsSize → j % 2 = 0 →
      stale_pool.memoryRegions j ≠ 73728) ∧
    (release stale_pool 73728).2 = [18, 19] ∧
    (release stale_pool 73728).1.memoryRegions 2 = 0 ∧
    (release stale_pool 73728).1.memoryRegions 3 = 0 := by
  decide

/-- C20 (`is_legitimate`), evaluated where the code departs from it: address 73730 is neither
in the first page of `stale_pool` nor in its one tracked region, yet `is_legitimate` returns
true, because the loop also tests the pair of words behind the list, (73728, 8192); on the pool
with the same list and zeros behind it the result is false. -/
theorem is_legitimate_reads_word_behind_list :
    ¬ (stale_pool.base_address ≤ 73730 ∧ 73730 < stale_pool.base_address + PAGE_SIZE) ∧
    ¬ covered stale_pool 73730 ∧
    is_legitimate stale_pool 73730 = true ∧
    (allocate (construct 65536 65536 (words [])) 1).2.memoryRegionsSize
      = stale_pool.memoryRegionsSize ∧
    (∀ k, k < stale_pool.memoryRegionsSize →
      (allocate (construct 65536 65536 (words [])) 1).2.memoryRegions k
        = stale_pool.memoryRegions k) ∧
    is_legitimate (allocate (construct 65536 65536 (words [])) 1).2 73730 = false := by
  decide

end VMPool

namespace ContFramePool

/-- C11 (the inaccessible hole is never handed out), evaluated where the code departs from it:
after construction and `mark_inaccessible(514, 2)`, `get_frames(1)` returns 513; the release of
513 walks on through the hole and sets frames 514 and 515 FREE; the next two `get_frames(1)`
calls return 513 and then 514, a frame of the hole [514, 516). -/
theorem get_frames_hands_out_hole :
    construct 512 16 0 0 [0, 0, 0, 0] = Outcome.done kernel_pool_16 ∧
    mark_inaccessible kernel_pool_16 514 2 = Outcome.done holed_pool_16 ∧
    get_frames holed_pool_16 1 = (513, ⟨512, 16, 0, 0, [0x0F, 0xFF, 0xC0, 0x00]⟩) ∧
    release_frames [⟨512, 16, 0, 0, [0x0F, 0xFF, 0xC0, 0x00]⟩] 513
      = Outcome.done [⟨512, 16, 0, 0, [0x7F, 0xFF, 0x80, 0x00]⟩] ∧
    get_frames ⟨512, 16, 0, 0, [0x7F, 0xFF, 0x80, 0x00]⟩ 1
      = (513, ⟨512, 16, 0, 0, [0x3F, 0xFF, 0xC0, 0x00]⟩) ∧
    get_frames ⟨512, 16, 0, 0, [0x3F, 0xFF, 0xC0, 0x00]⟩ 1
      = (514, ⟨512, 16, 0, 0, [0x1F, 0xFF, 0xE0, 0x00]⟩) ∧
    (514 ≤ (get_frames ⟨512, 16, 0, 0, [0x3F, 0xFF, 0xC0, 0x00]⟩ 1).1 ∧
      (get_frames ⟨512, 16, 0, 0, [0x3F, 0xFF, 0xC0, 0x00]⟩ 1).1 < 514 + 2) := by
  decide


/-! ## Bits of the two bitmaps under the writes of the pool -/

theorem getD_set (l : List Nat) (i v x : Nat) :
    (l.set i v).getD x 0 = if x = i ∧ i < l.length then v else l.getD x 0 := by
  simp only [List.getD_eq_getElem?_getD, List.getElem?_set]
  by_cases hxi : i = x
  · subst hxi
    by_cases hlt : i < l.length
    · simp [hlt]
    · have hnone : l[i]? = none := List.getElem?_eq_none (by omega)
      simp [hlt, hnone]
  · have hxi2 : ¬ x = i := fun h => hxi h.symm
    simp [hxi, hxi2]

theorem mask_and_notMask (pos : Nat) (h : pos < 8) : notMask (mask pos) &&& mask pos = 0 := by
  interval_cases pos <;> decide

theorem notMask_and_mask_other (pos1 pos2 : Nat) (h1 : pos1 < 8) (h2 : pos2 < 8)
    (hne : pos1 ≠ pos2) : notMask (mask pos1) &&& mask pos2 = mask pos2 := by
  interval_cases pos1 <;> interval_cases pos2 <;> first | (exact absurd rfl hne) | decide

theorem mask_and_mask_other (pos1 pos2 : Nat) (h1 : pos1 < 8) (h2 : pos2 < 8)
    (hne : pos1 ≠ pos2) : mask pos1 &&& mask pos2 = 0 := by
  interval_cases pos1 <;> interval_cases pos2 <;> first | (exact absurd rfl hne) | decide

theorem mask_ne_zero (pos : Nat) (h : pos < 8) : mask pos ≠ 0 := by
  interval_cases pos <;> decide

theorem and_clear_same (b pos : Nat) (h : pos < 8) :
    (b &&& notMask (mask pos)) &&& mask pos = 0 := by
  rw [Nat.and_assoc, mask_and_notMask pos h, Nat.and_zero]

theorem and_clear_other (b pos1 pos2 : Nat) (h1 : pos1 < 8) (h2 : pos2 < 8) (hne : pos1 ≠ pos2) :
    (b &&& notMask (mask pos1)) &&& mask pos2 = b &&& mask pos2 := by
  rw [Nat.and_assoc, notMask_and_mask_other pos1 pos2 h1 h2 hne]

theorem or_set_same (b pos : Nat) (h : pos < 8) : (b ||| mask pos) &&& mask pos ≠ 0 := by
  rw [Nat.and_distrib_right, Nat.and_self]
  intro h0
  have hle : mask pos ≤ b &&& mask pos ||| mask pos := by
    apply Nat.le_of_testBit
    intro i hi
    simp [hi]
  rw [h0] at hle
  exact mask_ne_zero pos h (Nat.le_zero.mp hle)

theorem or_set_other (b pos1 pos2 : Nat) (h1 : pos1 < 8) (h2 : pos2 < 8) (hne : pos1 ≠ pos2) :
    (b ||| mask pos1) &&& mask pos2 = b &&& mask pos2 := by
  rw [Nat.and_distrib_right, mask_and_mask_other pos1 pos2 h1 h2 hne, Nat.or_zero]

theorem frame_index_ne (i j : Nat) (hne : i ≠ j) (hb : i / 8 = j / 8) : i % 8 ≠ j % 8 := by
  omega


theorem bitmap_set_bitmap (p : Pool) (idx v x : Nat) :
    bitmap (set_bitmap p idx v) x = if x = idx ∧ idx < p.mem.length then v else bitmap p x := by
  simp only [bitmap, set_bitmap, getD_set]

theorem bitmap2_set_bitmap (p : Pool) (idx v x : Nat) :
    bitmap2 (set_bitmap p idx v) x
      = if p.nframes / 8 + x = idx ∧ idx < p.mem.length then v else bitmap2 p x := by
  simp only [bitmap2, set_bitmap, getD_set]

theorem bitmap_set_bitmap2 (p : Pool) (idx v x : Nat) :
    bitmap (set_bitmap2 p idx v) x
      = if x = p.nframes / 8 + idx ∧ p.nframes / 8 + idx < p.mem.length then v
        else bitmap p x := by
  simp only [bitmap, set_bitmap2, getD_set]

theorem bitmap2_set_bitmap2 (p : Pool) (idx v x : Nat) :
    bitmap2 (set_bitmap2 p idx v) x
      = if x = idx ∧ p.nframes / 8 + idx < p.mem.length then v else bitmap2 p x := by
  simp only [bitmap2, set_bitmap2, getD_set]
  by_cases h : x = idx
  · subst h; simp
  · have h2 : ¬ p.nframes / 8 + x = p.nframes / 8 + idx := by omega
    simp [h, h2]

theorem bitmapResult_clear (p : Pool) (j i : Nat) :
    bitmapResult (clear_bitmap_bit p j) i = if i = j then false else bitmapResult p i := by
  have hj : j % 8 < 8 := Nat.mod_lt _ (by omega)
  have hi : i % 8 < 8 := Nat.mod_lt _ (by omega)
  unfold clear_bitmap_bit bitmapResult
  rw [bitmap_set_bitmap]
  by_cases hij : i = j
  · subst hij
    rw [if_pos rfl]
    by_cases hlen : i / 8 < p.mem.length
    · rw [if_pos ⟨rfl, hlen⟩, and_clear_same _ _ hi]; rfl
    · rw [if_neg (fun h => hlen h.2)]
      have h0 : bitmap p (i / 8) = 0 := by
        unfold bitmap
        rw [List.getD_eq_getElem?_getD, List.getElem?_eq_none (by omega)]; rfl
      rw [h0, Nat.zero_and]; rfl
  · rw [if_neg hij]
    by_cases hb : i / 8 = j / 8 ∧ j / 8 < p.mem.length
    · rw [if_pos hb, and_clear_other _ _ _ hj hi (fun h => frame_index_ne i j hij hb.1 h.symm),
        hb.1]
    · rw [if_neg hb]

theorem bitmap2Result_clear (p : Pool) (j i : Nat) (hj : j / 8 < p.nframes / 8) :
    bitmap2Result (clear_bitmap_bit p j) i = bitmap2Result p i := by
  unfold clear_bitmap_bit bitmap2Result
  rw [bitmap2_set_bitmap, if_neg (by omega)]

theorem nframes_clear (p : Pool) (j : Nat) :
    (clear_bitmap_bit p j).nframes = p.nframes := rfl

theorem base_clear (p : Pool) (j : Nat) :
    (clear_bitmap_bit p j).base_frame_no = p.base_frame_no := rfl

theorem length_clear (p : Pool) (j : Nat) :
    (clear_bitmap_bit p j).mem.length = p.mem.length := by
  simp [clear_bitmap_bit, set_bitmap]

theorem mark_allocated_props (k : Nat) :
    ∀ j p, (mark_allocated k j p).nframes = p.nframes ∧
      (mark_allocated k j p).base_frame_no = p.base_frame_no ∧
      (mark_allocated k j p).mem.length = p.mem.length ∧
      (∀ i, bitmapResult (mark_allocated k j p) i
        = if j ≤ i ∧ i < j + k then false else bitmapResult p i) ∧
      ((j + k - 1) / 8 < p.nframes / 8 →
        ∀ i, bitmap2Result (mark_allocated k j p) i = bitmap2Result p i) := by
  induction k with
  | zero =>
    intro j p
    refine ⟨rfl, rfl, rfl, ?_, fun _ _ => rfl⟩
    intro i
    rw [if_neg (by omega)]; rfl
  | succ k ih =>
    intro j p
    obtain ⟨h1, h2, h3, h4, h5⟩ := ih (j + 1) (clear_bitmap_bit p j)
    have hdef : mark_allocated (k + 1) j p = mark_allocated k (j + 1) (clear_bitmap_bit p j) :=
      rfl
    rw [hdef]
    refine ⟨h1, h2, by rw [h3, length_clear], ?_, ?_⟩
    · intro i
      rw [h4 i, bitmapResult_clear]
      by_cases ha : j + 1 ≤ i ∧ i < j + 1 + k
      · rw [if_pos ha, if_pos (by omega)]
      · rw [if_neg ha]
        by_cases hb : i = j
        · rw [if_pos hb, if_pos (by omega)]
        · rw [if_neg hb, if_neg (by omega)]
    · intro hlt i
      rw [h5 (by rw [nframes_clear]; have : j + 1 + k - 1 = j + (k + 1) - 1 := by omega
                 rw [this]; exact hlt) i]
      exact bitmap2Result_clear p j i (by omega)


/-! ## The constructor -/

theorem needed_info_frames_loop_spec (n : Nat) :
    ∀ fuel pageNumber, (pageNumber = 0 ∨ (FRAME_SIZE / 2) * pageNumber < n) →
      n + 1 ≤ (FRAME_SIZE / 2) * pageNumber + fuel →
      1 ≤ needed_info_frames_loop n fuel pageNumber ∧
      n ≤ (FRAME_SIZE / 2) * needed_info_frames_loop n fuel pageNumber ∧
      (needed_info_frames_loop n fuel pageNumber = 1 ∨
        (FRAME_SIZE / 2) * (needed_info_frames_loop n fuel pageNumber - 1) < n) := by
  intro fuel
  induction fuel with
  | zero =>
    intro pn hpn hf
    exfalso
    unfold FRAME_SIZE at *
    omega
  | succ fuel ih =>
    intro pn hpn hf
    unfold needed_info_frames_loop
    by_cases hge : (FRAME_SIZE / 2) * (pn + 1) ≥ n
    · rw [if_pos hge]
      refine ⟨by omega, hge, ?_⟩
      rcases hpn with h | h
      · left; omega
      · right; simpa using h
    · rw [if_neg hge]
      apply ih (pn + 1) (Or.inr (by omega))
      unfold FRAME_SIZE at *
      omega

theorem needed_info_frames_spec (n : Nat) :
    1 ≤ needed_info_frames n ∧ n ≤ (FRAME_SIZE / 2) * needed_info_frames n ∧
    (needed_info_frames n = 1 ∨ (FRAME_SIZE / 2) * (needed_info_frames n - 1) < n) :=
  needed_info_frames_loop_spec n (n + 1) 0 (Or.inl rfl) (by omega)

theorem needed_info_frames_le (n : Nat) (hn : 1 ≤ n) : needed_info_frames n ≤ n := by
  obtain ⟨_, _, h3⟩ := needed_info_frames_spec n
  unfold FRAME_SIZE at h3
  omega

theorem init_free_props (k : Nat) :
    ∀ i p, i + k ≤ p.nframes / 8 → p.nframes / 8 + p.nframes / 8 ≤ p.mem.length →
      (init_free k i p).nframes = p.nframes ∧
      (init_free k i p).base_frame_no = p.base_frame_no ∧
      (init_free k i p).info_frame_no = p.info_frame_no ∧
      (init_free k i p).n_info_frames = p.n_info_frames ∧
      (init_free k i p).mem.length = p.mem.length ∧
      (∀ x, x < p.nframes / 8 →
        bitmap (init_free k i p) x = if i ≤ x ∧ x < i + k then 0xFF else bitmap p x) ∧
      (∀ x, x < p.nframes / 8 →
        bitmap2 (init_free k i p) x = if i ≤ x ∧ x < i + k then 0x00 else bitmap2 p x) := by
  induction k with
  | zero =>
    intro i p _ _
    refine ⟨rfl, rfl, rfl, rfl, rfl, ?_, ?_⟩ <;> intro x _ <;> rw [if_neg (by omega)] <;> rfl
  | succ k ih =>
    intro i p hik hlen
    have hdef : init_free (k + 1) i p
        = init_free k (i + 1) (set_bitmap2 (set_bitmap p i 0xFF) i 0x00) := rfl
    have hl : (set_bitmap2 (set_bitmap p i 0xFF) i 0x00).mem.length = p.mem.length := by
      simp [set_bitmap2, set_bitmap]
    have hnf : (set_bitmap2 (set_bitmap p i 0xFF) i 0x00).nframes = p.nframes := rfl
    obtain ⟨h1, h2, h3, h4, h5, h6, h7⟩ :=
      ih (i + 1) (set_bitmap2 (set_bitmap p i 0xFF) i 0x00) (by rw [hnf]; omega)
        (by rw [hnf, hl]; exact hlen)
    rw [hdef]
    refine ⟨h1, h2, h3, h4, by rw [h5, hl], ?_, ?_⟩
    · intro x hx
      rw [h6 x (by rw [hnf]; exact hx), bitmap_set_bitmap2, bitmap_set_bitmap]
      have hnf2 : (set_bitmap p i 0xFF).nframes = p.nframes := rfl
      rw [hnf2]
      by_cases ha : i + 1 ≤ x ∧ x < i + 1 + k
      · rw [if_pos ha, if_pos (by omega)]
      · rw [if_neg ha, if_neg (by omega)]
        by_cases hb : x = i
        · rw [if_pos ⟨hb, by omega⟩, if_pos (by omega)]
        · rw [if_neg (fun h => hb h.1), if_neg (by omega)]
    · intro x hx
      rw [h7 x (by rw [hnf]; exact hx), bitmap2_set_bitmap2, bitmap2_set_bitmap]
      have hnf2 : (set_bitmap p i 0xFF).nframes = p.nframes := rfl
      have hl2 : (set_bitmap p i 0xFF).mem.length = p.mem.length := by simp [set_bitmap]
      rw [hnf2, hl2]
      by_cases ha : i + 1 ≤ x ∧ x < i + 1 + k
      · rw [if_pos ha, if_pos (by omega)]
      · rw [if_neg ha]
        by_cases hb : x = i
        · rw [if_pos ⟨hb, by omega⟩, if_pos (by omega)]
        · rw [if_neg (fun h => hb h.1), if_neg (by omega), if_neg (by omega)]


theorem construct_self_hosted_bits (base n n_info : Nat) (memory : List Nat) (hn : 0 < n)
    (h8 : n % 8 = 0) (hmem : n / 8 + n / 8 ≤ memory.length) :
    ∃ p, construct base n 0 n_info memory = Outcome.done p ∧
      p.nframes = n ∧ p.base_frame_no = base ∧ p.mem.length = memory.length ∧
      (∀ i, i < n → bitmapResult p i = decide (needed_info_frames n ≤ i)) ∧
      (∀ i, i < n → bitmap2Result p i = decide (i = 0)) := by
  have hneed := needed_info_frames_le n hn
  have hneed1 := (needed_info_frames_spec n).1
  obtain ⟨h1, h2, _, _, h5, h6, h7⟩ := init_free_props (n / 8) 0 ⟨base, n, 0, n_info, memory⟩
    (by simp) (by simpa using hmem)
  simp only at h1 h2 h5 h6 h7
  obtain ⟨m1, m2, m3, m4, m5⟩ := mark_allocated_props (needed_info_frames n - 1) 1
    (set_bitmap2 (set_bitmap (init_free (n / 8) 0 ⟨base, n, 0, n_info, memory⟩) 0 0x7F) 0 0x80)
  have hnf2 : (set_bitmap2 (set_bitmap (init_free (n / 8) 0 ⟨base, n, 0, n_info, memory⟩)
      0 0x7F) 0 0x80).nframes = n := h1
  have hl2 : (set_bitmap (init_free (n / 8) 0 ⟨base, n, 0, n_info, memory⟩)
      0 0x7F).mem.length = memory.length := by
    simp only [set_bitmap, List.length_set]; exact h5
  refine ⟨mark_allocated (needed_info_frames n - 1) 1
    (set_bitmap2 (set_bitmap (init_free (n / 8) 0 ⟨base, n, 0, n_info, memory⟩) 0 0x7F) 0 0x80),
    ?_, ?_, ?_, ?_, ?_, ?_⟩
  · simp [construct, h8, Nat.not_lt.mpr hmem]
  · rw [m1]; exact hnf2
  · rw [m2]; exact h2
  · rw [m3]
    simp only [set_bitmap2, set_bitmap, List.length_set]; exact h5
  · intro i hi
    have hpos : i % 8 < 8 := Nat.mod_lt _ (by omega)
    rw [m4 i]
    by_cases hr : 1 ≤ i ∧ i < 1 + (needed_info_frames n - 1)
    · rw [if_pos hr]
      symm; simp; omega
    · rw [if_neg hr]
      unfold bitmapResult
      rw [bitmap_set_bitmap2, if_neg (by
        have hx : (set_bitmap (init_free (n / 8) 0 ⟨base, n, 0, n_info, memory⟩)
          0 0x7F).nframes = n := h1
        rw [hx]; omega), bitmap_set_bitmap, h5]
      by_cases hz : i / 8 = 0
      · rw [if_pos ⟨hz, by omega⟩]
        have hi8 : i < 8 := by omega
        have hd : decide (needed_info_frames n ≤ i) = !decide (i = 0) := by
          by_cases h0 : i = 0
          · subst h0; simp; omega
          · simp [h0]; omega
        rw [hd]
        interval_cases i <;> decide
      · rw [if_neg (fun h => hz h.1), h6 (i / 8) (by omega), if_pos (by omega)]
        have hd : decide (needed_info_frames n ≤ i) = true := by simp; omega
        rw [hd]
        generalize i % 8 = pos at hpos
        interval_cases pos <;> decide
  · intro i hi
    have hpos : i % 8 < 8 := Nat.mod_lt _ (by omega)
    rw [m5 (by rw [hnf2]; omega) i]
    unfold bitmap2Result
    rw [bitmap2_set_bitmap2, hl2]
    have hx : (set_bitmap (init_free (n / 8) 0 ⟨base, n, 0, n_info, memory⟩)
      0 0x7F).nframes = n := h1
    rw [hx]
    by_cases hz : i / 8 = 0
    · rw [if_pos ⟨hz, by omega⟩]
      have hi8 : i < 8 := by omega
      interval_cases i <;> decide
    · rw [if_neg (fun h => hz h.1), bitmap2_set_bitmap, if_neg (by rw [h1]; omega),
        h7 (i / 8) (by omega), if_pos (by omega)]
      have hd : decide (i = 0) = false := by simp; omega
      rw [hd]
      simp

theorem construct_external_bits (base n info n_info : Nat) (memory : List Nat)
    (hinfo : info ≠ 0) (hroom : needed_info_frames n ≤ n_info)
    (h8 : n % 8 = 0) (hmem : n / 8 + n / 8 ≤ memory.length) :
    ∃ p, construct base n info n_info memory = Outcome.done p ∧
      p.nframes = n ∧ p.base_frame_no = base ∧ p.mem.length = memory.length ∧
      (∀ i, i < n → bitmapResult p i = true) ∧
      (∀ i, i < n → bitmap2Result p i = false) := by
  obtain ⟨h1, h2, _, _, h5, h6, h7⟩ :=
    init_free_props (n / 8) 0 ⟨base, n, info, n_info, memory⟩ (by simp) (by simpa using hmem)
  simp only at h1 h2 h5 h6 h7
  refine ⟨init_free (n / 8) 0 ⟨base, n, info, n_info, memory⟩, ?_, h1, h2, h5, ?_, ?_⟩
  · simp [construct, h8, Nat.not_lt.mpr hmem, hinfo, hroom]
  · intro i hi
    have hpos : i % 8 < 8 := Nat.mod_lt _ (by omega)
    unfold bitmapResult
    rw [h6 (i / 8) (by omega), if_pos (by omega)]
    generalize i % 8 = pos at hpos
    interval_cases pos <;> decide
  · intro i hi
    unfold bitmap2Result
    rw [h7 (i / 8) (by omega), if_pos (by omega)]
    simp


/-! ## C29, C30: the constructor -/

/-- C29: for every frame count n that is a positive multiple of 8 (the memory behind the two
bitmap pointers holding the 2 * (n / 8) bytes the constructor writes): with
`info_frame_no = 0` construction completes, pool-relative frame 0 is HEAD_OF_SEQUENCE, frames
1 .. needed_info_frames(n) - 1 are ALLOCATED_TAIL and every remaining frame is FREE; with
`info_frame_no != 0` and `n_info_frames >= needed_info_frames(n)` construction completes and
every frame of the pool is FREE. -/
theorem construct_frame_states (base n info n_info : Nat) (memory : List Nat) (hn : 0 < n)
    (h8 : n % 8 = 0) (hmem : n / 8 + n / 8 ≤ memory.length) :
    (info = 0 → ∃ p, construct base n info n_info memory = Outcome.done p ∧
      frame_state p 0 = FrameState.HEAD_OF_SEQUENCE ∧
      (∀ i, 1 ≤ i → i < needed_info_frames n → frame_state p i = FrameState.ALLOCATED_TAIL) ∧
      (∀ i, needed_info_frames n ≤ i → i < n → frame_state p i = FrameState.FREE)) ∧
    (info ≠ 0 → needed_info_frames n ≤ n_info →
      ∃ p, construct base n info n_info memory = Outcome.done p ∧
        ∀ i, i < n → frame_state p i = FrameState.FREE) := by
  have hneed := needed_info_frames_le n hn
  have hneed1 := (needed_info_frames_spec n).1
  constructor
  · intro h0
    subst h0
    obtain ⟨p, hp, _, _, _, hb, hb2⟩ := construct_self_hosted_bits base n n_info memory hn h8 hmem
    refine ⟨p, hp, ?_, ?_, ?_⟩
    · have e1 : bitmapResult p 0 = false := by rw [hb 0 hn]; simp; omega
      have e2 : bitmap2Result p 0 = true := by rw [hb2 0 hn]; simp
      simp [frame_state, e1, e2]
    · intro i hi1 hi2
      have e1 : bitmapResult p i = false := by rw [hb i (by omega)]; simp; omega
      have e2 : bitmap2Result p i = false := by rw [hb2 i (by omega)]; simp; omega
      simp [frame_state, e1, e2]
    · intro i hi1 hi2
      have e1 : bitmapResult p i = true := by rw [hb i hi2]; simp; omega
      have e2 : bitmap2Result p i = false := by rw [hb2 i hi2]; simp; omega
      simp [frame_state, e1, e2]
  · intro hinfo hroom
    obtain ⟨p, hp, _, _, _, hb, hb2⟩ :=
      construct_external_bits base n info n_info memory hinfo hroom h8 hmem
    refine ⟨p, hp, ?_⟩
    intro i hi
    simp [frame_state, hb i hi, hb2 i hi]

/-- Witness for C29: the kernel pool of `kernel.C` scaled to 8 frames (self-hosted) and the
process pool scaled to 8 frames (info frame 513). -/
theorem construct_frame_states_witness :
    ((0 = 0 → ∃ p, construct 512 8 0 0 [0, 0] = Outcome.done p ∧
      frame_state p 0 = FrameState.HEAD_OF_SEQUENCE ∧
      (∀ i, 1 ≤ i → i < needed_info_frames 8 → frame_state p i = FrameState.ALLOCATED_TAIL) ∧
      (∀ i, needed_info_frames 8 ≤ i → i < 8 → frame_state p i = FrameState.FREE)) ∧
    (0 ≠ 0 → needed_info_frames 8 ≤ 0 →
      ∃ p, construct 512 8 0 0 [0, 0] = Outcome.done p ∧
        ∀ i, i < 8 → frame_state p i = FrameState.FREE)) ∧
    ((513 = 0 → ∃ p, construct 1024 8 513 1 [0, 0] = Outcome.done p ∧
      frame_state p 0 = FrameState.HEAD_OF_SEQUENCE ∧
      (∀ i, 1 ≤ i → i < needed_info_frames 8 → frame_state p i = FrameState.ALLOCATED_TAIL) ∧
      (∀ i, needed_info_frames 8 ≤ i → i < 8 → frame_state p i = FrameState.FREE)) ∧
    (513 ≠ 0 → needed_info_frames 8 ≤ 1 →
      ∃ p, construct 1024 8 513 1 [0, 0] = Outcome.done p ∧
        ∀ i, i < 8 → frame_state p i = FrameState.FREE)) :=
  ⟨construct_frame_states 512 8 0 0 [0, 0] (by decide) (by decide) (by decide),
    construct_frame_states 1024 8 513 1 [0, 0] (by decide) (by decide) (by decide)⟩

/-- C30: construction fails an assertion if and only if the frame count is not a multiple of 8,
or `info_frame_no != 0` and `n_info_frames < needed_info_frames(frame count)`; in every other
case construction completes (the memory behind the two bitmap pointers holding the
2 * (n / 8) bytes the constructor writes). -/
theorem construct_assert_iff (base n info n_info : Nat) (memory : List Nat)
    (hmem : n / 8 + n / 8 ≤ memory.length) :
    ((∃ p, construct base n info n_info memory = Outcome.assertFailed p) ↔
      (n % 8 ≠ 0 ∨ (info ≠ 0 ∧ n_info < needed_info_frames n))) ∧
    (¬ (n % 8 ≠ 0 ∨ (info ≠ 0 ∧ n_info < needed_info_frames n)) →
      ∃ p, construct base n info n_info memory = Outcome.done p) := by
  by_cases ha : info ≠ 0 ∧ ¬ needed_info_frames n ≤ n_info
  · have hres : construct base n info n_info memory =
        Outcome.assertFailed ⟨base, n, info, n_info, memory⟩ := by
      unfold construct
      simp only
      rw [if_pos ha]
    refine ⟨⟨fun _ => Or.inr ⟨ha.1, by omega⟩, fun _ => ⟨_, hres⟩⟩, ?_⟩
    intro hno
    exact absurd (Or.inr ⟨ha.1, by omega⟩) hno
  · by_cases hb : n % 8 ≠ 0
    · have hres : construct base n info n_info memory =
          Outcome.assertFailed ⟨base, n, info, n_info, memory⟩ := by
        unfold construct
        simp only
        rw [if_neg ha, if_pos hb]
      refine ⟨⟨fun _ => Or.inl hb, fun _ => ⟨_, hres⟩⟩, ?_⟩
      intro hno
      exact absurd (Or.inl hb) hno
    · have hdone : ∃ p, construct base n info n_info memory = Outcome.done p := by
        unfold construct
        simp only
        rw [if_neg ha, if_neg hb, if_neg (by omega)]
        by_cases h0 : info = 0
        · rw [if_pos h0]; exact ⟨_, rfl⟩
        · rw [if_neg h0]; exact ⟨_, rfl⟩
      refine ⟨⟨?_, ?_⟩, fun _ => hdone⟩
      · rintro ⟨p, hp⟩
        obtain ⟨q, hq⟩ := hdone
        rw [hq] at hp
        cases hp
      · rintro (h | ⟨h1, h2⟩)
        · exact absurd h hb
        · exact absurd ⟨h1, by omega⟩ ha

/-- Witness for C30: twelve frames are no multiple of 8 and the constructor fails its
assertion; the left side of the equivalence holds there. -/
theorem construct_assert_iff_witness :
    ((∃ p, construct 512 12 0 0 [0, 0] = Outcome.assertFailed p) ↔
      (12 % 8 ≠ 0 ∨ (0 ≠ 0 ∧ 0 < needed_info_frames 12))) ∧
    (¬ (12 % 8 ≠ 0 ∨ (0 ≠ 0 ∧ 0 < needed_info_frames 12)) →
      ∃ p, construct 512 12 0 0 [0, 0] = Outcome.done p) :=
  construct_assert_iff 512 12 0 0 [0, 0] (by decide)

end ContFramePool

namespace PageTable

/-! ## Reads and writes of table entries -/

theorem read_write (m : Nat → Nat) (t i v t2 j : Nat) :
    read (write m t i v) t2 j = if t2 + 4 * j = t + 4 * i then v else read m t2 j := by
  unfold read write
  rfl

theorem read_write_same (m : Nat → Nat) (t i v : Nat) : read (write m t i v) t i = v := by
  rw [read_write, if_pos rfl]

theorem check_address_false_iff (pools : List VMPool.Pool) (a : Nat) :
    check_address pools a = false ↔ ∀ pool, pool ∈ pools → VMPool.is_legitimate pool a = false := by
  induction pools with
  | nil => simp [check_address]
  | cons p rest ih =>
    unfold check_address
    by_cases hp : VMPool.is_legitimate p a = true
    · rw [if_pos hp]
      constructor
      · intro h; exact absurd h (by simp)
      · intro h
        have := h p (List.mem_cons_self _ _)
        rw [hp] at this
        exact absurd this (by simp)
    · rw [if_neg hp, ih]
      have hp2 : VMPool.is_legitimate p a = false := by simpa using hp
      constructor
      · intro h pool hm
        rcases List.mem_cons.mp hm with rfl | hm
        · exact hp2
        · exact h pool hm
      · intro h pool hm
        exact h pool (List.mem_cons_of_mem _ hm)

/-! ## C21: legitimacy gating -/

/-- C21: for every state and every faulting address a, `handle_fault` aborts if and only if no
VM pool registered with the current page table returns true from `is_legitimate(a)`; when it
aborts the state is the one before the call: no frame has been taken from the kernel or the
process pool and no word of memory, so no directory or leaf entry, has been modified. -/
theorem handle_fault_aborts_iff (s : State) (a : Nat) :
    ((∃ t, handle_fault s a = FaultResult.aborted t) ↔
      ∀ pool, pool ∈ s.VMPools → VMPool.is_legitimate pool a = false) ∧
    (∀ t, handle_fault s a = FaultResult.aborted t → t = s) := by
  rw [← check_address_false_iff]
  by_cases hc : check_address s.VMPools a = true
  · have hres : ∀ t, handle_fault s a ≠ FaultResult.aborted t := by
      intro t
      unfold handle_fault
      rw [if_neg (by simp [hc])]
      simp
    refine ⟨⟨?_, ?_⟩, ?_⟩
    · rintro ⟨t, ht⟩; exact absurd ht (hres t)
    · intro h; rw [hc] at h; exact absurd h (by simp)
    · intro t ht; exact absurd ht (hres t)
  · have hres : handle_fault s a = FaultResult.aborted s := by
      unfold handle_fault
      rw [if_pos hc]
    refine ⟨⟨fun _ => by simpa using hc, fun _ => ⟨s, hres⟩⟩, ?_⟩
    intro t ht
    rw [hres] at ht
    cases ht
    rfl


/-! ## C28: the directory after construction -/

theorem read_fill_rest (D : Nat) : ∀ (k i : Nat) (m : Nat → Nat) (j : Nat),
    read (fill_rest D k i m) D j = if i ≤ j ∧ j < i + k then 0 ||| 2 else read m D j := by
  intro k
  induction k with
  | zero =>
    intro i m j
    rw [if_neg (by omega)]
    rfl
  | succ k ih =>
    intro i m j
    show read (fill_rest D k (i + 1) (write m D i (0 ||| 2))) D j = _
    rw [ih, read_write]
    by_cases h1 : i + 1 ≤ j ∧ j < i + 1 + k
    · rw [if_pos h1, if_pos (by omega)]
    · rw [if_neg h1]
      by_cases h2 : j = i
      · subst h2
        rw [if_pos rfl, if_pos (by omega)]
      · rw [if_neg (by omega), if_neg (by omega)]

/-- C28, evaluated where the code departs from it: for every shared size, every kernel pool and
every memory, the last loop of the constructor (lines 58-60, from `i = 1`) leaves `0 | 2` in
every directory entry 1 .. 1023, so the entry is not present, also where
`i < shared_size / 4 MB`. -/
theorem construct_rest_not_present (kernel process : ContFramePool.Pool) (shared_size : Nat)
    (memory : Nat → Nat) (i : Nat) (h1 : 1 ≤ i) (h2 : i < ENTRIES_PER_PAGE) :
    read (construct kernel process shared_size memory).memory
        (construct kernel process shared_size memory).page_directory i = 2 ∧
      read (construct kernel process shared_size memory).memory
        (construct kernel process shared_size memory).page_directory i &&& 0x1 ≠ 0x1 := by
  have h : read (construct kernel process shared_size memory).memory
      (construct kernel process shared_size memory).page_directory i = 2 := by
    unfold construct
    simp only
    rw [read_fill_rest, if_pos (by unfold ENTRIES_PER_PAGE at *; omega)]
    rfl
  rw [h]
  exact ⟨rfl, by decide⟩

/-- Witness for C28: a shared area of 8 MB on the 16-frame kernel pool; directory entry 1 lies
below `shared_size / 4 MB = 2` and is not present after construction. -/
theorem construct_rest_not_present_witness :
    1 < 8388608 / (PAGE_SIZE * ENTRIES_PER_PAGE) ∧
    (read (construct ContFramePool.kernel_pool_16 ContFramePool.process_pool_8 8388608
        (fun _ => 0)).memory
      (construct ContFramePool.kernel_pool_16 ContFramePool.process_pool_8 8388608
        (fun _ => 0)).page_directory 1 = 2 ∧
    read (construct ContFramePool.kernel_pool_16 ContFramePool.process_pool_8 8388608
        (fun _ => 0)).memory
      (construct ContFramePool.kernel_pool_16 ContFramePool.process_pool_8 8388608
        (fun _ => 0)).page_directory 1 &&& 0x1 ≠ 0x1) :=
  ⟨by decide, construct_rest_not_present ContFramePool.kernel_pool_16
    ContFramePool.process_pool_8 8388608 (fun _ => 0) 1 (by decide) (by decide)⟩

/-! ## C24, C25: `free_page` -/

theorem free_page_present (s : State) (page_no : Nat)
    (h : read s.memory (leaf_table s (page_no >>> 10)) (page_no &&& 0x3FF) &&& 0x1 = 0x1) :
    free_page s page_no = ContFramePool.Outcome.done s := by
  unfold free_page
  unfold leaf_table at h
  simp only
  rw [if_neg (by rw [h]; simp)]

theorem handle_fault_legit (s : State) (a : Nat) (h : check_address s.VMPools a = true) :
    ∃ t, handle_fault s a = FaultResult.handled t := by
  unfold handle_fault
  rw [if_neg (by simp [h])]
  exact ⟨_, rfl⟩

/-- C24, evaluated where the code departs from it: after the fault at address 1 GB in
`paging_state` the leaf entry of page 262144 is present and maps frame 1024, which the process
pool marks HEAD_OF_SEQUENCE; `free_page(262144)` finds the entry present, fails the test of
line 170 and returns with the state as it was: the entry stays present and frame 1024 stays
HEAD_OF_SEQUENCE. -/
theorem free_page_skips_present_entry :
    ∃ t, handle_fault paging_state 1073741824 = FaultResult.handled t ∧
      read t.memory (leaf_table t (262144 >>> 10)) (262144 &&& 0x3FF) = 1024 * PAGE_SIZE ||| 0x3 ∧
      ContFramePool.frame_state t.process_mem_pool 0 =
        ContFramePool.FrameState.HEAD_OF_SEQUENCE ∧
      free_page t 262144 = ContFramePool.Outcome.done t := by
  refine ⟨_, rfl, by decide, by decide, free_page_present _ 262144 (by decide)⟩


/-- C25, evaluated where the code departs from it: in `low_word_state` page 262145 was never
faulted in, its directory entry 256 holds 2 and the word line 165 takes for its leaf entry, at
physical address 4, holds 4194304 with the present bit clear.  `free_page(262145)` passes the
test of line 170, calls `release_frames(1024)`, which sets frame 1024 of the process pool from
HEAD_OF_SEQUENCE to FREE, and stores 2 in the word. -/
theorem free_page_releases_for_absent_entry :
    read low_word_state.memory low_word_state.page_directory (262145 >>> 10) &&& 0x1 ≠ 0x1 ∧
    read low_word_state.memory (leaf_table low_word_state (262145 >>> 10)) (262145 &&& 0x3FF)
      = 4194304 ∧
    4194304 &&& 0x1 ≠ 0x1 ∧
    ContFramePool.frame_state low_word_state.process_mem_pool 0 =
      ContFramePool.FrameState.HEAD_OF_SEQUENCE ∧
    ∃ t, free_page low_word_state 262145 = ContFramePool.Outcome.done t ∧
      ContFramePool.frame_state t.process_mem_pool 0 = ContFramePool.FrameState.FREE ∧
      t.process_mem_pool = ContFramePool.process_pool_8 ∧
      read t.memory (leaf_table t (262145 >>> 10)) (262145 &&& 0x3FF) = 2 := by
  refine ⟨by decide, by decide, by decide, by decide, _, rfl, by decide, by decide, by decide⟩

end PageTable

namespace ContFramePool

/-! ## The call `get_frames(1)` -/

/-- The pool after `get_frames` has marked pool-relative frame `i` as the head of a run of one
frame. -/
theorem get_frames_loop_one (p : Pool) (i0 : Nat) (h0 : bitmapResult p i0 = true) :
    ∀ fuel i, i ≤ i0 → i0 < i + fuel → (∀ j, i ≤ j → j < i0 → bitmapResult p j = false) →
      get_frames_loop p 1 fuel i 0 0 = (p.base_frame_no + i0,
        clear_bitmap_bit (set_bitmap2 p (i0 / 8) (bitmap2 p (i0 / 8) ||| mask (i0 % 8))) i0) := by
  intro fuel
  induction fuel with
  | zero => intro i h1 h2; omega
  | succ fuel ih =>
    intro i h1 h2 hlow
    unfold get_frames_loop
    by_cases hi : i = i0
    · subst hi
      rw [if_pos h0]
      simp only [if_pos, Nat.sub_self, mark_allocated]
      rw [if_pos (by omega)]
    · have hb : bitmapResult p i = false := hlow i (Nat.le_refl _) (by omega)
      rw [if_neg (by simp [hb])]
      exact ih (i + 1) (by omega) (by omega) (fun j hj1 hj2 => hlow j (by omega) hj2)

theorem exists_first_free (p : Pool) : ∀ n, (∃ i, i < n ∧ bitmapResult p i = true) →
    ∃ i, i < n ∧ bitmapResult p i = true ∧ ∀ j, j < i → bitmapResult p j = false := by
  intro n
  induction n with
  | zero => rintro ⟨i, hi, _⟩; omega
  | succ n ih =>
    rintro ⟨i, hi, hb⟩
    by_cases hex : ∃ i, i < n ∧ bitmapResult p i = true
    · obtain ⟨k, hk, hkb, hkl⟩ := ih hex
      exact ⟨k, by omega, hkb, hkl⟩
    · have hin : i = n := by
        by_cases hlt : i < n
        · exact absurd ⟨i, hlt, hb⟩ hex
        · omega
      subst hin
      refine ⟨i, hi, hb, ?_⟩
      intro j hj
      by_cases hjb : bitmapResult p j = true
      · exact absurd ⟨j, hj, hjb⟩ hex
      · simpa using hjb

theorem get_frames_one_free (p : Pool) (h : ∃ i, i < p.nframes ∧ bitmapResult p i = true) :
    ∃ i, i < p.nframes ∧ bitmapResult p i = true ∧
      get_frames p 1 = (p.base_frame_no + i,
        clear_bitmap_bit (set_bitmap2 p (i / 8) (bitmap2 p (i / 8) ||| mask (i % 8))) i) := by
  obtain ⟨i, hi, hb, hl⟩ := exists_first_free p p.nframes h
  refine ⟨i, hi, hb, ?_⟩
  unfold get_frames
  exact get_frames_loop_one p i hb p.nframes 0 (by omega) (by omega) (fun j _ hj => hl j hj)

theorem get_frames_one_full (p : Pool) (h : ¬ ∃ i, i < p.nframes ∧ bitmapResult p i = true) :
    get_frames p 1 = (0, p) := by
  unfold get_frames
  apply get_frames_loop_no_run p 1 (by omega) _ p.nframes 0 0 0 (by omega) (by omega) (by omega)
  · intro j hj; omega
  · intro k hk
    refine ⟨0, by omega, ?_⟩
    by_cases hb : bitmapResult p (k + 0) = true
    · exact absurd ⟨k, by omega, by simpa using hb⟩ h
    · simpa using hb

/-- The bits of the pool after frame `i` was marked as the head of a run of one frame. -/
theorem take_frame_bits (p : Pool) (i : Nat) (hi : i < p.nframes) (h8 : p.nframes % 8 = 0)
    (hmem : p.nframes / 8 + p.nframes / 8 ≤ p.mem.length) :
    (∀ j, j < p.nframes →
      bitmapResult (clear_bitmap_bit (set_bitmap2 p (i / 8)
        (bitmap2 p (i / 8) ||| mask (i % 8))) i) j
        = if j = i then false else bitmapResult p j) ∧
    (∀ j, j < p.nframes →
      bitmap2Result (clear_bitmap_bit (set_bitmap2 p (i / 8)
        (bitmap2 p (i / 8) ||| mask (i % 8))) i) j
        = if j = i then true else bitmap2Result p j) := by
  have hi8 : i / 8 < p.nframes / 8 := by omega
  have hpos : i % 8 < 8 := Nat.mod_lt _ (by omega)
  constructor
  · intro j hj
    rw [bitmapResult_clear]
    by_cases hji : j = i
    · rw [if_pos hji, if_pos hji]
    · rw [if_neg hji, if_neg hji]
      unfold bitmapResult
      rw [bitmap_set_bitmap2, if_neg (by omega)]
  · intro j hj
    have hjpos : j % 8 < 8 := Nat.mod_lt _ (by omega)
    rw [bitmap2Result_clear _ _ _ (by exact hi8)]
    unfold bitmap2Result
    rw [bitmap2_set_bitmap2]
    by_cases hji : j = i
    · subst hji
      rw [if_pos ⟨rfl, by omega⟩, if_pos rfl]
      simpa using or_set_same (bitmap2 p (j / 8)) (j % 8) hjpos
    · rw [if_neg hji]
      by_cases hb : j / 8 = i / 8
      · rw [if_pos ⟨hb, by omega⟩,
          or_set_other _ _ _ hpos hjpos (frame_index_ne i j (Ne.symm hji) hb.symm), hb]
      · rw [if_neg (fun h => hb h.1)]


/-! ## The boot state of a pool -/

theorem bitmapResult_of_free (p : Pool) (i : Nat) (h : frame_state p i = FrameState.FREE) :
    bitmapResult p i = true ∧ bitmap2Result p i = false := by
  unfold frame_state at h
  cases hb : bitmapResult p i <;> cases hb2 : bitmap2Result p i <;> simp [hb, hb2] at h ⊢

theorem get_frames_one_step (p : Pool) (h8 : p.nframes % 8 = 0)
    (hmem : p.nframes / 8 + p.nframes / 8 ≤ p.mem.length)
    (hfree : ∃ i, i < p.nframes ∧ bitmapResult p i = true) :
    ∃ i, i < p.nframes ∧ bitmapResult p i = true ∧
      (get_frames p 1).1 = p.base_frame_no + i ∧
      (get_frames p 1).2.nframes = p.nframes ∧
      (get_frames p 1).2.base_frame_no = p.base_frame_no ∧
      (get_frames p 1).2.mem.length = p.mem.length ∧
      (∀ j, j < p.nframes →
        bitmapResult (get_frames p 1).2 j = if j = i then false else bitmapResult p j) ∧
      (∀ j, j < p.nframes →
        bitmap2Result (get_frames p 1).2 j = if j = i then true else bitmap2Result p j) := by
  obtain ⟨i, hi, hb, hg⟩ := get_frames_one_free p hfree
  obtain ⟨t1, t2⟩ := take_frame_bits p i hi h8 hmem
  refine ⟨i, hi, hb, ?_, ?_, ?_, ?_, ?_, ?_⟩
  · rw [hg]
  · rw [hg]; rfl
  · rw [hg]; rfl
  · rw [hg]
    simp only [clear_bitmap_bit, set_bitmap2, set_bitmap, List.length_set]
  · rw [hg]; exact t1
  · rw [hg]; exact t2

end ContFramePool

namespace PageTable

/-! ## The two cases of `handle_fault` -/

theorem handle_fault_present (s : State) (a : Nat) (hc : check_address s.VMPools a = true)
    (hp : read s.memory s.page_directory (a >>> 22) &&& 0x1 = 0x1) :
    handle_fault s a = FaultResult.handled ⟨s.kernel_mem_pool,
      (ContFramePool.get_frames s.process_mem_pool 1).2, s.shared_size, s.page_directory,
      write s.memory (leaf_table s (a >>> 22)) ((a >>> 12) &&& 0x3FF)
        ((newFrame s * PAGE_SIZE) % 2 ^ 32 ||| 0x3), s.VMPools⟩ := by
  unfold handle_fault
  rw [if_neg (by simp [hc])]
  simp only
  rw [if_neg (by simp [hp])]
  rfl

theorem handle_fault_absent (s : State) (a : Nat) (hc : check_address s.VMPools a = true)
    (hp : read s.memory s.page_directory (a >>> 22) &&& 0x1 ≠ 0x1) :
    handle_fault s a = FaultResult.handled ⟨(ContFramePool.get_frames s.kernel_mem_pool 1).2,
      (ContFramePool.get_frames s.process_mem_pool 1).2, s.shared_size, s.page_directory,
      write (write (write (fill_not_present (next_table s) ENTRIES_PER_PAGE 0 s.memory)
            s.page_directory (a >>> 22) (next_table s))
          s.page_directory (a >>> 22)
          (read (write (fill_not_present (next_table s) ENTRIES_PER_PAGE 0 s.memory)
            s.page_directory (a >>> 22) (next_table s)) s.page_directory (a >>> 22) ||| 0x3))
        (read (write (write (fill_not_present (next_table s) ENTRIES_PER_PAGE 0 s.memory)
            s.page_directory (a >>> 22) (next_table s))
          s.page_directory (a >>> 22)
          (read (write (fill_not_present (next_table s) ENTRIES_PER_PAGE 0 s.memory)
            s.page_directory (a >>> 22) (next_table s)) s.page_directory (a >>> 22) ||| 0x3))
          s.page_directory (a >>> 22) &&& 0xFFFFF000)
        ((a >>> 12) &&& 0x3FF) ((newFrame s * PAGE_SIZE) % 2 ^ 32 ||| 0x3), s.VMPools⟩ := by
  unfold handle_fault
  rw [if_neg (by simp [hc])]
  simp only
  rw [if_pos hp]
  rfl

theorem testBit_table_mask (i : Nat) :
    Nat.testBit 0xFFFFF000 i = (decide (12 ≤ i) && decide (i < 32)) := by
  have e : (0xFFFFF000 : Nat) = (2 ^ 20 - 1) <<< 12 := by decide
  rw [e, Nat.testBit_shiftLeft, Nat.testBit_two_pow_sub_one]
  by_cases h : 12 ≤ i
  · simp [h]; omega
  · simp [h]

theorem or_three_present (x : Nat) : (x ||| 3) &&& 1 = 1 := by
  apply Nat.eq_of_testBit_eq
  intro i
  rw [Nat.testBit_and, Nat.testBit_or]
  have h3 : Nat.testBit 3 i = decide (i < 2) := Nat.testBit_two_pow_sub_one 2 i
  have h1 : Nat.testBit 1 i = decide (i < 1) := Nat.testBit_two_pow_sub_one 1 i
  rw [h3, h1]
  by_cases h : i < 1
  · simp [h]; omega
  · simp [h]

theorem table_mask_aligned (x : Nat) : (x &&& 0xFFFFF000) % 4096 = 0 := by
  apply Nat.eq_of_testBit_eq
  intro i
  have e : (4096 : Nat) = 2 ^ 12 := by decide
  rw [e, Nat.testBit_mod_two_pow, Nat.testBit_and, testBit_table_mask]
  by_cases h : i < 12
  · have : ¬ 12 ≤ i := by omega
    simp [this]
  · simp [h]

theorem or_three_table_mask (x : Nat) (h : x % 4096 = 0) (hx : x < 2 ^ 32) :
    (x ||| 3) &&& 0xFFFFF000 = x := by
  apply Nat.eq_of_testBit_eq
  intro i
  rw [Nat.testBit_and, Nat.testBit_or, testBit_table_mask]
  have h3 : Nat.testBit 3 i = decide (i < 2) := Nat.testBit_two_pow_sub_one 2 i
  rw [h3]
  by_cases h12 : i < 12
  · have hb : Nat.testBit x i = false := by
      have e : (4096 : Nat) = 2 ^ 12 := by decide
      rw [e] at h
      have := Nat.testBit_mod_two_pow x 12 i
      rw [h] at this
      simp [h12] at this
      exact this
    have : ¬ 12 ≤ i := by omega
    simp [hb, this]
  · by_cases h32 : i < 32
    · have h2 : ¬ i < 2 := by omega
      have : 12 ≤ i := by omega
      simp [h2, this, h32]
    · have hb : Nat.testBit x i = false := by
        apply Nat.testBit_lt_two_pow
        calc x < 2 ^ 32 := hx
          _ ≤ 2 ^ i := Nat.pow_le_pow_right (by omega) (by omega)
      simp [hb, h32]

theorem directory_index_lt (a : Nat) (ha : a < 2 ^ 32) : a >>> 22 < 1024 := by
  rw [Nat.shiftRight_eq_div_pow]
  have : (2 : Nat) ^ 22 = 4194304 := by decide
  rw [this]
  omega

theorem leaf_index_lt (x : Nat) : x &&& 0x3FF < 1024 := by
  have := @Nat.and_le_right x 0x3FF
  omega

theorem next_table_aligned (s : State) : next_table s % 4096 = 0 ∧ next_table s < 2 ^ 32 := by
  unfold next_table PAGE_SIZE
  constructor
  · omega
  · exact Nat.mod_lt _ (by decide)

theorem fill_not_present_apply (T : Nat) : ∀ (k i : Nat) (m : Nat → Nat) (x : Nat),
    fill_not_present T k i m x
      = if T + 4 * i ≤ x ∧ x < T + 4 * (i + k) ∧ (x - T) % 4 = 0 then 2 else m x := by
  intro k
  induction k with
  | zero =>
    intro i m x
    rw [if_neg (by omega)]
    rfl
  | succ k ih =>
    intro i m x
    show fill_not_present T k (i + 1) (write m T i 0x2) x = _
    rw [ih]
    unfold write
    by_cases h1 : T + 4 * (i + 1) ≤ x ∧ x < T + 4 * (i + 1 + k) ∧ (x - T) % 4 = 0
    · rw [if_pos h1, if_pos (by omega)]
    · rw [if_neg h1]
      by_cases h2 : x = T + 4 * i
      · rw [if_pos h2, if_pos (by omega)]
      · rw [if_neg h2, if_neg (by omega)]

/-! ## What a fault leaves in the tables -/

theorem handle_fault_entries (s : State) (a : Nat) (hlegit : check_address s.VMPools a = true)
    (ha : a < 2 ^ 32) (hsep : tables_separate s) :
    ∃ t, handle_fault s a = FaultResult.handled t ∧
      t.page_directory = s.page_directory ∧
      t.process_mem_pool = (ContFramePool.get_frames s.process_mem_pool 1).2 ∧
      read t.memory t.page_directory (a >>> 22) &&& 0x1 = 0x1 ∧
      read t.memory (leaf_table t (a >>> 22)) ((a >>> 12) &&& 0x3FF)
        = (newFrame s * PAGE_SIZE) % 2 ^ 32 ||| 0x3 ∧
      (∀ j k, j < ENTRIES_PER_PAGE → k < ENTRIES_PER_PAGE →
        read s.memory s.page_directory j &&& 0x1 = 0x1 →
        (leaf_table s j ≠ leaf_table t (a >>> 22) ∨ k ≠ (a >>> 12) &&& 0x3FF) →
        read t.memory (leaf_table s j) k = read s.memory (leaf_table s j) k) ∧
      (read s.memory s.page_directory (a >>> 22) &&& 0x1 = 0x1 →
        t.kernel_mem_pool = s.kernel_mem_pool ∧
        ∀ j, j < ENTRIES_PER_PAGE →
          read t.memory t.page_directory j = read s.memory s.page_directory j) ∧
      (read s.memory s.page_directory (a >>> 22) &&& 0x1 ≠ 0x1 →
        t.kernel_mem_pool = (ContFramePool.get_frames s.kernel_mem_pool 1).2 ∧
        leaf_table t (a >>> 22) = next_table s ∧
        (∀ k, k < ENTRIES_PER_PAGE → k ≠ (a >>> 12) &&& 0x3FF →
          read t.memory (leaf_table t (a >>> 22)) k = 0x2) ∧
        ∀ j, j < ENTRIES_PER_PAGE → j ≠ a >>> 22 →
          read t.memory t.page_directory j = read s.memory s.page_directory j) := by
  obtain ⟨hD, hKD, htab⟩ := hsep
  unfold PAGE_SIZE at hD
  have hpdi := directory_index_lt a ha
  have hpti := leaf_index_lt (a >>> 12)
  obtain ⟨hK1, hK2⟩ := next_table_aligned s
  by_cases hp : read s.memory s.page_directory (a >>> 22) &&& 0x1 = 0x1
  · obtain ⟨hTD, _⟩ := htab (a >>> 22) hpdi hp
    have hT := table_mask_aligned (read s.memory s.page_directory (a >>> 22))
    have hdir : ∀ j, j < 1024 →
        read (write s.memory (leaf_table s (a >>> 22)) ((a >>> 12) &&& 0x3FF)
          ((newFrame s * PAGE_SIZE) % 2 ^ 32 ||| 0x3)) s.page_directory j
          = read s.memory s.page_directory j := by
      intro j hj
      rw [read_write, if_neg]
      unfold leaf_table at hTD ⊢
      omega
    have hleaf : read (write s.memory (leaf_table s (a >>> 22)) ((a >>> 12) &&& 0x3FF)
          ((newFrame s * PAGE_SIZE) % 2 ^ 32 ||| 0x3)) s.page_directory (a >>> 22)
          &&& 0xFFFFF000 = leaf_table s (a >>> 22) := by
      rw [hdir _ hpdi]
      rfl
    refine ⟨_, handle_fault_present s a hlegit hp, rfl, rfl, ?_, ?_, ?_, ?_, ?_⟩
    · show read (write s.memory _ _ _) s.page_directory (a >>> 22) &&& 0x1 = 0x1
      rw [hdir _ hpdi]
      exact hp
    · show read (write s.memory _ _ _) (read (write s.memory _ _ _) s.page_directory (a >>> 22)
        &&& 0xFFFFF000) _ = _
      rw [hleaf, read_write_same]
    · intro j k hj hk hpj hne
      show read (write s.memory _ _ _) (leaf_table s j) k = _
      have hne2 : leaf_table s j ≠ leaf_table s (a >>> 22) ∨ k ≠ (a >>> 12) &&& 0x3FF := by
        rcases hne with h | h
        · left
          intro hh
          apply h
          show _ = read (write s.memory _ _ _) s.page_directory (a >>> 22) &&& 0xFFFFF000
          rw [hleaf]
          exact hh
        · right; exact h
      have hTj := table_mask_aligned (read s.memory s.page_directory j)
      rw [read_write, if_neg]
      unfold ENTRIES_PER_PAGE at hk
      unfold leaf_table at hne2 ⊢
      omega
    · intro _
      exact ⟨rfl, fun j hj => hdir j hj⟩
    · intro hnp
      exact absurd hp hnp
  · have hsame : read (write (fill_not_present (next_table s) ENTRIES_PER_PAGE 0 s.memory)
          s.page_directory (a >>> 22) (next_table s)) s.page_directory (a >>> 22)
          = next_table s := read_write_same _ _ _ _
    have heq := handle_fault_absent s a hlegit hp
    rw [hsame] at heq
    have hd3 : read (write (write (fill_not_present (next_table s) ENTRIES_PER_PAGE 0 s.memory)
          s.page_directory (a >>> 22) (next_table s)) s.page_directory (a >>> 22)
          (next_table s ||| 0x3)) s.page_directory (a >>> 22) = next_table s ||| 0x3 :=
      read_write_same _ _ _ _
    rw [hd3, or_three_table_mask _ hK1 hK2] at heq
    have hdir : read (write (write (write
          (fill_not_present (next_table s) ENTRIES_PER_PAGE 0 s.memory)
          s.page_directory (a >>> 22) (next_table s)) s.page_directory (a >>> 22)
          (next_table s ||| 0x3)) (next_table s) ((a >>> 12) &&& 0x3FF)
          ((newFrame s * PAGE_SIZE) % 2 ^ 32 ||| 0x3)) s.page_directory (a >>> 22)
          = next_table s ||| 0x3 := by
      rw [read_write, if_neg (by omega), read_write_same]
    refine ⟨_, heq, rfl, rfl, ?_, ?_, ?_, ?_, ?_⟩
    · show read (write _ _ _ _) s.page_directory (a >>> 22) &&& 0x1 = 0x1
      rw [hdir]
      exact or_three_present _
    · show read (write _ _ _ _) (read (write _ _ _ _) s.page_directory (a >>> 22)
        &&& 0xFFFFF000) _ = _
      rw [hdir, or_three_table_mask _ hK1 hK2, read_write_same]
    · intro j k hj hk hpj _
      obtain ⟨hTjD, hTjK⟩ := htab j hj hpj
      have hTj : leaf_table s j % 4096 = 0 := table_mask_aligned _
      show read (write _ _ _ _) (leaf_table s j) k = _
      unfold ENTRIES_PER_PAGE at hk
      generalize leaf_table s j = Tj at hTjD hTjK hTj ⊢
      rw [read_write, if_neg (by omega), read_write, if_neg (by omega), read_write,
        if_neg (by omega)]
      unfold read
      rw [fill_not_present_apply, if_neg]
      unfold ENTRIES_PER_PAGE
      omega
    · intro h
      exact absurd h hp
    · intro _
      have hlt : read (write (write (write
          (fill_not_present (next_table s) ENTRIES_PER_PAGE 0 s.memory)
          s.page_directory (a >>> 22) (next_table s)) s.page_directory (a >>> 22)
          (next_table s ||| 0x3)) (next_table s) ((a >>> 12) &&& 0x3FF)
          ((newFrame s * PAGE_SIZE) % 2 ^ 32 ||| 0x3)) s.page_directory (a >>> 22)
          &&& 0xFFFFF000 = next_table s := by
        rw [hdir, or_three_table_mask _ hK1 hK2]
      refine ⟨rfl, hlt, ?_, ?_⟩
      · intro k hk hne
        show read (write _ _ _ _) (read (write _ _ _ _) s.page_directory (a >>> 22)
          &&& 0xFFFFF000) k = 0x2
        rw [hlt]
        unfold ENTRIES_PER_PAGE at hk
        rw [read_write, if_neg (by omega), read_write, if_neg (by omega), read_write,
          if_neg (by omega)]
        unfold read
        rw [fill_not_present_apply, if_pos]
        unfold ENTRIES_PER_PAGE
        omega
      · intro j hj hne
        show read (write _ _ _ _) s.page_directory j = _
        unfold ENTRIES_PER_PAGE at hj
        rw [read_write, if_neg (by omega), read_write, if_neg (by omega), read_write,
          if_neg (by omega)]
        unfold read
        rw [fill_not_present_apply, if_neg]
        unfold ENTRIES_PER_PAGE
        omega


/-- The example state `paging_state` keeps its tables apart: the directory is frame 513, the
one leaf table frame 514, and the kernel pool hands out frame 515 next. -/
theorem paging_state_separate : tables_separate paging_state := by
  refine ⟨by decide, by decide, ?_⟩
  intro j hj hp
  have hj0 : j = 0 := by
    by_cases h0 : j = 0
    · exact h0
    · exfalso
      have hv : read paging_state.memory paging_state.page_directory j = 2 := by
        show paging_memory (2101248 + 4 * j) = 2
        unfold paging_memory
        unfold ENTRIES_PER_PAGE at hj
        rw [if_neg (by omega), if_pos (by omega)]
      rw [hv] at hp
      exact absurd hp (by decide)
  subst hj0
  exact ⟨by decide, by decide⟩


/-- Tables that lie in allocated frames of a kernel pool with a FREE frame are apart from the
frame the pool hands out next. -/
theorem tables_separate_of_allocated (s : State) (hk : can_supply s.kernel_mem_pool)
    (ht : tables_allocated s) : tables_separate s := by
  obtain ⟨h8, hmem, hb, i0, hi0, hfree⟩ := hk
  obtain ⟨i, hi, hbit, g1, _⟩ := ContFramePool.get_frames_one_step s.kernel_mem_pool h8 hmem
    ⟨i0, hi0, (ContFramePool.bitmapResult_of_free _ i0 hfree).1⟩
  have hnext : next_table s = (s.kernel_mem_pool.base_frame_no + i) * PAGE_SIZE := by
    unfold next_table
    rw [g1]
    apply Nat.mod_eq_of_lt
    have : (2 : Nat) ^ 32 = 4294967296 := by decide
    have : (2 : Nat) ^ 20 = 1048576 := by decide
    unfold PAGE_SIZE
    omega
  have hne : ∀ x, table_frame_allocated s x → x ≠ next_table s := by
    rintro x ⟨j, hj, hx, hbj⟩ hxn
    rw [hnext, hx] at hxn
    have hji : j = i := by
      unfold PAGE_SIZE at hxn
      omega
    subst hji
    rw [hbit] at hbj
    exact absurd hbj (by simp)
  obtain ⟨hd, htab⟩ := ht
  refine ⟨?_, fun h => hne _ hd h.symm, ?_⟩
  · obtain ⟨j, _, hx, _⟩ := hd
    rw [hx]
    unfold PAGE_SIZE
    omega
  · intro j hj hp
    exact ⟨(htab j hj hp).1, hne _ (htab j hj hp).2⟩


/-- A fault keeps the tables in allocated frames of the kernel pool, as long as the kernel pool
has a FREE frame for a new leaf table. -/
theorem handle_fault_keeps_allocated (s : State) (a : Nat)
    (hlegit : check_address s.VMPools a = true) (ha : a < 2 ^ 32)
    (hk : can_supply s.kernel_mem_pool) (ht : tables_allocated s) :
    ∃ t, handle_fault s a = FaultResult.handled t ∧ tables_allocated t := by
  have hsep := tables_separate_of_allocated s hk ht
  obtain ⟨t, hres, e0, _, e1, _, _, e4, e5⟩ := handle_fault_entries s a hlegit ha hsep
  refine ⟨t, hres, ?_⟩
  obtain ⟨hd, htab⟩ := ht
  by_cases hp : read s.memory s.page_directory (a >>> 22) &&& 0x1 = 0x1
  · obtain ⟨k1, k2⟩ := e4 hp
    have hal : ∀ x, table_frame_allocated s x → table_frame_allocated t x := by
      rintro x ⟨i, hi, hx, hb⟩
      exact ⟨i, by rw [k1]; exact hi, by rw [k1]; exact hx, by rw [k1]; exact hb⟩
    refine ⟨by rw [e0]; exact hal _ hd, ?_⟩
    intro j hj hpj
    rw [k2 j hj] at hpj
    have hl : leaf_table t j = leaf_table s j := by
      unfold leaf_table
      rw [k2 j hj]
    rw [hl, e0]
    exact ⟨(htab j hj hpj).1, hal _ (htab j hj hpj).2⟩
  · obtain ⟨k1, k2, _, k4⟩ := e5 hp
    obtain ⟨h8, hmem, hb20, i0, hi0, hfree⟩ := hk
    obtain ⟨i, hi, _, g1, g2, g3, _, g5, _⟩ :=
      ContFramePool.get_frames_one_step s.kernel_mem_pool h8 hmem
        ⟨i0, hi0, (ContFramePool.bitmapResult_of_free _ i0 hfree).1⟩
    have hal : ∀ x, table_frame_allocated s x → table_frame_allocated t x := by
      rintro x ⟨j, hj, hx, hb⟩
      refine ⟨j, by rw [k1, g2]; exact hj, by rw [k1, g3]; exact hx, ?_⟩
      rw [k1, g5 j hj]
      by_cases hji : j = i
      · rw [if_pos hji]
      · rw [if_neg hji]; exact hb
    have hnew : table_frame_allocated t (next_table s) := by
      refine ⟨i, by rw [k1, g2]; exact hi, ?_, by rw [k1, g5 i hi, if_pos rfl]⟩
      rw [k1, g3]
      unfold next_table
      rw [g1]
      apply Nat.mod_eq_of_lt
      have : (2 : Nat) ^ 32 = 4294967296 := by decide
      have : (2 : Nat) ^ 20 = 1048576 := by decide
      unfold PAGE_SIZE
      omega
    refine ⟨by rw [e0]; exact hal _ hd, ?_⟩
    intro j hj hpj
    by_cases hjd : j = a >>> 22
    · subst hjd
      rw [k2, e0]
      exact ⟨hsep.2.1, hnew⟩
    · rw [k4 j hj hjd] at hpj
      have hl : leaf_table t j = leaf_table s j := by
        unfold leaf_table
        rw [k4 j hj hjd]
      rw [hl, e0]
      exact ⟨(htab j hj hpj).1, hal _ (htab j hj hpj).2⟩


theorem takes_one_frame_of_free (p : ContFramePool.Pool) (h : can_supply p) :
    takes_one_frame p (ContFramePool.get_frames p 1).2 ∧
      ∃ i, i < p.nframes ∧ (ContFramePool.get_frames p 1).1 = p.base_frame_no + i := by
  obtain ⟨h8, hmem, _, i0, hi0, hfree⟩ := h
  obtain ⟨i, hi, hb, g1, _, _, _, g5, g6⟩ := ContFramePool.get_frames_one_step p h8 hmem
    ⟨i0, hi0, (ContFramePool.bitmapResult_of_free p i0 hfree).1⟩
  refine ⟨⟨i, hi, hb, ?_, ?_⟩, i, hi, g1⟩
  · simp [ContFramePool.frame_state, g5 i hi, g6 i hi]
  · intro j hj hji
    simp [ContFramePool.frame_state, g5 j hj, g6 j hj, hji]

theorem newFrame_address (s : State) (h : can_supply s.process_mem_pool) :
    (newFrame s * PAGE_SIZE) % 2 ^ 32 = newFrame s * PAGE_SIZE ∧
      s.process_mem_pool.base_frame_no ≤ newFrame s ∧
      newFrame s < s.process_mem_pool.base_frame_no + s.process_mem_pool.nframes := by
  obtain ⟨_, i, hi, hg⟩ := takes_one_frame_of_free s.process_mem_pool h
  obtain ⟨_, _, hb, _⟩ := h
  unfold newFrame PAGE_SIZE
  rw [hg]
  refine ⟨?_, by omega, by omega⟩
  apply Nat.mod_eq_of_lt
  have : (2 : Nat) ^ 32 = 4294967296 := by decide
  have : (2 : Nat) ^ 20 = 1048576 := by decide
  omega

/-! ## C22: what a fault installs -/

/-- C22: for every legitimate faulting address a (a 32-bit address), in a state where the
process pool can supply the frame requested and the directory, the leaf tables and the frame
the kernel pool hands out next are different pages: `handle_fault` returns, afterwards the
directory entry at index a >> 22 is present, and the entry at index (a >> 12) & 0x3FF of the
leaf table that directory entry points to holds the physical address of the frame
`process_mem_pool->get_frames(1)` returned in this call, with the present bit; every other
entry of the leaf tables that existed before the call is unchanged. -/
theorem handle_fault_installs (s : State) (a : Nat)
    (hlegit : check_address s.VMPools a = true) (ha : a < 2 ^ 32)
    (hp : can_supply s.process_mem_pool) (hsep : tables_separate s) :
    ∃ t, handle_fault s a = FaultResult.handled t ∧
      read t.memory t.page_directory (a >>> 22) &&& 0x1 = 0x1 ∧
      read t.memory (leaf_table t (a >>> 22)) ((a >>> 12) &&& 0x3FF)
        = newFrame s * PAGE_SIZE ||| 0x3 ∧
      read t.memory (leaf_table t (a >>> 22)) ((a >>> 12) &&& 0x3FF) &&& 0x1 = 0x1 ∧
      read t.memory (leaf_table t (a >>> 22)) ((a >>> 12) &&& 0x3FF) &&& 0xFFFFF000
        = newFrame s * PAGE_SIZE ∧
      ∀ j k, j < ENTRIES_PER_PAGE → k < ENTRIES_PER_PAGE →
        read s.memory s.page_directory j &&& 0x1 = 0x1 →
        (leaf_table s j ≠ leaf_table t (a >>> 22) ∨ k ≠ (a >>> 12) &&& 0x3FF) →
        read t.memory (leaf_table s j) k = read s.memory (leaf_table s j) k := by
  obtain ⟨t, ht, _, _, e1, e2, e3, _, _⟩ := handle_fault_entries s a hlegit ha hsep
  obtain ⟨n1, n2, n3⟩ := newFrame_address s hp
  rw [n1] at e2
  have hal : (newFrame s * PAGE_SIZE) % 4096 = 0 := by unfold PAGE_SIZE; omega
  have hlt : newFrame s * PAGE_SIZE < 2 ^ 32 := by
    rw [← n1]
    exact Nat.mod_lt _ (by decide)
  refine ⟨t, ht, e1, e2, ?_, ?_, e3⟩
  · rw [e2]; exact or_three_present _
  · rw [e2]; exact or_three_table_mask _ hal hlt

/-- Witness for C22: the fault at address 1 GB in `paging_state`, whose directory entry 256 is
not present. -/
theorem handle_fault_installs_witness :
    ∃ t, handle_fault paging_state 1073741824 = FaultResult.handled t ∧
      read t.memory t.page_directory (1073741824 >>> 22) &&& 0x1 = 0x1 ∧
      read t.memory (leaf_table t (1073741824 >>> 22)) ((1073741824 >>> 12) &&& 0x3FF)
        = newFrame paging_state * PAGE_SIZE ||| 0x3 ∧
      read t.memory (leaf_table t (1073741824 >>> 22)) ((1073741824 >>> 12) &&& 0x3FF)
        &&& 0x1 = 0x1 ∧
      read t.memory (leaf_table t (1073741824 >>> 22)) ((1073741824 >>> 12) &&& 0x3FF)
        &&& 0xFFFFF000 = newFrame paging_state * PAGE_SIZE ∧
      ∀ j k, j < ENTRIES_PER_PAGE → k < ENTRIES_PER_PAGE →
        read paging_state.memory paging_state.page_directory j &&& 0x1 = 0x1 →
        (leaf_table paging_state j ≠ leaf_table t (1073741824 >>> 22) ∨
          k ≠ (1073741824 >>> 12) &&& 0x3FF) →
        read t.memory (leaf_table paging_state j) k
          = read paging_state.memory (leaf_table paging_state j) k :=
  handle_fault_installs paging_state 1073741824 (by decide) (by decide)
    ⟨by decide, by decide, by decide, 0, by decide, by decide⟩ paging_state_separate


/-! ## C23: the frames a fault takes -/

/-- C23 as written fails in a state whose process pool has no frame left: in
`exhausted_state` every frame of the process pool is HEAD_OF_SEQUENCE, the address 1 GB is
legitimate, `handle_fault` returns, `get_frames(1)` has returned 0, the process pool is as it
was, so no frame was taken from it, and the leaf entry holds frame address 0 with the present
bit. -/
theorem handle_fault_exhausted_takes_no_frame :
    check_address exhausted_state.VMPools 1073741824 = true ∧
    (∀ i, i < 8 → ContFramePool.frame_state exhausted_state.process_mem_pool i
      = ContFramePool.FrameState.HEAD_OF_SEQUENCE) ∧
    newFrame exhausted_state = 0 ∧
    ∃ t, handle_fault exhausted_state 1073741824 = FaultResult.handled t ∧
      t.process_mem_pool = exhausted_state.process_mem_pool ∧
      ¬ takes_one_frame exhausted_state.process_mem_pool t.process_mem_pool ∧
      read t.memory (leaf_table t (1073741824 >>> 22)) ((1073741824 >>> 12) &&& 0x3FF)
        = 0 * PAGE_SIZE ||| 0x3 := by
  refine ⟨by decide, by decide, by decide, _, rfl, by decide, ?_, by decide⟩
  rintro ⟨i, hi, hb, _⟩
  have hi8 : i < 8 := hi
  revert hb
  interval_cases i <;> decide

/-- C23, amended: for every legitimate faulting address a (a 32-bit address), in a state where
the process pool can supply a frame, the kernel pool can supply one when the directory entry
a >> 22 is not present, and the directory, the leaf tables and the frame the kernel pool hands
out next are different pages: `handle_fault` returns and takes one frame from the process
pool; when the directory entry is not present it takes one frame from the kernel pool and
every entry of the new leaf table other than the faulting leaf index holds 2, not present;
when the directory entry is present the kernel pool and every directory entry are as they
were. -/
theorem handle_fault_takes_frames (s : State) (a : Nat)
    (hlegit : check_address s.VMPools a = true) (ha : a < 2 ^ 32)
    (hp : can_supply s.process_mem_pool)
    (hk : read s.memory s.page_directory (a >>> 22) &&& 0x1 ≠ 0x1 →
      can_supply s.kernel_mem_pool)
    (hsep : tables_separate s) :
    ∃ t, handle_fault s a = FaultResult.handled t ∧
      takes_one_frame s.process_mem_pool t.process_mem_pool ∧
      (read s.memory s.page_directory (a >>> 22) &&& 0x1 ≠ 0x1 →
        takes_one_frame s.kernel_mem_pool t.kernel_mem_pool ∧
        ∀ k, k < ENTRIES_PER_PAGE → k ≠ (a >>> 12) &&& 0x3FF →
          read t.memory (leaf_table t (a >>> 22)) k = 0x2 ∧
          read t.memory (leaf_table t (a >>> 22)) k &&& 0x1 ≠ 0x1) ∧
      (read s.memory s.page_directory (a >>> 22) &&& 0x1 = 0x1 →
        t.kernel_mem_pool = s.kernel_mem_pool ∧
        ∀ j, j < ENTRIES_PER_PAGE →
          read t.memory t.page_directory j = read s.memory s.page_directory j) := by
  obtain ⟨t, ht, _, e0, _, _, _, e4, e5⟩ := handle_fault_entries s a hlegit ha hsep
  refine ⟨t, ht, ?_, ?_, e4⟩
  · rw [e0]
    exact (takes_one_frame_of_free _ hp).1
  · intro hnp
    obtain ⟨k1, _, k3, _⟩ := e5 hnp
    refine ⟨?_, ?_⟩
    · rw [k1]
      exact (takes_one_frame_of_free _ (hk hnp)).1
    · intro k hk1 hk2
      rw [k3 k hk1 hk2]
      exact ⟨rfl, by decide⟩

/-- Witness for C23: the fault at address 1 GB in `paging_state`, whose directory entry 256 is
not present; both pools have a FREE frame. -/
theorem handle_fault_takes_frames_witness :
    ∃ t, handle_fault paging_state 1073741824 = FaultResult.handled t ∧
      takes_one_frame paging_state.process_mem_pool t.process_mem_pool ∧
      (read paging_state.memory paging_state.page_directory (1073741824 >>> 22) &&& 0x1 ≠ 0x1 →
        takes_one_frame paging_state.kernel_mem_pool t.kernel_mem_pool ∧
        ∀ k, k < ENTRIES_PER_PAGE → k ≠ (1073741824 >>> 12) &&& 0x3FF →
          read t.memory (leaf_table t (1073741824 >>> 22)) k = 0x2 ∧
          read t.memory (leaf_table t (1073741824 >>> 22)) k &&& 0x1 ≠ 0x1) ∧
      (read paging_state.memory paging_state.page_directory (1073741824 >>> 22) &&& 0x1 = 0x1 →
        t.kernel_mem_pool = paging_state.kernel_mem_pool ∧
        ∀ j, j < ENTRIES_PER_PAGE →
          read t.memory t.page_directory j
            = read paging_state.memory paging_state.page_directory j) :=
  handle_fault_takes_frames paging_state 1073741824 (by decide) (by decide)
    ⟨by decide, by decide, by decide, 0, by decide, by decide⟩
    (fun _ => ⟨by decide, by decide, by decide, 3, by decide, by decide⟩) paging_state_separate

/-! ## C26: a second touch -/

/-- C26: for every legitimate 32-bit address a of a page that is not mapped, in a state whose
directory, leaf tables and next kernel frame are different pages: the first touch runs
`handle_fault`, which returns, and the second touch of the same page finds the page mapped and
leaves the state as the first touch left it: it takes no frame from either pool and changes no
directory or leaf entry. -/
theorem touch_twice (s : State) (a : Nat)
    (hlegit : check_address s.VMPools a = true) (ha : a < 2 ^ 32)
    (hnew : mapped s a = false) (hsep : tables_separate s) :
    ∃ t, touch s a = FaultResult.handled t ∧ handle_fault s a = FaultResult.handled t ∧
      mapped t a = true ∧ touch t a = FaultResult.handled t := by
  obtain ⟨t, ht, e0, _, e1, e2, _, _, _⟩ := handle_fault_entries s a hlegit ha hsep
  have hm : mapped t a = true := by
    unfold mapped
    rw [e1, e2, or_three_present]
    rfl
  refine ⟨t, ?_, ht, hm, ?_⟩
  · unfold touch
    rw [hnew]
    exact ht
  · unfold touch
    rw [hm]
    rfl

/-- Witness for C26: two touches of address 1 GB from `paging_state`. -/
theorem touch_twice_witness :
    ∃ t, touch paging_state 1073741824 = FaultResult.handled t ∧
      handle_fault paging_state 1073741824 = FaultResult.handled t ∧
      mapped t 1073741824 = true ∧ touch t 1073741824 = FaultResult.handled t :=
  touch_twice paging_state 1073741824 (by decide) (by decide) (by decide) paging_state_separate

end PageTable

namespace ContFramePool

/-! ## C31, C38, C39: `needed_info_frames` -/

theorem needed_info_frames_wrapping_loop_eq (n k : Nat) (hk : 1 ≤ k) (hk21 : k < 2 ^ 21)
    (hge : n ≤ (FRAME_SIZE / 2) * k) (hlt : ∀ j, 1 ≤ j → j < k → (FRAME_SIZE / 2) * j < n) :
    ∀ fuel pageNumber, pageNumber < k → k ≤ pageNumber + fuel →
      needed_info_frames_wrapping_loop n fuel pageNumber = some k := by
  have h21 : (2 : Nat) ^ 21 = 2097152 := by decide
  have h32 : (2 : Nat) ^ 32 = 4294967296 := by decide
  intro fuel
  induction fuel with
  | zero => intro pageNumber h1 h2; omega
  | succ fuel ih =>
    intro pageNumber h1 h2
    unfold needed_info_frames_wrapping_loop
    have hp : (pageNumber + 1) % 2 ^ 32 = pageNumber + 1 := Nat.mod_eq_of_lt (by omega)
    have hm : ((FRAME_SIZE / 2) * (pageNumber + 1)) % 2 ^ 32
        = (FRAME_SIZE / 2) * (pageNumber + 1) := by
      apply Nat.mod_eq_of_lt
      unfold FRAME_SIZE
      omega
    rw [hp, hm]
    by_cases hlast : pageNumber + 1 = k
    · rw [if_pos (by rw [hlast]; exact hge), hlast]
    · rw [if_neg (by
        have := hlt (pageNumber + 1) (by omega) (by omega)
        omega)]
      exact ih (pageNumber + 1) (by omega) (by omega)

theorem needed_info_frames_wrapping_eq (n : Nat) (hn : n ≤ 2 ^ 32 - 2048) (fuel : Nat)
    (hfuel : n / 2048 + 1 ≤ fuel) :
    needed_info_frames_wrapping n fuel = some (needed_info_frames n) := by
  have h21 : (2 : Nat) ^ 21 = 2097152 := by decide
  have h32 : (2 : Nat) ^ 32 = 4294967296 := by decide
  obtain ⟨s1, s2, s3⟩ := needed_info_frames_spec n
  unfold FRAME_SIZE at s2 s3
  unfold needed_info_frames_wrapping
  apply needed_info_frames_wrapping_loop_eq n (needed_info_frames n) s1
  · omega
  · unfold FRAME_SIZE; exact s2
  · intro j hj1 hj2
    unfold FRAME_SIZE
    omega
  · omega
  · omega

theorem needed_info_frames_wrapping_never (fuel : Nat) :
    ∀ pageNumber, needed_info_frames_wrapping_loop 4294967295 fuel pageNumber = none := by
  have h32 : (2 : Nat) ^ 32 = 4294967296 := by decide
  induction fuel with
  | zero => intro pageNumber; rfl
  | succ fuel ih =>
    intro pageNumber
    unfold needed_info_frames_wrapping_loop
    rw [if_neg (by unfold FRAME_SIZE; omega)]
    exact ih _

/-- C31, evaluated where the code departs from it: for 2049 frames one info frame holds the
2 bits of every frame (1 * 4096 * 8 >= 2 * 2049), and `needed_info_frames(2049)` returns 2; for
the 7168 frames of the process pool of `kernel.C` one frame is enough as well and the function
returns 4.  The 32-bit loop returns the same values. -/
theorem needed_info_frames_counts_bytes_as_bits :
    needed_info_frames 2049 = 2 ∧ needed_info_frames_wrapping 2049 2 = some 2 ∧
    2 * 2049 ≤ 1 * 4096 * 8 ∧
    needed_info_frames 7168 = 4 ∧ needed_info_frames_wrapping 7168 4 = some 4 ∧
    2 * 7168 ≤ 1 * 4096 * 8 := by
  decide

/-- C38: for every n >= 1, `needed_info_frames(n)` frames hold the n / 4 bytes of the two bitmap
arrays of n / 8 bytes each, so a self-hosted bitmap ends within the frames the constructor
marks as used; for n <= 2 ^ 32 - 2048, where the 32-bit product does not wrap, the 32-bit loop
returns this value. -/
theorem needed_info_frames_sufficient (n : Nat) (hn : 1 ≤ n) :
    n / 4 ≤ needed_info_frames n * FRAME_SIZE ∧
    n / 8 + n / 8 ≤ needed_info_frames n * FRAME_SIZE ∧
    (n ≤ 2 ^ 32 - 2048 →
      needed_info_frames_wrapping n (n / 2048 + 1) = some (needed_info_frames n)) := by
  obtain ⟨_, s2, _⟩ := needed_info_frames_spec n
  unfold FRAME_SIZE at s2 ⊢
  exact ⟨by omega, by omega, fun h => needed_info_frames_wrapping_eq n h _ (Nat.le_refl _)⟩

/-- Witness for C38: the 512 frames of the kernel pool of `kernel.C`. -/
theorem needed_info_frames_sufficient_witness :
    512 / 4 ≤ needed_info_frames 512 * FRAME_SIZE ∧
    512 / 8 + 512 / 8 ≤ needed_info_frames 512 * FRAME_SIZE ∧
    (512 ≤ 2 ^ 32 - 2048 →
      needed_info_frames_wrapping 512 (512 / 2048 + 1) = some (needed_info_frames 512)) :=
  needed_info_frames_sufficient 512 (by decide)

/-- C39 as written fails for the frame counts above 2 ^ 32 - 2048: the 32-bit product
`2048 * pageNumber` is a multiple of 2048 below 2 ^ 32 and never reaches 4294967295, so for
n = 2 ^ 32 - 1 the loop returns after no number of rounds. -/
theorem needed_info_frames_wrapping_loops :
    ¬ ∃ fuel k, needed_info_frames_wrapping 4294967295 fuel = some k := by
  rintro ⟨fuel, k, h⟩
  unfold needed_info_frames_wrapping at h
  rw [needed_info_frames_wrapping_never] at h
  cases h

/-- C39, amended: for every n in [0, 2 ^ 32 - 2048], with `pageNumber` and the product
`2048 * pageNumber` computed modulo 2 ^ 32, the loop of `needed_info_frames` returns within
n / 2048 + 1 rounds, and the value returned is at least 1: it is the smallest k >= 1 with
2048 * k >= n. -/
theorem needed_info_frames_wrapping_returns (n fuel : Nat) (hn : n ≤ 2 ^ 32 - 2048)
    (hfuel : n / 2048 + 1 ≤ fuel) :
    ∃ k, needed_info_frames_wrapping n fuel = some k ∧ 1 ≤ k ∧ n ≤ 2048 * k ∧
      ∀ j, 1 ≤ j → j < k → 2048 * j < n := by
  obtain ⟨s1, s2, s3⟩ := needed_info_frames_spec n
  unfold FRAME_SIZE at s2 s3
  refine ⟨needed_info_frames n, needed_info_frames_wrapping_eq n hn fuel hfuel, s1, s2, ?_⟩
  intro j hj1 hj2
  omega

/-- Witness for C39: the largest frame count the loop handles, 2 ^ 32 - 2048. -/
theorem needed_info_frames_wrapping_returns_witness :
    ∃ k, needed_info_frames_wrapping 4294965248 2097152 = some k ∧ 1 ≤ k ∧
      4294965248 ≤ 2048 * k ∧ ∀ j, 1 ≤ j → j < k → 2048 * j < 4294965248 :=
  needed_info_frames_wrapping_returns 4294965248 2097152 (by decide) (by decide)


/-! ## C34: the walk of `release_frame` has no bound -/

/-- C34, evaluated where the code departs from it: in `run_to_end_pool` (16 frames) the run
headed by frame 1028 extends to the last frame.  `release_frame(1028)` walks on behind frame 15:
it tests the `bitmap` bits 16, 17, 18 and 19, which are the first bits of `bitmap2`, and sets
the first three, so the inaccessible frames 1024..1026 are HEAD_OF_SEQUENCE afterwards.  In a
fresh 8-frame pool after `get_frames(8)` the walk of `release_frame(1025)` leaves both arrays
behind. -/
theorem release_frame_walks_past_last_frame :
    (construct 1024 16 513 1 [0, 0, 0, 0] = Outcome.done ⟨1024, 16, 513, 1, [0xFF, 0xFF, 0, 0]⟩ ∧
      mark_inaccessible ⟨1024, 16, 513, 1, [0xFF, 0xFF, 0, 0]⟩ 1024 3
        = Outcome.done ⟨1024, 16, 513, 1, [0x1F, 0xFF, 0, 0]⟩ ∧
      get_frames ⟨1024, 16, 513, 1, [0x1F, 0xFF, 0, 0]⟩ 1
        = (1027, ⟨1024, 16, 513, 1, [0x0F, 0xFF, 0x10, 0]⟩) ∧
      get_frames ⟨1024, 16, 513, 1, [0x0F, 0xFF, 0x10, 0]⟩ 12 = (1028, run_to_end_pool)) ∧
    frame_state run_to_end_pool 4 = FrameState.HEAD_OF_SEQUENCE ∧
    (∀ i, 5 ≤ i → i < 16 → frame_state run_to_end_pool i = FrameState.ALLOCATED_TAIL) ∧
    frame_state run_to_end_pool 0 = FrameState.ALLOCATED_TAIL ∧
    release_frame run_to_end_pool 1028
      = Outcome.done ⟨1024, 16, 513, 1, [0x0F, 0xFF, 0xF0, 0x00]⟩ ∧
    run_to_end_pool.nframes ≤ 16 ∧
    bitmapResult run_to_end_pool 16 = false ∧
    bitmapResult ⟨1024, 16, 513, 1, [0x0F, 0xFF, 0xF0, 0x00]⟩ 16 = true ∧
    frame_state ⟨1024, 16, 513, 1, [0x0F, 0xFF, 0xF0, 0x00]⟩ 0
      = FrameState.HEAD_OF_SEQUENCE ∧
    (get_frames process_pool_8 8 = (1025, ⟨1024, 8, 513, 1, [0x80, 0x40]⟩) ∧
      release_frame ⟨1024, 8, 513, 1, [0x80, 0x40]⟩ 1025 = Outcome.outside) := by
  decide

end ContFramePool

namespace PageTable

/-! ## C36: the indices of `free_page` and `handle_fault` -/

/-- C36: for every 32-bit logical address a and every state, `free_page` called with the page
number a >> 12 works on the directory index and the leaf index that `handle_fault` computes for
a.  The indices agree, (a >> 12) >> 10 = a >> 22, and both are below 1024.  A handled fault at a
writes its leaf entry at index (a >> 12) & 0x3FF of the table that directory entry a >> 22
names, in the memory `m` it has reached by then (the memory before the fault when the directory
entry was present).  `free_page(a >> 12)` tests the entry at index (a >> 12) & 0x3FF of the
table that directory entry a >> 22 names: it returns at once when line 170 finds bit 0 set, and
otherwise calls `release_frames` with that entry and stores 0x2 in that entry.  With the tables
on separate pages, the entry `free_page(a >> 12)` tests after a handled fault at a is the one
the fault wrote. -/
theorem free_page_addresses_fault_entry (s : State) (a : Nat) (ha : a < 2 ^ 32) :
    (a >>> 12) >>> 10 = a >>> 22 ∧
    a >>> 22 < ENTRIES_PER_PAGE ∧ (a >>> 12) &&& 0x3FF < ENTRIES_PER_PAGE ∧
    (∀ t, handle_fault s a = FaultResult.handled t →
      ∃ m, t.memory
          = write m (read m s.page_directory (a >>> 22) &&& 0xFFFFF000) ((a >>> 12) &&& 0x3FF)
              ((newFrame s * PAGE_SIZE) % 2 ^ 32 ||| 0x3) ∧
        (read s.memory s.page_directory (a >>> 22) &&& 0x1 = 0x1 → m = s.memory)) ∧
    (read s.memory (leaf_table s (a >>> 22)) ((a >>> 12) &&& 0x3FF) &&& 0x1 = 0x1 →
      free_page s (a >>> 12) = ContFramePool.Outcome.done s) ∧
    (read s.memory (leaf_table s (a >>> 22)) ((a >>> 12) &&& 0x3FF) &&& 0x1 ≠ 0x1 →
      free_page s (a >>> 12)
        = match ContFramePool.release_frames [s.kernel_mem_pool, s.process_mem_pool]
            (read s.memory (leaf_table s (a >>> 22)) ((a >>> 12) &&& 0x3FF) / PAGE_SIZE) with
          | ContFramePool.Outcome.done ps =>
            ContFramePool.Outcome.done ⟨ps.getD 0 s.kernel_mem_pool,
              ps.getD 1 s.process_mem_pool, s.shared_size, s.page_directory,
              write s.memory (leaf_table s (a >>> 22)) ((a >>> 12) &&& 0x3FF) 0x2, s.VMPools⟩
          | ContFramePool.Outcome.assertFailed ps =>
            ContFramePool.Outcome.assertFailed ⟨ps.getD 0 s.kernel_mem_pool,
              ps.getD 1 s.process_mem_pool, s.shared_size, s.page_directory, s.memory,
              s.VMPools⟩
          | ContFramePool.Outcome.outside => ContFramePool.Outcome.outside) ∧
    (tables_separate s → check_address s.VMPools a = true →
      ∃ t, handle_fault s a = FaultResult.handled t ∧
        read t.memory (leaf_table t ((a >>> 12) >>> 10)) ((a >>> 12) &&& 0x3FF)
          = (newFrame s * PAGE_SIZE) % 2 ^ 32 ||| 0x3 ∧
        free_page t (a >>> 12) = ContFramePool.Outcome.done t) := by
  have h : (a >>> 12) >>> 10 = a >>> 22 := by
    rw [← Nat.shiftRight_add]
  refine ⟨h, directory_index_lt a ha, leaf_index_lt _, ?_, ?_, ?_, ?_⟩
  · intro t ht
    by_cases hc : check_address s.VMPools a = true
    · by_cases hp : read s.memory s.page_directory (a >>> 22) &&& 0x1 = 0x1
      · rw [handle_fault_present s a hc hp] at ht
        injection ht with ht
        rw [← ht]
        exact ⟨s.memory, rfl, fun _ => rfl⟩
      · rw [handle_fault_absent s a hc hp] at ht
        injection ht with ht
        rw [← ht]
        exact ⟨_, rfl, fun hp1 => absurd hp1 hp⟩
    · unfold handle_fault at ht
      rw [if_pos hc] at ht
      cases ht
  · intro hp
    apply free_page_present
    rw [h]
    exact hp
  · intro hp
    unfold free_page
    unfold leaf_table at hp ⊢
    simp only
    rw [h, if_pos hp]
  · intro hsep hc
    obtain ⟨t, ht, _, _, _, hentry, _⟩ := handle_fault_entries s a hc ha hsep
    refine ⟨t, ht, by rw [h]; exact hentry, ?_⟩
    apply free_page_present
    rw [h, hentry]
    exact or_three_present _

/-- Witness for C36: the address 0x40001000, page 262145, directory index 256, leaf index 1, in
`low_word_state`, where the entry `free_page` tests has bit 0 clear: `free_page(262145)` calls
`release_frames` and stores 0x2 in the entry. -/
theorem free_page_addresses_fault_entry_witness :
    (1073745920 >>> 12) >>> 10 = 1073745920 >>> 22 ∧
    1073745920 >>> 22 < ENTRIES_PER_PAGE ∧ (1073745920 >>> 12) &&& 0x3FF < ENTRIES_PER_PAGE ∧
    (∀ t, handle_fault low_word_state 1073745920 = FaultResult.handled t →
      ∃ m, t.memory
          = write m (read m low_word_state.page_directory (1073745920 >>> 22) &&& 0xFFFFF000)
              ((1073745920 >>> 12) &&& 0x3FF)
              ((newFrame low_word_state * PAGE_SIZE) % 2 ^ 32 ||| 0x3) ∧
        (read low_word_state.memory low_word_state.page_directory (1073745920 >>> 22)
            &&& 0x1 = 0x1 → m = low_word_state.memory)) ∧
    (read low_word_state.memory (leaf_table low_word_state (1073745920 >>> 22))
        ((1073745920 >>> 12) &&& 0x3FF) &&& 0x1 = 0x1 →
      free_page low_word_state (1073745920 >>> 12)
        = ContFramePool.Outcome.done low_word_state) ∧
    (read low_word_state.memory (leaf_table low_word_state (1073745920 >>> 22))
        ((1073745920 >>> 12) &&& 0x3FF) &&& 0x1 ≠ 0x1 →
      free_page low_word_state (1073745920 >>> 12)
        = match ContFramePool.release_frames
              [low_word_state.kernel_mem_pool, low_word_state.process_mem_pool]
            (read low_word_state.memory (leaf_table low_word_state (1073745920 >>> 22))
              ((1073745920 >>> 12) &&& 0x3FF) / PAGE_SIZE) with
          | ContFramePool.Outcome.done ps =>
            ContFramePool.Outcome.done ⟨ps.getD 0 low_word_state.kernel_mem_pool,
              ps.getD 1 low_word_state.process_mem_pool, low_word_state.shared_size,
              low_word_state.page_directory,
              write low_word_state.memory (leaf_table low_word_state (1073745920 >>> 22))
                ((1073745920 >>> 12) &&& 0x3FF) 0x2,
              low_word_state.VMPools⟩
          | ContFramePool.Outcome.assertFailed ps =>
            ContFramePool.Outcome.assertFailed ⟨ps.getD 0 low_word_state.kernel_mem_pool,
              ps.getD 1 low_word_state.process_mem_pool, low_word_state.shared_size,
              low_word_state.page_directory, low_word_state.memory, low_word_state.VMPools⟩
          | ContFramePool.Outcome.outside => ContFramePool.Outcome.outside) ∧
    (tables_separate low_word_state → check_address low_word_state.VMPools 1073745920 = true →
      ∃ t, handle_fault low_word_state 1073745920 = FaultResult.handled t ∧
        read t.memory (leaf_table t ((1073745920 >>> 12) >>> 10))
            ((1073745920 >>> 12) &&& 0x3FF)
          = (newFrame low_word_state * PAGE_SIZE) % 2 ^ 32 ||| 0x3 ∧
        free_page t (1073745920 >>> 12) = ContFramePool.Outcome.done t) :=
  free_page_addresses_fault_entry low_word_state 1073745920 (by decide)

/-! ## C35: the frames behind the entries a fault marks present -/

theorem get_frames_one_head (p : ContFramePool.Pool) (h : can_supply p) :
    ∃ i, i < p.nframes ∧ (ContFramePool.get_frames p 1).1 = p.base_frame_no + i ∧
      ContFramePool.bitmapResult p i = true ∧
      ContFramePool.frame_state (ContFramePool.get_frames p 1).2 i
        = ContFramePool.FrameState.HEAD_OF_SEQUENCE ∧
      ((ContFramePool.get_frames p 1).1 * PAGE_SIZE) % 2 ^ 32
        = (ContFramePool.get_frames p 1).1 * PAGE_SIZE := by
  obtain ⟨h8, hmem, hb, i0, hi0, hfree⟩ := h
  obtain ⟨i, hi, hbit, g1, _, _, _, g5, g6⟩ := ContFramePool.get_frames_one_step p h8 hmem
    ⟨i0, hi0, (ContFramePool.bitmapResult_of_free p i0 hfree).1⟩
  refine ⟨i, hi, g1, hbit, ?_, ?_⟩
  · simp [ContFramePool.frame_state, g5 i hi, g6 i hi]
  · rw [g1]
    apply Nat.mod_eq_of_lt
    have : (2 : Nat) ^ 32 = 4294967296 := by decide
    have : (2 : Nat) ^ 20 = 1048576 := by decide
    unfold PAGE_SIZE
    omega

/-- C35 as written fails for a kernel pool with no FREE frame left: in
`kernel_exhausted_state` the address 1 GB is legitimate and its directory entry 256 is not
present; `kernel_mem_pool->get_frames(1)` returns 0, the kernel pool is as it was, and
`handle_fault` marks the directory entry present with frame address 0: frame 0 is no frame of
the kernel pool, which starts at frame 512, and was not allocated in the call. -/
theorem handle_fault_installs_unallocated_frame :
    check_address kernel_exhausted_state.VMPools 1073741824 = true ∧
    read kernel_exhausted_state.memory kernel_exhausted_state.page_directory
      (1073741824 >>> 22) &&& 0x1 ≠ 0x1 ∧
    (ContFramePool.get_frames kernel_exhausted_state.kernel_mem_pool 1).1 = 0 ∧
    ∃ t, handle_fault kernel_exhausted_state 1073741824 = FaultResult.handled t ∧
      t.kernel_mem_pool = kernel_exhausted_state.kernel_mem_pool ∧
      read t.memory t.page_directory (1073741824 >>> 22) = 0 * PAGE_SIZE ||| 0x3 ∧
      read t.memory t.page_directory (1073741824 >>> 22) &&& 0x1 = 0x1 ∧
      leaf_table t (1073741824 >>> 22) / PAGE_SIZE = 0 ∧
      0 < t.kernel_mem_pool.base_frame_no := by
  refine ⟨by decide, by decide, by decide, _, rfl, by decide, by decide, by decide, by decide,
    by decide⟩

/-- C35, amended: for every legitimate faulting address a (a 32-bit address), in a state where
the process pool has a FREE frame, the kernel pool has one when the directory entry a >> 22 is
not present, and the directory, the leaf tables and the frame the kernel pool hands out next are
different pages: the leaf entry `handle_fault` marks present holds the address of a frame of
the process pool that the scan counted as free before the call and that is HEAD_OF_SEQUENCE
after it, and a newly installed directory entry points at a frame of the kernel pool that the
scan counted as free before the call and that is HEAD_OF_SEQUENCE after it. -/
theorem handle_fault_entries_allocated (s : State) (a : Nat)
    (hlegit : check_address s.VMPools a = true) (ha : a < 2 ^ 32)
    (hp : can_supply s.process_mem_pool)
    (hk : read s.memory s.page_directory (a >>> 22) &&& 0x1 ≠ 0x1 →
      can_supply s.kernel_mem_pool)
    (hsep : tables_separate s) :
    ∃ t, handle_fault s a = FaultResult.handled t ∧
      (∃ i, i < s.process_mem_pool.nframes ∧
        read t.memory (leaf_table t (a >>> 22)) ((a >>> 12) &&& 0x3FF)
          = (s.process_mem_pool.base_frame_no + i) * PAGE_SIZE ||| 0x3 ∧
        ContFramePool.bitmapResult s.process_mem_pool i = true ∧
        ContFramePool.frame_state t.process_mem_pool i
          = ContFramePool.FrameState.HEAD_OF_SEQUENCE) ∧
      (read s.memory s.page_directory (a >>> 22) &&& 0x1 ≠ 0x1 →
        read t.memory t.page_directory (a >>> 22) &&& 0x1 = 0x1 ∧
        ∃ i, i < s.kernel_mem_pool.nframes ∧
          leaf_table t (a >>> 22) = (s.kernel_mem_pool.base_frame_no + i) * PAGE_SIZE ∧
          ContFramePool.bitmapResult s.kernel_mem_pool i = true ∧
          ContFramePool.frame_state t.kernel_mem_pool i
            = ContFramePool.FrameState.HEAD_OF_SEQUENCE) := by
  obtain ⟨t, ht, _, e0, e1, e2, _, _, e5⟩ := handle_fault_entries s a hlegit ha hsep
  refine ⟨t, ht, ?_, ?_⟩
  · obtain ⟨i, hi, g1, hb, hs, hm⟩ := get_frames_one_head s.process_mem_pool hp
    refine ⟨i, hi, ?_, hb, by rw [e0]; exact hs⟩
    rw [e2]
    unfold newFrame
    rw [hm, g1]
  · intro hnp
    obtain ⟨k1, k2, _, _⟩ := e5 hnp
    obtain ⟨i, hi, g1, hb, hs, hm⟩ := get_frames_one_head s.kernel_mem_pool (hk hnp)
    refine ⟨e1, i, hi, ?_, hb, by rw [k1]; exact hs⟩
    rw [k2]
    unfold next_table
    rw [hm, g1]

/-- Witness for C35: the fault at address 1 GB in `paging_state`, whose directory entry 256 is
not present; both pools have a FREE frame. -/
theorem handle_fault_entries_allocated_witness :
    ∃ t, handle_fault paging_state 1073741824 = FaultResult.handled t ∧
      (∃ i, i < paging_state.process_mem_pool.nframes ∧
        read t.memory (leaf_table t (1073741824 >>> 22)) ((1073741824 >>> 12) &&& 0x3FF)
          = (paging_state.process_mem_pool.base_frame_no + i) * PAGE_SIZE ||| 0x3 ∧
        ContFramePool.bitmapResult paging_state.process_mem_pool i = true ∧
        ContFramePool.frame_state t.process_mem_pool i
          = ContFramePool.FrameState.HEAD_OF_SEQUENCE) ∧
      (read paging_state.memory paging_state.page_directory (1073741824 >>> 22) &&& 0x1 ≠ 0x1 →
        read t.memory t.page_directory (1073741824 >>> 22) &&& 0x1 = 0x1 ∧
        ∃ i, i < paging_state.kernel_mem_pool.nframes ∧
          leaf_table t (1073741824 >>> 22)
            = (paging_state.kernel_mem_pool.base_frame_no + i) * PAGE_SIZE ∧
          ContFramePool.bitmapResult paging_state.kernel_mem_pool i = true ∧
          ContFramePool.frame_state t.kernel_mem_pool i
            = ContFramePool.FrameState.HEAD_OF_SEQUENCE) :=
  handle_fault_entries_allocated paging_state 1073741824 (by decide) (by decide)
    ⟨by decide, by decide, by decide, 0, by decide, by decide⟩
    (fun _ => ⟨by decide, by decide, by decide, 3, by decide, by decide⟩) paging_state_separate

end PageTable

namespace ContFramePool

/-! ## C32, C33: first fit of `get_frames` behind frame 0 -/

/-- The pool after `get_frames` has marked the `n` frames from pool-relative frame `k` on. -/
theorem get_frames_loop_run (p : Pool) (n k : Nat) (hn : 1 ≤ n) (hk1 : 1 ≤ k)
    (hkn : k + n ≤ p.nframes)
    (hrun : ∀ j, j < n → bitmapResult p (k + j) = true)
    (hprev : bitmapResult p (k - 1) = false)
    (hmin : ∀ k2, k2 < k → ∃ j, j < n ∧ bitmapResult p (k2 + j) = false)
    (h0 : bitmapResult p 0 = false) :
    ∀ fuel i c h, i + fuel = p.nframes → i < k + n → c ≤ i → c < n →
      (∀ j, j < c → bitmapResult p (i - c + j) = true) →
      ((c = 0 ∧ h = 0) ∨ (1 ≤ c ∧ h = i - c)) →
      (i - c = k ∨ i ≤ k) →
      get_frames_loop p n fuel i c h = (p.base_frame_no + k,
        mark_allocated (n - 1) (k + 1)
          (clear_bitmap_bit (set_bitmap2 p (k / 8) (bitmap2 p (k / 8) ||| mask (k % 8))) k)) := by
  intro fuel
  induction fuel with
  | zero => intro i c h h1 h2; omega
  | succ fuel ih =>
    intro i c h hfuel hi hci hcn hfree hhead hstart
    unfold get_frames_loop
    by_cases hb : bitmapResult p i = true
    · rw [if_pos hb]
      have hs0 : 1 ≤ c → i - c ≠ 0 := by
        intro hc hz
        have := hfree 0 (by omega)
        rw [hz] at this
        rw [h0] at this
        exact absurd this (by simp)
      have hheadv : (if h = 0 then i else h) = i - c := by
        rcases hhead with ⟨hc, hh⟩ | ⟨hc, hh⟩
        · rw [if_pos hh, hc]; rfl
        · rw [if_neg (by rw [hh]; exact hs0 hc), hh]
      simp only [hheadv]
      have hwin : ∀ j, j < c + 1 → bitmapResult p (i - c + j) = true := by
        intro j hj
        by_cases hjc : j < c
        · exact hfree j hjc
        · have : i - c + j = i := by omega
          rw [this]; exact hb
      by_cases hge : c + 1 ≥ n
      · rw [if_pos hge]
        have hsk : i - c = k := by
          rcases hstart with h1 | h1
          · exact h1
          · by_contra hne
            obtain ⟨j, hj, hjf⟩ := hmin (i - c) (by omega)
            rw [hwin j (by omega)] at hjf
            exact absurd hjf (by simp)
        have hik : i - (i - c) = n - 1 := by omega
        rw [hik, hsk]
      · rw [if_neg hge]
        have hstart2 : i - c = k ∨ i + 1 ≤ k := by
          rcases hstart with h1 | h1
          · exact Or.inl h1
          · by_cases hsk : i - c = k
            · exact Or.inl hsk
            · right
              by_contra hcon
              have hik : i = k := by omega
              have hc1 : 1 ≤ c := by omega
              have := hfree (c - 1) (by omega)
              have e : i - c + (c - 1) = k - 1 := by omega
              rw [e, hprev] at this
              exact absurd this (by simp)
        apply ih (i + 1) (c + 1) (i - c) (by omega) (by omega) (by omega) (by omega)
        · intro j hj
          have e : i + 1 - (c + 1) = i - c := by omega
          rw [e]
          exact hwin j hj
        · right
          exact ⟨by omega, by omega⟩
        · rcases hstart2 with h1 | h1
          · left; omega
          · right; exact h1
    · rw [if_neg hb]
      have hb2 : bitmapResult p i = false := by simpa using hb
      have hik : i < k := by
        by_contra hcon
        have := hrun (i - k) (by omega)
        have e : k + (i - k) = i := by omega
        rw [e, hb2] at this
        exact absurd this (by simp)
      exact ih (i + 1) 0 0 (by omega) (by omega) (by omega) (by omega)
        (fun j hj => absurd hj (by omega)) (Or.inl ⟨rfl, rfl⟩) (Or.inr (by omega))

/-- First fit of `get_frames` on the `bitmap` bits, for a pool whose frame 0 is not counted as
free: the run returned, the bits afterwards. -/
theorem get_frames_first_fit_bits (p : Pool) (n k : Nat) (hn : 1 ≤ n)
    (h8 : p.nframes % 8 = 0) (hmem : p.nframes / 8 + p.nframes / 8 ≤ p.mem.length)
    (hkn : k + n ≤ p.nframes)
    (hrun : ∀ j, j < n → bitmapResult p (k + j) = true)
    (hmin : ∀ k2, k2 < k → ∃ j, j < n ∧ bitmapResult p (k2 + j) = false)
    (h0 : bitmapResult p 0 = false) :
    (get_frames p n).1 = p.base_frame_no + k ∧
    (get_frames p n).2.nframes = p.nframes ∧
    (get_frames p n).2.base_frame_no = p.base_frame_no ∧
    (get_frames p n).2.mem.length = p.mem.length ∧
    (∀ j, j < p.nframes → bitmapResult (get_frames p n).2 j
      = if k ≤ j ∧ j < k + n then false else bitmapResult p j) ∧
    (∀ j, j < p.nframes → bitmap2Result (get_frames p n).2 j
      = if j = k then true else bitmap2Result p j) := by
  have hk1 : 1 ≤ k := by
    by_contra hcon
    have hk0 : k = 0 := by omega
    have := hrun 0 (by omega)
    rw [hk0, h0] at this
    exact absurd this (by simp)
  have hprev : bitmapResult p (k - 1) = false := by
    obtain ⟨j, hj, hjf⟩ := hmin (k - 1) (by omega)
    by_cases hj0 : j = 0
    · rw [hj0] at hjf; exact hjf
    · have := hrun (j - 1) (by omega)
      have e : k + (j - 1) = k - 1 + j := by omega
      rw [e, hjf] at this
      exact absurd this (by simp)
  have hres := get_frames_loop_run p n k hn hk1 hkn hrun hprev hmin h0 p.nframes 0 0 0
    (by omega) (by omega) (by omega) (by omega) (fun j hj => absurd hj (by omega))
    (Or.inl ⟨rfl, rfl⟩) (Or.inr (by omega))
  unfold get_frames
  rw [hres]
  obtain ⟨m1, m2, m3, m4, m5⟩ := mark_allocated_props (n - 1) (k + 1)
    (clear_bitmap_bit (set_bitmap2 p (k / 8) (bitmap2 p (k / 8) ||| mask (k % 8))) k)
  obtain ⟨t1, t2⟩ := take_frame_bits p k (by omega) h8 hmem
  refine ⟨rfl, ?_, ?_, ?_, ?_, ?_⟩
  · rw [m1]; rfl
  · rw [m2]; rfl
  · rw [m3]
    simp only [clear_bitmap_bit, set_bitmap2, set_bitmap, List.length_set]
  · intro j hj
    rw [m4 j, t1 j hj]
    by_cases h1 : k + 1 ≤ j ∧ j < k + 1 + (n - 1)
    · rw [if_pos h1, if_pos (by omega)]
    · rw [if_neg h1]
      by_cases h2 : j = k
      · rw [if_pos h2, if_pos (by omega)]
      · rw [if_neg h2, if_neg (by omega)]
  · intro j hj
    have hb : (k + 1 + (n - 1) - 1) / 8 < (clear_bitmap_bit (set_bitmap2 p (k / 8)
        (bitmap2 p (k / 8) ||| mask (k % 8))) k).nframes / 8 := by
      show (k + 1 + (n - 1) - 1) / 8 < p.nframes / 8
      omega
    rw [m5 hb j, t2 j hj]

theorem bitmapResult_iff_free (p : Pool) (i : Nat) (h : frame_state p i ≠ FrameState.BOTH_SET) :
    bitmapResult p i = true ↔ frame_state p i = FrameState.FREE := by
  unfold frame_state at h ⊢
  cases hb : bitmapResult p i <;> cases hb2 : bitmap2Result p i <;> simp [hb, hb2] at h ⊢

/-- C33: for every pool state (the frame count a multiple of 8, the two bitmaps with their
`nframes / 8` bytes each) in which no frame has both bitmap bits set and pool-relative frame 0
is not FREE, and every n >= 1: when k is the smallest index such that the frames k..k+n-1 are
FREE, `get_frames(n)` returns `base_frame_no + k`, frame k is HEAD_OF_SEQUENCE and the frames
k+1..k+n-1 are ALLOCATED_TAIL afterwards, and every other frame keeps its state; when no such k
exists, it returns 0 and the pool is as it was. -/
theorem get_frames_first_fit (p : Pool) (n : Nat) (hn : 1 ≤ n) (h8 : p.nframes % 8 = 0)
    (hmem : p.nframes / 8 + p.nframes / 8 ≤ p.mem.length)
    (hboth : ∀ i, i < p.nframes → frame_state p i ≠ FrameState.BOTH_SET)
    (h0 : frame_state p 0 ≠ FrameState.FREE) :
    (∀ k, free_run p k n → (∀ k2, k2 < k → ¬ free_run p k2 n) →
      (get_frames p n).1 = p.base_frame_no + k ∧
      (get_frames p n).2.nframes = p.nframes ∧
      (get_frames p n).2.base_frame_no = p.base_frame_no ∧
      frame_state (get_frames p n).2 k = FrameState.HEAD_OF_SEQUENCE ∧
      (∀ j, k < j → j < k + n →
        frame_state (get_frames p n).2 j = FrameState.ALLOCATED_TAIL) ∧
      (∀ j, j < p.nframes → (j < k ∨ k + n ≤ j) →
        frame_state (get_frames p n).2 j = frame_state p j)) ∧
    ((∀ k, ¬ free_run p k n) → get_frames p n = (0, p)) := by
  constructor
  · intro k hfree hsmall
    obtain ⟨hkn, hfr⟩ := hfree
    have hpos : 0 < p.nframes := by omega
    have hz : bitmapResult p 0 = false := by
      by_cases hb : bitmapResult p 0 = true
      · exact absurd ((bitmapResult_iff_free p 0 (hboth 0 hpos)).mp hb) h0
      · simpa using hb
    have hrun : ∀ j, j < n → bitmapResult p (k + j) = true := fun j hj =>
      (bitmapResult_of_free p (k + j) (hfr j hj)).1
    have hmin : ∀ k2, k2 < k → ∃ j, j < n ∧ bitmapResult p (k2 + j) = false := by
      intro k2 hk2
      by_contra hcon
      apply hsmall k2 hk2
      refine ⟨by omega, ?_⟩
      intro j hj
      apply (bitmapResult_iff_free p (k2 + j) (hboth _ (by omega))).mp
      by_cases hb : bitmapResult p (k2 + j) = true
      · exact hb
      · exact absurd ⟨j, hj, by simpa using hb⟩ hcon
    obtain ⟨r1, r2, r3, _, r5, r6⟩ :=
      get_frames_first_fit_bits p n k hn h8 hmem hkn hrun hmin hz
    refine ⟨r1, r2, r3, ?_, ?_, ?_⟩
    · have e5 := r5 k (by omega)
      have e6 := r6 k (by omega)
      rw [if_pos (by omega)] at e5
      rw [if_pos rfl] at e6
      simp [frame_state, e5, e6]
    · intro j hj1 hj2
      have hfj := bitmapResult_of_free p j (by
        have := hfr (j - k) (by omega)
        have e : k + (j - k) = j := by omega
        rw [e] at this
        exact this)
      have e5 := r5 j (by omega)
      have e6 := r6 j (by omega)
      rw [if_pos (by omega)] at e5
      rw [if_neg (by omega), hfj.2] at e6
      simp [frame_state, e5, e6]
    · intro j hj hout
      have e5 := r5 j hj
      have e6 := r6 j hj
      rw [if_neg (by omega)] at e5
      rw [if_neg (by omega)] at e6
      simp [frame_state, e5, e6]
  · intro hnone
    unfold get_frames
    apply get_frames_loop_no_run p n hn _ p.nframes 0 0 0 (by omega) (by omega) (by omega)
    · intro j hj; omega
    · intro k hk
      by_contra hcon
      apply hnone k
      refine ⟨hk, ?_⟩
      intro j hj
      apply (bitmapResult_iff_free p (k + j) (hboth _ (by omega))).mp
      by_cases hb : bitmapResult p (k + j) = true
      · exact hb
      · exact absurd ⟨j, hj, by simpa using hb⟩ hcon


/-- Witness for C33: `get_frames(3)` on the 16-frame pool `kernel_pool_16`, whose frame 0 holds
the bitmaps: the smallest run of three FREE frames starts at frame 1. -/
theorem get_frames_first_fit_witness :
    get_frames kernel_pool_16 3 = (513, ⟨512, 16, 0, 0, [0x0F, 0xFF, 0xC0, 0x00]⟩) ∧
    ((∀ k, free_run kernel_pool_16 k 3 → (∀ k2, k2 < k → ¬ free_run kernel_pool_16 k2 3) →
      (get_frames kernel_pool_16 3).1 = kernel_pool_16.base_frame_no + k ∧
      (get_frames kernel_pool_16 3).2.nframes = kernel_pool_16.nframes ∧
      (get_frames kernel_pool_16 3).2.base_frame_no = kernel_pool_16.base_frame_no ∧
      frame_state (get_frames kernel_pool_16 3).2 k = FrameState.HEAD_OF_SEQUENCE ∧
      (∀ j, k < j → j < k + 3 →
        frame_state (get_frames kernel_pool_16 3).2 j = FrameState.ALLOCATED_TAIL) ∧
      (∀ j, j < kernel_pool_16.nframes → (j < k ∨ k + 3 ≤ j) →
        frame_state (get_frames kernel_pool_16 3).2 j = frame_state kernel_pool_16 j)) ∧
    ((∀ k, ¬ free_run kernel_pool_16 k 3) → get_frames kernel_pool_16 3 = (0, kernel_pool_16))) :=
  ⟨by decide, get_frames_first_fit kernel_pool_16 3 (by decide) (by decide) (by decide)
    (by decide) (by decide)⟩

theorem get_frames_self_hosted_512 (b n_info : Nat) (memory : List Nat)
    (hmem : 128 ≤ memory.length) :
    ∃ p, construct b 512 0 n_info memory = Outcome.done p ∧
      frame_state p 0 = FrameState.HEAD_OF_SEQUENCE ∧
      (get_frames p 4).1 = b + 1 ∧
      (∀ j, j < 512 → bitmapResult (get_frames p 4).2 j = decide (5 ≤ j)) ∧
      (∀ j, j < 512 → bitmap2Result (get_frames p 4).2 j = decide (j ≤ 1)) := by
  have hneed : needed_info_frames 512 = 1 := by decide
  obtain ⟨p, hp, hn, hb, hl, hbit, hbit2⟩ :=
    construct_self_hosted_bits b 512 n_info memory (by decide) (by decide) hmem
  rw [hneed] at hbit
  obtain ⟨r1, _, _, _, r5, r6⟩ := get_frames_first_fit_bits p 4 1 (by decide)
    (by rw [hn]) (by rw [hn, hl]; exact hmem) (by rw [hn]; decide)
    (by
      intro j hj
      rw [hbit (1 + j) (by omega)]
      simp)
    (by
      intro k2 hk2
      refine ⟨0, by decide, ?_⟩
      have : k2 = 0 := by omega
      rw [this, hbit 0 (by decide)]
      decide)
    (by rw [hbit 0 (by decide)]; decide)
  refine ⟨p, hp, ?_, by rw [r1, hb], ?_, ?_⟩
  · simp [frame_state, hbit 0 (by decide), hbit2 0 (by decide)]
  · intro j hj
    rw [r5 j (by rw [hn]; exact hj), hbit j hj]
    by_cases h1 : 1 ≤ j ∧ j < 1 + 4
    · rw [if_pos h1]
      symm; simp; omega
    · rw [if_neg h1]
      by_cases h2 : 5 ≤ j
      · simp [h2]; omega
      · simp [h2]; omega
  · intro j hj
    rw [r6 j (by rw [hn]; exact hj), hbit2 j hj]
    by_cases h1 : j = 1
    · rw [if_pos h1]
      symm; simp; omega
    · rw [if_neg h1]
      by_cases h2 : j = 0
      · simp [h2]
      · simp [h2]; omega

/-- C32 as written fails: for the kernel pool of `kernel.C`, 512 frames at frame 512 with
self-hosted bitmaps, the first call `get_frames(4)` returns 513, not the base frame 512, which
holds the bitmaps and is HEAD_OF_SEQUENCE after construction. -/
theorem get_frames_fresh_pool_not_base :
    ∃ p, construct 512 512 0 0 (List.replicate 128 0) = Outcome.done p ∧
      frame_state p 0 = FrameState.HEAD_OF_SEQUENCE ∧
      (get_frames p 4).1 = 513 ∧ (get_frames p 4).1 ≠ 512 := by
  obtain ⟨p, hp, h0, hr, _, _⟩ :=
    get_frames_self_hosted_512 512 0 (List.replicate 128 0) (by simp)
  exact ⟨p, hp, h0, hr, by rw [hr]; decide⟩

/-- C32, amended: for a freshly constructed frame pool of 512 frames with self-hosted metadata
(`info_frame_no = 0`) at any base frame b, the first call `get_frames(4)` returns b + 1, the
frame behind the one info frame; afterwards frame 0 (the bitmaps) and frame 1 are
HEAD_OF_SEQUENCE, the frames 2..4 are ALLOCATED_TAIL and the frames 5..511 are FREE. -/
theorem get_frames_fresh_pool (b n_info : Nat) (memory : List Nat)
    (hmem : 128 ≤ memory.length) :
    ∃ p, construct b 512 0 n_info memory = Outcome.done p ∧
      (get_frames p 4).1 = b + 1 ∧
      frame_state (get_frames p 4).2 0 = FrameState.HEAD_OF_SEQUENCE ∧
      frame_state (get_frames p 4).2 1 = FrameState.HEAD_OF_SEQUENCE ∧
      (∀ j, 2 ≤ j → j ≤ 4 → frame_state (get_frames p 4).2 j = FrameState.ALLOCATED_TAIL) ∧
      (∀ j, 5 ≤ j → j < 512 → frame_state (get_frames p 4).2 j = FrameState.FREE) := by
  obtain ⟨p, hp, _, hr, hb, hb2⟩ := get_frames_self_hosted_512 b n_info memory hmem
  refine ⟨p, hp, hr, ?_, ?_, ?_, ?_⟩
  · simp [frame_state, hb 0 (by decide), hb2 0 (by decide)]
  · simp [frame_state, hb 1 (by decide), hb2 1 (by decide)]
  · intro j h1 h2
    have e1 : bitmapResult (get_frames p 4).2 j = false := by
      rw [hb j (by omega)]; simp; omega
    have e2 : bitmap2Result (get_frames p 4).2 j = false := by
      rw [hb2 j (by omega)]; simp; omega
    simp [frame_state, e1, e2]
  · intro j h1 h2
    have e1 : bitmapResult (get_frames p 4).2 j = true := by
      rw [hb j h2]; simp; omega
    have e2 : bitmap2Result (get_frames p 4).2 j = false := by
      rw [hb2 j h2]; simp; omega
    simp [frame_state, e1, e2]

/-- Witness for C32: the kernel pool of `kernel.C`, 512 frames at frame 512, on zeroed
memory. -/
theorem get_frames_fresh_pool_witness :
    ∃ p, construct 512 512 0 0 (List.replicate 128 0) = Outcome.done p ∧
      (get_frames p 4).1 = 512 + 1 ∧
      frame_state (get_frames p 4).2 0 = FrameState.HEAD_OF_SEQUENCE ∧
      frame_state (get_frames p 4).2 1 = FrameState.HEAD_OF_SEQUENCE ∧
      (∀ j, 2 ≤ j → j ≤ 4 → frame_state (get_frames p 4).2 j = FrameState.ALLOCATED_TAIL) ∧
      (∀ j, 5 ≤ j → j < 512 → frame_state (get_frames p 4).2 j = FrameState.FREE) :=
  get_frames_fresh_pool 512 0 (List.replicate 128 0) (by simp)

end ContFramePool

namespace VMPool

/-! ## The length of the tracking list with exact sums -/

theorem pages_of_one : pages_of 1 = 1 := by decide

theorem allocate_packed (st : Pool) (m : Nat) (hp : packed st m)
    (hroom : (m + 2) * PAGE_SIZE ≤ st.size) :
    (allocate st 1).1 = st.base_address + (m + 1) * PAGE_SIZE ∧
    (allocate st 1).2.base_address = st.base_address ∧
    (allocate st 1).2.size = st.size ∧
    packed (allocate st 1).2 (m + 1) := by
  obtain ⟨hsize, hent⟩ := hp
  have hnc : ∀ k, m + 1 ≤ k → ¬ covered st (st.base_address + k * PAGE_SIZE) := by
    rintro k hk ⟨j, hj, hje, h1, h2⟩
    obtain ⟨e1, e2⟩ := hent (j / 2) (by omega)
    have hj2 : 2 * (j / 2) = j := by omega
    rw [hj2] at e1 e2
    rw [e1, e2] at h2
    unfold PAGE_SIZE at h2 hk
    omega
  have hcov : ∀ k, 1 ≤ k → k ≤ m → covered st (st.base_address + k * PAGE_SIZE) := by
    intro k hk1 hk2
    obtain ⟨e1, e2⟩ := hent (k - 1) (by omega)
    refine ⟨2 * (k - 1), by omega, by omega, ?_, ?_⟩
    · rw [e1]; unfold PAGE_SIZE; omega
    · rw [e1, e2]; unfold PAGE_SIZE; omega
  have hrun : page_run st (st.base_address + (m + 1) * PAGE_SIZE) 1 := by
    refine ⟨⟨m + 1, by omega, rfl⟩, ?_, ?_⟩
    · unfold PAGE_SIZE at hroom ⊢; omega
    · intro t ht
      have : t = 0 := by omega
      rw [this]
      simpa using hnc (m + 1) (Nat.le_refl _)
  have hspec := allocate_spec st 1 (Nat.le_refl 1)
  rw [pages_of_one] at hspec
  rcases hspec with ⟨_, hno⟩ | ⟨hr, hmin, hslot⟩
  · exact absurd hrun (hno _)
  · have haddr : (allocate st 1).1 = st.base_address + (m + 1) * PAGE_SIZE := by
      obtain ⟨⟨k, hk1, hk⟩, _, hfree⟩ := hr
      have hle := hmin _ hrun
      have hkm : m + 1 ≤ k := by
        by_contra hcon
        have := hfree 0 (by omega)
        apply this
        simpa [hk] using hcov k hk1 (by omega)
      rw [hk] at hle ⊢
      unfold PAGE_SIZE at hle ⊢
      omega
    rcases hslot with ⟨_, h2⟩ | ⟨f, ⟨hf1, hf2, hf3⟩, _⟩
    · rw [h2]
      refine ⟨haddr, rfl, rfl, ?_, ?_⟩
      · show st.memoryRegionsSize + 2 = 2 * (m + 1)
        omega
      · intro e he
        show store (store st.memoryRegions st.memoryRegionsSize (allocate st 1).1)
            (st.memoryRegionsSize + 1) (1 * PAGE_SIZE) (2 * e)
            = st.base_address + (e + 1) * PAGE_SIZE ∧
          store (store st.memoryRegions st.memoryRegionsSize (allocate st 1).1)
            (st.memoryRegionsSize + 1) (1 * PAGE_SIZE) (2 * e + 1) = PAGE_SIZE
        by_cases hem : e = m
        · subst hem
          have e1 : 2 * e = st.memoryRegionsSize := by omega
          have e2 : 2 * e + 1 = st.memoryRegionsSize + 1 := by omega
          rw [e1, store_pair_start, store_pair_length, haddr]
          exact ⟨rfl, by omega⟩
        · obtain ⟨a1, a2⟩ := hent e (by omega)
          rw [store_pair_other _ _ _ _ _ (by omega) (by omega),
            store_pair_other _ _ _ _ _ (by omega) (by omega)]
          exact ⟨a1, a2⟩
    · exfalso
      obtain ⟨e1, _⟩ := hent (f / 2) (by omega)
      have hf : 2 * (f / 2) = f := by omega
      rw [hf, hf3] at e1
      unfold PAGE_SIZE at e1
      omega

theorem allocate_times_packed : ∀ (k : Nat) (st : Pool) (m : Nat), packed st m →
    (m + k + 1) * PAGE_SIZE ≤ st.size →
    (allocate_times k st).base_address = st.base_address ∧
    (allocate_times k st).size = st.size ∧ packed (allocate_times k st) (m + k) := by
  intro k
  induction k with
  | zero => intro st m hp _; exact ⟨rfl, rfl, hp⟩
  | succ k ih =>
    intro st m hp hroom
    obtain ⟨_, a2, a3, a4⟩ := allocate_packed st m hp (by unfold PAGE_SIZE at hroom ⊢; omega)
    obtain ⟨b1, b2, b3⟩ := ih (allocate st 1).2 (m + 1) a4
      (by rw [a3]; unfold PAGE_SIZE at hroom ⊢; omega)
    have hu : allocate_times (k + 1) st = allocate_times k (allocate st 1).2 := rfl
    rw [hu]
    refine ⟨by rw [b1, a2], by rw [b2, a3], ?_⟩
    have e : m + (k + 1) = m + 1 + k := by omega
    rw [e]
    exact b3

theorem allocate_times_reachable : ∀ (k : Nat) (st : Pool), Reachable st →
    Reachable (allocate_times k st) := by
  intro k
  induction k with
  | zero => intro st h; exact h
  | succ k ih =>
    intro st h
    exact ih _ (Reachable.allocate st 1 h (Nat.le_refl 1))

theorem count_le_of_injective (m K : Nat) (f : Nat → Nat)
    (hf : ∀ e, e ≤ m → 1 ≤ f e ∧ f e ≤ K)
    (hinj : ∀ e1 e2, e1 ≤ m → e2 ≤ m → f e1 = f e2 → e1 = e2) : m + 1 ≤ K := by
  have h := Finset.card_le_card_of_injOn (s := Finset.range (m + 1)) (t := Finset.Icc 1 K) f
    (by
      intro e he
      have he2 : e ≤ m := by
        have := Finset.mem_range.mp he
        omega
      exact Finset.mem_Icc.mpr (hf e he2))
    (by
      intro e1 he1 e2 he2 heq
      have h1 : e1 ≤ m := by
        have := Finset.mem_range.mp he1
        omega
      have h2 : e2 ≤ m := by
        have := Finset.mem_range.mp he2
        omega
      exact hinj e1 e2 h1 h2 heq)
  rw [Finset.card_range, Nat.card_Icc] at h
  omega

/-- Behind a list without a released entry there are fewer entries than pages behind the first
page: the entries and the run found start at different pages of the pool. -/
theorem append_room (st : Pool) (hinv : tracking_invariant st) (hin : starts_inside st)
    (hfull : ∀ f, ¬ released_slot st f) (a p : Nat) (hp : 1 ≤ p) (hrun : page_run st a p) :
    st.memoryRegionsSize + 2 ≤ 2 * ((st.size - 1) / PAGE_SIZE) := by
  obtain ⟨heven, hshape, hdis⟩ := hinv
  obtain ⟨⟨ka, hka, ha⟩, hend, hfree⟩ := hrun
  have hlive : ∀ j, j < st.memoryRegionsSize → j % 2 = 0 → st.memoryRegions j ≠ 0 :=
    fun j hj hje h0 => hfull j ⟨hj, hje, h0⟩
  have hentry : ∀ j, j < st.memoryRegionsSize → j % 2 = 0 →
      ∃ k q, 1 ≤ k ∧ 1 ≤ q ∧ st.memoryRegions j = st.base_address + k * 4096 ∧
        st.memoryRegions (j + 1) = q * 4096 ∧ k * 4096 < st.size := by
    intro j hj hje
    rcases hshape j hj hje with ⟨h0, _⟩ | ⟨k, q, hk, hq, hs, hl⟩
    · exact absurd h0 (hlive j hj hje)
    · have := hin j hj hje (hlive j hj hje)
      unfold PAGE_SIZE at hs hl
      exact ⟨k, q, hk, hq, hs, hl, by omega⟩
  have hcount := count_le_of_injective (st.memoryRegionsSize / 2) ((st.size - 1) / PAGE_SIZE)
    (fun e => if e < st.memoryRegionsSize / 2
      then (st.memoryRegions (2 * e) - st.base_address) / 4096 else ka)
    (by
      intro e he
      simp only
      by_cases hlt : e < st.memoryRegionsSize / 2
      · rw [if_pos hlt]
        obtain ⟨k, q, hk, _, hs, _, hks⟩ := hentry (2 * e) (by omega) (by omega)
        rw [hs]
        unfold PAGE_SIZE
        omega
      · rw [if_neg hlt]
        unfold PAGE_SIZE at ha hend ⊢
        omega)
    (by
      intro e1 e2 he1 he2 heq
      simp only at heq
      by_cases h1 : e1 < st.memoryRegionsSize / 2
      · obtain ⟨k1, q1, hk1, hq1, hs1, hl1, _⟩ := hentry (2 * e1) (by omega) (by omega)
        by_cases h2 : e2 < st.memoryRegionsSize / 2
        · obtain ⟨k2, q2, hk2, hq2, hs2, hl2, _⟩ := hentry (2 * e2) (by omega) (by omega)
          rw [if_pos h1, if_pos h2, hs1, hs2] at heq
          by_contra hne
          have := hdis (2 * e1) (2 * e2) (by omega) (by omega) (by omega) (by omega)
            (by omega) (hlive _ (by omega) (by omega)) (hlive _ (by omega) (by omega))
          rw [hs1, hs2, hl1, hl2] at this
          omega
        · rw [if_pos h1, if_neg h2, hs1] at heq
          exfalso
          apply hfree 0 (by omega)
          refine ⟨2 * e1, by omega, by omega, ?_, ?_⟩
          · rw [hs1, ha]; unfold PAGE_SIZE; omega
          · rw [hs1, hl1, ha]; unfold PAGE_SIZE; omega
      · by_cases h2 : e2 < st.memoryRegionsSize / 2
        · obtain ⟨k2, q2, hk2, hq2, hs2, hl2, _⟩ := hentry (2 * e2) (by omega) (by omega)
          rw [if_neg h1, if_pos h2, hs2] at heq
          exfalso
          apply hfree 0 (by omega)
          refine ⟨2 * e2, by omega, by omega, ?_, ?_⟩
          · rw [hs2, ha]; unfold PAGE_SIZE; omega
          · rw [hs2, hl2, ha]; unfold PAGE_SIZE; omega
        · omega)
  omega

theorem reachable_list_bound (st : Pool) (h : Reachable st) :
    starts_inside st ∧ st.memoryRegionsSize ≤ 2 * ((st.size - 1) / PAGE_SIZE) := by
  induction h with
  | construct base_address size memory =>
    exact ⟨fun j hj => absurd hj (Nat.not_lt_zero j), Nat.zero_le _⟩
  | allocate st n hreach hn ih =>
    obtain ⟨hin, hbound⟩ := ih
    have hinv := reachable_invariant st hreach
    have hpos := pages_of_pos n hn
    rcases allocate_spec st n hn with ⟨h, _⟩ | ⟨hrun, _, ⟨hfull, h⟩ | ⟨f, hf, h⟩⟩
    · rw [h]; exact ⟨hin, hbound⟩
    · have hroom := append_room st hinv hin hfull _ _ hpos hrun
      have hstart : (allocate st n).1 < st.base_address + st.size := by
        have := hrun.2.1
        omega
      rw [h]
      refine ⟨?_, hroom⟩
      intro j hj hje hne
      simp only at hj hje hne ⊢
      by_cases hjm : j = st.memoryRegionsSize
      · rw [hjm, store_pair_start]; exact hstart
      · have hj1 : j ≠ st.memoryRegionsSize + 1 := by
          have := hinv.1
          omega
        rw [store_pair_other _ _ _ _ _ hjm hj1] at hne ⊢
        exact hin j (by omega) hje hne
    · have hstart : (allocate st n).1 < st.base_address + st.size := by
        have := hrun.2.1
        omega
      rw [h]
      refine ⟨?_, hbound⟩
      intro j hj hje hne
      simp only at hj hje hne ⊢
      by_cases hjf : j = f
      · rw [hjf, store_pair_start]; exact hstart
      · have hj1 : j ≠ f + 1 := by
          have := hf.2.1
          omega
        rw [store_pair_other _ _ _ _ _ hjf hj1] at hne ⊢
        exact hin j hj hje hne
  | release st x hreach ih =>
    obtain ⟨hin, hbound⟩ := ih
    rcases release_spec st x with ⟨h, _⟩ | ⟨i, hi, hie, _, _, h⟩
    · rw [h]; exact ⟨hin, hbound⟩
    · rw [h]
      refine ⟨?_, hbound⟩
      intro j hj hje hne
      simp only at hj hje hne ⊢
      by_cases hji : j = i
      · rw [hji, store_pair_start] at hne
        exact absurd rfl hne
      · have hj1 : j ≠ i + 1 := by omega
        rw [store_pair_other _ _ _ _ _ hji hj1] at hne ⊢
        exact hin j hj hje hne

end VMPool

namespace Scheduler

/-! ## C40: the ready queue -/

theorem chain_congr (next1 next2 : Nat → Nat) : ∀ (l : List Nat) (p : Nat),
    (∀ t, t ∈ l → next1 t = next2 t) → chain next1 p l → chain next2 p l := by
  intro l
  induction l with
  | nil => intro p _ h; exact h
  | cons a rest ih =>
    intro p hag h
    obtain ⟨h1, h2, h3⟩ := h
    refine ⟨h1, h2, ?_⟩
    rw [← hag a (List.mem_cons_self _ _)]
    exact ih _ (fun t ht => hag t (List.mem_cons_of_mem _ ht)) h3

/-- A thread that is not queued and is not `NULL` is queued in front of the others by `add`. -/
theorem add_queue (s : State) (l : List Nat) (thread : Nat) (hq : queue s l)
    (hnew : thread ∉ l) (hnz : thread ≠ 0) : queue (add s thread) (thread :: l) := by
  obtain ⟨hc, hnd⟩ := hq
  refine ⟨⟨rfl, hnz, ?_⟩, List.nodup_cons.mpr ⟨hnew, hnd⟩⟩
  show chain (fun t => if t = thread then s.listEnd else s.next t)
    (if thread = thread then s.listEnd else s.next thread) l
  rw [if_pos rfl]
  apply chain_congr s.next _ l _ _ hc
  intro t ht
  have hne : t ≠ thread := fun h => hnew (h ▸ ht)
  simp [hne]

theorem yield_walk_last (next : Nat → Nat) : ∀ (front : List Nat) (x last cur p0 fuel : Nat),
    chain next cur (front ++ [x, last]) → front.length + 2 ≤ fuel →
    yield_walk next fuel cur p0 = some (last, x) := by
  intro front
  induction front with
  | nil =>
    intro x last cur p0 fuel hc hf
    obtain ⟨h1, h2, h3, h4, h5⟩ := hc
    have h5 : next last = 0 := h5
    obtain ⟨f1, rfl⟩ : ∃ f1, fuel = f1 + 2 := ⟨fuel - 2, by simp at hf; omega⟩
    unfold yield_walk
    rw [h1, if_pos (by rw [h3]; exact h4)]
    unfold yield_walk
    rw [h3, if_neg (by simp [h5])]
  | cons a rest ih =>
    intro x last cur p0 fuel hc hf
    obtain ⟨h1, h2, h3⟩ := hc
    obtain ⟨f1, rfl⟩ : ∃ f1, fuel = f1 + 1 := ⟨fuel - 1, by simp at hf; omega⟩
    have hnz : next a ≠ 0 := by
      cases rest with
      | nil => exact h3.1 ▸ h3.2.1
      | cons b rest2 => exact h3.1 ▸ h3.2.1
    unfold yield_walk
    rw [h1, if_pos hnz]
    exact ih x last (next a) a f1 h3 (by simp at hf ⊢; omega)

theorem chain_cut (next : Nat → Nat) : ∀ (front : List Nat) (x last p : Nat),
    chain next p (front ++ [x, last]) → (front ++ [x, last]).Nodup →
    chain (fun t => if t = x then 0 else next t) p (front ++ [x]) := by
  intro front
  induction front with
  | nil =>
    intro x last p hc _
    obtain ⟨h1, h2, _⟩ := hc
    refine ⟨h1, h2, ?_⟩
    show (if x = x then 0 else next x) = 0
    rw [if_pos rfl]
  | cons a rest ih =>
    intro x last p hc hnd
    obtain ⟨h1, h2, h3⟩ := hc
    have hnd2 : (rest ++ [x, last]).Nodup := (List.nodup_cons.mp hnd).2
    have hax : a ≠ x := by
      intro h
      have := (List.nodup_cons.mp hnd).1
      apply this
      rw [h]
      simp
    refine ⟨h1, h2, ?_⟩
    show chain _ (if a = x then 0 else next a) (rest ++ [x])
    rw [if_neg hax]
    exact ih x last (next a) h3 hnd2

/-- First in, first out for a queue of two or more threads: `yield` hands the thread added
first to `dispatch_to` and leaves the others queued in their order. -/
theorem yield_fifo (s : State) (front : List Nat) (x last fuel : Nat)
    (hq : queue s (front ++ [x, last])) (hf : front.length + 2 ≤ fuel) :
    ∃ s1, yield s fuel = Outcome.dispatched last s1 ∧ queue s1 (front ++ [x]) := by
  obtain ⟨hc, hnd⟩ := hq
  have hle : s.listEnd ≠ 0 := by
    cases front with
    | nil => exact hc.1 ▸ hc.2.1
    | cons a rest => exact hc.1 ▸ hc.2.1
  have hx : x ≠ 0 := by
    have : ∀ (l : List Nat) (p : Nat), chain s.next p (l ++ [x, last]) → x ≠ 0 := by
      intro l
      induction l with
      | nil => intro p h; exact h.2.1
      | cons a rest ih => intro p h; exact ih _ h.2.2
    exact this front _ hc
  have hw := yield_walk_last s.next front x last s.listEnd 0 fuel hc hf
  refine ⟨⟨s.listEnd, fun t => if t = x then 0 else s.next t⟩, ?_, ?_, ?_⟩
  · unfold yield
    rw [if_neg hle, hw]
    simp only
    rw [if_neg hx, if_neg hx]
  · exact chain_cut s.next front x last s.listEnd hc hnd
  · have : front ++ [x, last] = (front ++ [x]) ++ [last] := by simp
    rw [this] at hnd
    exact (List.nodup_append.mp hnd).1

/-- C40, evaluated where the code departs from it: a queue that holds exactly one thread, the
thread object at address 4096 queued by `add` on the new scheduler.  The walk of `yield` ends
at once with `previousNode == NULL`; line 89 empties the queue, and line 93,
`previousNode->next = NULL`, which no test guards, stores through the null pointer before
`dispatch_to` is reached.  With two threads queued the thread added first is dispatched and
the other stays queued. -/
theorem yield_single_thread_null_store :
    queue (add (construct (fun _ => 0)) 4096) [4096] ∧
    yield_walk (add (construct (fun _ => 0)) 4096).next 1 4096 0 = some (4096, 0) ∧
    (∃ s1, yield (add (construct (fun _ => 0)) 4096) 1 = Outcome.nullStore 4096 s1 ∧
      s1.listEnd = 0 ∧ s1.next 0 = 0) ∧
    (∃ s1, yield (add (add (construct (fun _ => 0)) 4096) 8192) 2
        = Outcome.dispatched 4096 s1 ∧ s1.listEnd = 8192 ∧ s1.next 8192 = 0) := by
  refine ⟨⟨⟨rfl, by decide, rfl⟩, by decide⟩, by decide, ⟨_, rfl, rfl, rfl⟩, ⟨_, rfl, rfl, rfl⟩⟩

end Scheduler

namespace VMPool

/-! ## The 32-bit loops of `allocate` and the loops with exact sums -/

theorem round_up_loop_wrapping_none (n : Nat) (hn : 2 ^ 32 - PAGE_SIZE < n) :
    ∀ fuel m p, m % PAGE_SIZE = 0 → m < 2 ^ 32 → round_up_loop_wrapping n fuel m p = none := by
  intro fuel
  induction fuel with
  | zero => intro m p _ _; rfl
  | succ fuel ih =>
    intro m p hm hlt
    unfold round_up_loop_wrapping
    rw [if_pos (by unfold PAGE_SIZE at *; omega)]
    apply ih
    · unfold PAGE_SIZE at *; omega
    · exact Nat.mod_lt _ (by norm_num)

theorem round_up_loop_wrapping_some (n : Nat) :
    ∀ fuel m p, m = p * PAGE_SIZE → m < 2 ^ 32 → (p = 0 ∨ (p - 1) * PAGE_SIZE < n) →
      ∀ r, round_up_loop_wrapping n fuel m p = some r →
        n ≤ 2 ^ 32 - PAGE_SIZE ∧ r = (pages_of n * PAGE_SIZE, pages_of n) := by
  intro fuel
  induction fuel with
  | zero =>
    intro m p _ _ _ r h
    unfold round_up_loop_wrapping at h
    cases h
  | succ fuel ih =>
    intro m p hm hlt hp r h
    unfold round_up_loop_wrapping at h
    by_cases hmn : m < n
    · rw [if_pos hmn] at h
      by_cases hwrap : m + PAGE_SIZE < 2 ^ 32
      · have e1 : (m + PAGE_SIZE) % 2 ^ 32 = m + PAGE_SIZE := Nat.mod_eq_of_lt hwrap
        have e2 : (p + 1) % 2 ^ 32 = p + 1 :=
          Nat.mod_eq_of_lt (by unfold PAGE_SIZE at *; omega)
        rw [e1, e2] at h
        apply ih (m + PAGE_SIZE) (p + 1) (by rw [hm]; ring) hwrap _ r h
        right
        simp only [Nat.add_sub_cancel]
        rw [← hm]; exact hmn
      · exfalso
        have hbig : 2 ^ 32 - PAGE_SIZE < n := by unfold PAGE_SIZE at *; omega
        rw [round_up_loop_wrapping_none n hbig fuel _ _
          (by unfold PAGE_SIZE at *; omega) (Nat.mod_lt _ (by norm_num))] at h
        cases h
    · rw [if_neg hmn] at h
      have hpg : pages_of n = p := by
        unfold pages_of
        unfold PAGE_SIZE at *
        omega
      injection h with h
      rw [← h, hpg, hm]
      exact ⟨by unfold PAGE_SIZE at *; omega, rfl⟩

theorem round_up_loop_wrapping_returns (n : Nat) (hn : n ≤ 2 ^ 32 - PAGE_SIZE) :
    ∀ fuel m p, m = p * PAGE_SIZE → (p = 0 ∨ (p - 1) * PAGE_SIZE < n) → n ≤ m + fuel →
      round_up_loop_wrapping n (fuel + 1) m p = some (pages_of n * PAGE_SIZE, pages_of n) := by
  intro fuel
  induction fuel with
  | zero =>
    intro m p hm hp hf
    unfold round_up_loop_wrapping
    rw [if_neg (by omega)]
    have hpg : pages_of n = p := by
      unfold pages_of
      unfold PAGE_SIZE at *
      omega
    rw [hpg, hm]
  | succ fuel ih =>
    intro m p hm hp hf
    unfold round_up_loop_wrapping
    by_cases hmn : m < n
    · rw [if_pos hmn]
      have e1 : (m + PAGE_SIZE) % 2 ^ 32 = m + PAGE_SIZE :=
        Nat.mod_eq_of_lt (by unfold PAGE_SIZE at *; omega)
      have e2 : (p + 1) % 2 ^ 32 = p + 1 :=
        Nat.mod_eq_of_lt (by unfold PAGE_SIZE at *; omega)
      rw [e1, e2]
      apply ih (m + PAGE_SIZE) (p + 1) (by rw [hm]; ring)
      · right
        simp only [Nat.add_sub_cancel]
        rw [← hm]; exact hmn
      · unfold PAGE_SIZE; omega
    · rw [if_neg hmn]
      have hpg : pages_of n = p := by
        unfold pages_of
        unfold PAGE_SIZE at *
        omega
      rw [hpg, hm]

theorem scan_regions_wrapping_eq (st : Pool) (hreg : regions_below_top st) (i : Nat) :
    ∀ fuel j fri, j % 2 = 0 →
      scan_regions_wrapping st i fuel j fri = scan_regions st i fuel j fri := by
  intro fuel
  induction fuel with
  | zero => intro j fri _; rfl
  | succ fuel ih =>
    intro j fri hj
    unfold scan_regions_wrapping scan_regions
    by_cases hlt : j < st.memoryRegionsSize
    · rw [if_pos hlt, if_pos hlt]
      simp only
      rw [Nat.mod_eq_of_lt (hreg j hlt hj), ih (j + 2) _ (by omega)]
    · rw [if_neg hlt, if_neg hlt]

theorem allocate_loop_step (st : Pool) (len p fuel i s c : Nat) (a : Bool) (f : Nat)
    (h : i < st.base_address + st.size) :
    allocate_loop st len p (fuel + 1) i s c a f
      = if (if (scan_regions st i st.memoryRegionsSize 0 f).1 = true then 0 else c + 1) ≥ p then
          if (scan_regions st i st.memoryRegionsSize 0 f).2 = st.memoryRegionsSize then
            ((if (scan_regions st i st.memoryRegionsSize 0 f).1 = true then 0
                else if a = true then i else s),
              { st with
                memoryRegions :=
                  store (store st.memoryRegions st.memoryRegionsSize
                    (if (scan_regions st i st.memoryRegionsSize 0 f).1 = true then 0
                      else if a = true then i else s))
                    (st.memoryRegionsSize + 1) len
                memoryRegionsSize := st.memoryRegionsSize + 2 })
          else
            ((if (scan_regions st i st.memoryRegionsSize 0 f).1 = true then 0
                else if a = true then i else s),
              { st with
                memoryRegions :=
                  store (store st.memoryRegions (scan_regions st i st.memoryRegionsSize 0 f).2
                    (if (scan_regions st i st.memoryRegionsSize 0 f).1 = true then 0
                      else if a = true then i else s))
                    ((scan_regions st i st.memoryRegionsSize 0 f).2 + 1) len })
        else
          allocate_loop st len p fuel (i + PAGE_SIZE)
            (if (scan_regions st i st.memoryRegionsSize 0 f).1 = true then 0
              else if a = true then i else s)
            (if (scan_regions st i st.memoryRegionsSize 0 f).1 = true then 0 else c + 1)
            (if (scan_regions st i st.memoryRegionsSize 0 f).1 = true then true else false)
            (scan_regions st i st.memoryRegionsSize 0 f).2 := by
  conv => lhs; unfold allocate_loop
  rw [if_pos h]

theorem allocate_loop_wrapping_step (st : Pool) (len p fuel i s c : Nat) (a : Bool) (f : Nat)
    (h : i < (st.base_address + st.size) % 2 ^ 32) :
    allocate_loop_wrapping st len p (fuel + 1) i s c a f
      = if (if (scan_regions_wrapping st i st.memoryRegionsSize 0 f).1 = true then 0
            else (c + 1) % 2 ^ 32) ≥ p then
          if (scan_regions_wrapping st i st.memoryRegionsSize 0 f).2 = st.memoryRegionsSize then
            some ((if (scan_regions_wrapping st i st.memoryRegionsSize 0 f).1 = true then 0
                else if a = true then i else s),
              { st with
                memoryRegions :=
                  store (store st.memoryRegions st.memoryRegionsSize
                    (if (scan_regions_wrapping st i st.memoryRegionsSize 0 f).1 = true then 0
                      else if a = true then i else s))
                    (st.memoryRegionsSize + 1) len
                memoryRegionsSize := st.memoryRegionsSize + 2 })
          else
            some ((if (scan_regions_wrapping st i st.memoryRegionsSize 0 f).1 = true then 0
                else if a = true then i else s),
              { st with
                memoryRegions :=
                  store (store st.memoryRegions
                    (scan_regions_wrapping st i st.memoryRegionsSize 0 f).2
                    (if (scan_regions_wrapping st i st.memoryRegionsSize 0 f).1 = true then 0
                      else if a = true then i else s))
                    ((scan_regions_wrapping st i st.memoryRegionsSize 0 f).2 + 1) len })
        else
          allocate_loop_wrapping st len p fuel ((i + PAGE_SIZE) % 2 ^ 32)
            (if (scan_regions_wrapping st i st.memoryRegionsSize 0 f).1 = true then 0
              else if a = true then i else s)
            (if (scan_regions_wrapping st i st.memoryRegionsSize 0 f).1 = true then 0
              else (c + 1) % 2 ^ 32)
            (if (scan_regions_wrapping st i st.memoryRegionsSize 0 f).1 = true then true
              else false)
            (scan_regions_wrapping st i st.memoryRegionsSize 0 f).2 := by
  conv => lhs; unfold allocate_loop_wrapping
  rw [if_pos h]

theorem allocate_loop_wrapping_exit (st : Pool) (len p fuel i s c : Nat) (a : Bool) (f : Nat)
    (h : ¬ i < (st.base_address + st.size) % 2 ^ 32) :
    allocate_loop_wrapping st len p (fuel + 1) i s c a f = some (0, st) := by
  unfold allocate_loop_wrapping
  rw [if_neg h]

theorem allocate_loop_done (st : Pool) (len p fuel i s c : Nat) (a : Bool) (f : Nat)
    (h : ¬ i < st.base_address + st.size) :
    allocate_loop st len p fuel i s c a f = (0, st) := by
  cases fuel with
  | zero => unfold allocate_loop; rfl
  | succ fuel => exact allocate_loop_exit st len p fuel i s c a f h

theorem below_top_bound (st : Pool) (htop : below_top st) :
    (st.base_address + st.size) % 2 ^ 32 = st.base_address + st.size := by
  apply Nat.mod_eq_of_lt
  have h := htop.2
  unfold pages_of PAGE_SIZE at h
  omega

theorem below_top_next (st : Pool) (htop : below_top st) (k : Nat)
    (hk : k * PAGE_SIZE < st.size) :
    st.base_address + (k + 1) * PAGE_SIZE < 2 ^ 32 := by
  have h := htop.2
  unfold pages_of PAGE_SIZE at h
  unfold PAGE_SIZE at hk ⊢
  omega

/-- With a pool and a tracking list below the top of the address space, the 32-bit scan of
`allocate` and the scan with exact sums give the same result: the 32-bit scan returns it within
`F + 1` rounds when `F` rounds reach the end of the pool, and returns nothing else. -/
theorem allocate_loop_wrapping_eq (st : Pool) (htop : below_top st)
    (hreg : regions_below_top st) (len p : Nat) :
    ∀ fuel F k start c atStart fri, c ≤ k → st.size ≤ (k + F) * PAGE_SIZE →
      (F < fuel →
        allocate_loop_wrapping st len p fuel (st.base_address + k * PAGE_SIZE) start c atStart
            fri
          = some (allocate_loop st len p F (st.base_address + k * PAGE_SIZE) start c atStart
              fri)) ∧
      (∀ r, allocate_loop_wrapping st len p fuel (st.base_address + k * PAGE_SIZE) start c
            atStart fri = some r →
          r = allocate_loop st len p F (st.base_address + k * PAGE_SIZE) start c atStart
            fri) := by
  intro fuel
  induction fuel with
  | zero =>
    intro F k start c atStart fri _ _
    refine ⟨fun h => absurd h (Nat.not_lt_zero F), ?_⟩
    intro r h
    unfold allocate_loop_wrapping at h
    cases h
  | succ fuel ih =>
    intro F k start c atStart fri hck hF
    have hb := below_top_bound st htop
    by_cases hlt : st.base_address + k * PAGE_SIZE < st.base_address + st.size
    · have hks : k * PAGE_SIZE < st.size := by omega
      have hFpos : 1 ≤ F := by
        by_contra hcon
        have h0 : F = 0 := by omega
        rw [h0, Nat.add_zero] at hF
        omega
      obtain ⟨F1, hF1⟩ : ∃ F1, F = F1 + 1 := ⟨F - 1, by omega⟩
      subst hF1
      have hnext := below_top_next st htop k hks
      have e1 : (st.base_address + k * PAGE_SIZE + PAGE_SIZE) % 2 ^ 32
          = st.base_address + (k + 1) * PAGE_SIZE := by
        have : st.base_address + k * PAGE_SIZE + PAGE_SIZE
            = st.base_address + (k + 1) * PAGE_SIZE := by ring
        rw [this]
        exact Nat.mod_eq_of_lt hnext
      have e2 : (c + 1) % 2 ^ 32 = c + 1 := by
        apply Nat.mod_eq_of_lt
        unfold PAGE_SIZE at hnext
        omega
      have e3 : st.base_address + k * PAGE_SIZE + PAGE_SIZE
          = st.base_address + (k + 1) * PAGE_SIZE := by ring
      rw [allocate_loop_wrapping_step st len p fuel _ start c atStart fri (by rw [hb]; exact hlt),
        allocate_loop_step st len p F1 _ start c atStart fri hlt,
        scan_regions_wrapping_eq st hreg _ _ 0 fri (by rfl), e1, e2, e3]
      by_cases hge : (if (scan_regions st (st.base_address + k * PAGE_SIZE) st.memoryRegionsSize
          0 fri).1 = true then 0 else c + 1) ≥ p
      · rw [if_pos hge, if_pos hge]
        by_cases hf : (scan_regions st (st.base_address + k * PAGE_SIZE) st.memoryRegionsSize
            0 fri).2 = st.memoryRegionsSize
        · rw [if_pos hf, if_pos hf]
          exact ⟨fun _ => rfl, fun r h => (Option.some.inj h).symm⟩
        · rw [if_neg hf, if_neg hf]
          exact ⟨fun _ => rfl, fun r h => (Option.some.inj h).symm⟩
      · rw [if_neg hge, if_neg hge]
        obtain ⟨ih1, ih2⟩ := ih F1 (k + 1)
          (if (scan_regions st (st.base_address + k * PAGE_SIZE) st.memoryRegionsSize 0 fri).1
            = true then 0 else if atStart = true then st.base_address + k * PAGE_SIZE else start)
          (if (scan_regions st (st.base_address + k * PAGE_SIZE) st.memoryRegionsSize 0 fri).1
            = true then 0 else c + 1)
          (if (scan_regions st (st.base_address + k * PAGE_SIZE) st.memoryRegionsSize 0 fri).1
            = true then true else false)
          (scan_regions st (st.base_address + k * PAGE_SIZE) st.memoryRegionsSize 0 fri).2
          (by split <;> omega) (by unfold PAGE_SIZE at hF ⊢; omega)
        exact ⟨fun h => ih1 (by omega), ih2⟩
    · rw [allocate_loop_wrapping_exit st len p fuel _ start c atStart fri (by rw [hb]; exact hlt),
        allocate_loop_done st len p F _ start c atStart fri hlt]
      exact ⟨fun _ => rfl, fun r h => (Option.some.inj h).symm⟩

/-- With a pool and a tracking list below the top of the address space, `allocate` in 32-bit
arithmetic returns what `allocate` with exact sums returns, within `size + _size + 1` rounds
when `_size <= 2 ^ 32 - PAGE_SIZE`, and returns nothing else. -/
theorem allocate_wrapping_eq (st : Pool) (htop : below_top st) (hreg : regions_below_top st)
    (n fuel : Nat) :
    (n ≤ 2 ^ 32 - PAGE_SIZE → st.size + n < fuel →
      allocate_wrapping fuel st n = some (allocate st n)) ∧
    (∀ r, allocate_wrapping fuel st n = some r →
      n ≤ 2 ^ 32 - PAGE_SIZE ∧ r = allocate st n) := by
  have hstart : (st.base_address + PAGE_SIZE) % 2 ^ 32 = st.base_address + 1 * PAGE_SIZE := by
    rw [Nat.one_mul]
    exact Nat.mod_eq_of_lt htop.1
  have hstart2 : st.base_address + PAGE_SIZE = st.base_address + 1 * PAGE_SIZE := by
    rw [Nat.one_mul]
  constructor
  · intro hn hfuel
    obtain ⟨f1, hf1⟩ : ∃ f1, fuel = f1 + 1 := ⟨fuel - 1, by omega⟩
    unfold allocate_wrapping allocate
    rw [hf1, round_up_loop_wrapping_returns n hn f1 0 0 (by simp) (Or.inl rfl) (by omega),
      round_up_eq]
    simp only
    rw [hstart, hstart2, ← hf1]
    exact (allocate_loop_wrapping_eq st htop hreg _ _ fuel st.size 1 0 0 true _ (by omega)
      (by unfold PAGE_SIZE; omega)).1 (by omega)
  · intro r h
    unfold allocate_wrapping at h
    cases hr : round_up_loop_wrapping n fuel 0 0 with
    | none => rw [hr] at h; cases h
    | some q =>
      rw [hr] at h
      simp only at h
      obtain ⟨hn, hq⟩ := round_up_loop_wrapping_some n fuel 0 0 (by simp) (by norm_num)
        (Or.inl rfl) q hr
      refine ⟨hn, ?_⟩
      rw [hq, hstart] at h
      unfold allocate
      rw [round_up_eq]
      simp only
      rw [hstart2]
      exact (allocate_loop_wrapping_eq st htop hreg _ _ fuel st.size 1 0 0 true _ (by omega)
        (by unfold PAGE_SIZE; omega)).2 r h

theorem allocate_loop_wrapping_pool (st : Pool) (len p : Nat) :
    ∀ fuel i start c atStart fri r,
      allocate_loop_wrapping st len p fuel i start c atStart fri = some r →
      r.2.base_address = st.base_address ∧ r.2.size = st.size := by
  intro fuel
  induction fuel with
  | zero =>
    intro i start c atStart fri r h
    unfold allocate_loop_wrapping at h
    cases h
  | succ fuel ih =>
    intro i start c atStart fri r h
    by_cases hlt : i < (st.base_address + st.size) % 2 ^ 32
    · rw [allocate_loop_wrapping_step st len p fuel i start c atStart fri hlt] at h
      by_cases hge : (if (scan_regions_wrapping st i st.memoryRegionsSize 0 fri).1 = true then 0
          else (c + 1) % 2 ^ 32) ≥ p
      · rw [if_pos hge] at h
        by_cases hf : (scan_regions_wrapping st i st.memoryRegionsSize 0 fri).2
            = st.memoryRegionsSize
        · rw [if_pos hf] at h
          injection h with h; rw [← h]; exact ⟨rfl, rfl⟩
        · rw [if_neg hf] at h
          injection h with h; rw [← h]; exact ⟨rfl, rfl⟩
      · rw [if_neg hge] at h
        exact ih _ _ _ _ _ r h
    · rw [allocate_loop_wrapping_exit st len p fuel i start c atStart fri hlt] at h
      injection h with h; rw [← h]; exact ⟨rfl, rfl⟩

theorem allocate_wrapping_pool (st : Pool) (n fuel : Nat) (r : Nat × Pool)
    (h : allocate_wrapping fuel st n = some r) :
    r.2.base_address = st.base_address ∧ r.2.size = st.size := by
  unfold allocate_wrapping at h
  cases hr : round_up_loop_wrapping n fuel 0 0 with
  | none => rw [hr] at h; cases h
  | some q =>
    rw [hr] at h
    exact allocate_loop_wrapping_pool st _ _ fuel _ _ _ _ _ r h

/-! ## The 32-bit loops of `release` -/

theorem release_loop_wrapping_pool {σ : Type} (free_page : σ → Nat → Option σ) (st : Pool)
    (a fuel : Nat) :
    ∀ rounds i pt r, release_loop_wrapping free_page st a fuel rounds i pt = some r →
      r.1 = (release_loop st a rounds i).1 := by
  intro rounds
  induction rounds with
  | zero =>
    intro i pt r h
    unfold release_loop_wrapping at h
    cases h
  | succ rounds ih =>
    intro i pt r h
    unfold release_loop_wrapping at h
    unfold release_loop
    by_cases hle : i ≤ st.memoryRegionsSize
    · rw [if_pos hle] at h
      rw [if_pos hle]
      by_cases hx : st.memoryRegions i = a
      · rw [if_pos hx] at h
        rw [if_pos hx]
        cases hfp : free_pages_wrapping free_page
            ((st.memoryRegions i + st.memoryRegions (i + 1)) % 2 ^ 32) fuel a pt with
        | none => rw [hfp] at h; cases h
        | some pt1 =>
          rw [hfp] at h
          injection h with h
          rw [← h]
      · rw [if_neg hx] at h
        rw [if_neg hx]
        exact ih _ _ r h
    · rw [if_neg hle] at h
      rw [if_neg hle]
      injection h with h
      rw [← h]

/-- The pool a returning `release` leaves is the one `release` with exact sums leaves: the list
words do not depend on the calls of `free_page`. -/
theorem release_wrapping_pool {σ : Type} (free_page : σ → Nat → Option σ) (st : Pool)
    (a fuel : Nat) (pt : σ) (r : Pool × σ)
    (h : release_wrapping free_page fuel st a pt = some r) : r.1 = (release st a).1 :=
  release_loop_wrapping_pool free_page st a fuel _ _ pt r h

theorem release_loop_wrapping_found {σ : Type} (free_page : σ → Nat → Option σ) (st : Pool)
    (a fuel j : Nat) (hje : j % 2 = 0) (hj : j ≤ st.memoryRegionsSize)
    (hja : st.memoryRegions j = a) :
    ∀ rounds i pt, i % 2 = 0 → i ≤ j → j + 2 ≤ i + 2 * rounds →
      (∀ i1, i ≤ i1 → i1 < j → i1 % 2 = 0 → st.memoryRegions i1 ≠ a) →
      release_loop_wrapping free_page st a fuel rounds i pt
        = (free_pages_wrapping free_page
            ((st.memoryRegions j + st.memoryRegions (j + 1)) % 2 ^ 32) fuel a pt).map
          (fun pt1 =>
            ({ st with memoryRegions := store (store st.memoryRegions j 0) (j + 1) 0 }, pt1)) := by
  intro rounds
  induction rounds with
  | zero => intro i pt _ hij hr _; omega
  | succ rounds ih =>
    intro i pt hie hij hr hfirst
    unfold release_loop_wrapping
    rw [if_pos (by omega)]
    by_cases hx : st.memoryRegions i = a
    · have hi : i = j := by
        by_contra hne
        exact hfirst i (Nat.le_refl i) (by omega) hie hx
      subst hi
      rw [if_pos hx]
      cases free_pages_wrapping free_page
        ((st.memoryRegions i + st.memoryRegions (i + 1)) % 2 ^ 32) fuel a pt <;> rfl
    · rw [if_neg hx]
      have hne : i ≠ j := by
        intro he
        rw [he] at hx
        exact hx hja
      apply ih (i + 2) pt (by omega) (by omega) (by omega)
      intro i1 h1 h2 h3
      exact hfirst i1 (by omega) h2 h3

theorem free_pages_wrapping_eq {σ : Type} (free_page : σ → Nat → Option σ) :
    ∀ q fuel j pt, q < fuel → j + q * PAGE_SIZE < 2 ^ 32 →
      free_pages_wrapping free_page (j + q * PAGE_SIZE) fuel j pt
        = free_page_calls free_page
            ((List.range q).map (fun k => (j + k * PAGE_SIZE) >>> 12)) pt := by
  intro q
  induction q with
  | zero =>
    intro fuel j pt hq _
    obtain ⟨f1, hf1⟩ : ∃ f1, fuel = f1 + 1 := ⟨fuel - 1, by omega⟩
    subst hf1
    unfold free_pages_wrapping
    rw [if_neg (by omega)]
    rfl
  | succ q ih =>
    intro fuel j pt hq hlt
    obtain ⟨f1, hf1⟩ : ∃ f1, fuel = f1 + 1 := ⟨fuel - 1, by omega⟩
    subst hf1
    unfold free_pages_wrapping
    rw [if_pos (by unfold PAGE_SIZE; omega)]
    have hb : j + (q + 1) * PAGE_SIZE = (j + PAGE_SIZE) + q * PAGE_SIZE := by ring
    have hm : (j + PAGE_SIZE) % 2 ^ 32 = j + PAGE_SIZE :=
      Nat.mod_eq_of_lt (by unfold PAGE_SIZE at hlt ⊢; omega)
    have hl : (List.range (q + 1)).map (fun k => (j + k * PAGE_SIZE) >>> 12)
        = (j >>> 12) :: (List.range q).map (fun k => (j + PAGE_SIZE + k * PAGE_SIZE) >>> 12) := by
      rw [List.range_succ_eq_map, List.map_cons, List.map_map]
      refine congr (congrArg List.cons ?_) ?_
      · show (j + 0 * PAGE_SIZE) >>> 12 = j >>> 12
        rw [Nat.zero_mul, Nat.add_zero]
      · apply List.map_congr_left
        intro k _
        show (j + (k + 1) * PAGE_SIZE) >>> 12 = (j + PAGE_SIZE + k * PAGE_SIZE) >>> 12
        have e : j + (k + 1) * PAGE_SIZE = j + PAGE_SIZE + k * PAGE_SIZE := by ring
        rw [e]
    rw [hl, hm]
    show (match free_page pt (j >>> 12) with
      | none => none
      | some pt1 => free_pages_wrapping free_page (j + (q + 1) * PAGE_SIZE) f1 (j + PAGE_SIZE) pt1)
      = (match free_page pt (j >>> 12) with
        | none => none
        | some pt1 => free_page_calls free_page
          ((List.range q).map (fun k => (j + PAGE_SIZE + k * PAGE_SIZE) >>> 12)) pt1)
    cases free_page pt (j >>> 12) with
    | none => rfl
    | some pt1 =>
      simp only
      rw [hb]
      exact ih f1 (j + PAGE_SIZE) pt1 (by omega) (by rw [← hb]; exact hlt)

/-! ## Reachable states below the top of the address space -/

theorem below_top_of_pool (st st1 : Pool) (hb : st1.base_address = st.base_address)
    (hs : st1.size = st.size) (h : below_top st1) : below_top st := by
  unfold below_top at h ⊢
  rw [hb, hs] at h
  exact h

theorem regions_below_top_record (st : Pool) (htop : below_top st)
    (hreg : regions_below_top st) (a p f m : Nat) (hrun : page_run st a p) (hp : 1 ≤ p)
    (hfe : f % 2 = 0)
    (hold : ∀ j, j < m → j % 2 = 0 → j ≠ f → j < st.memoryRegionsSize) :
    regions_below_top
      ⟨st.base_address, st.size, store (store st.memoryRegions f a) (f + 1) (p * PAGE_SIZE),
        m⟩ := by
  intro j hj hje
  simp only at hj ⊢
  by_cases hjf : j = f
  · subst hjf
    rw [store_pair_start, store_pair_length]
    obtain ⟨⟨k, hk, ha⟩, hend, _⟩ := hrun
    have h := htop.2
    unfold pages_of PAGE_SIZE at h
    unfold PAGE_SIZE at ha hend ⊢
    omega
  · rw [store_pair_other _ _ _ _ j hjf (by omega),
      store_pair_other _ _ _ _ (j + 1) (by omega) (by omega)]
    exact hreg j (hold j hj hje hjf) hje

theorem regions_below_top_allocate (st : Pool) (hinv : tracking_invariant st)
    (htop : below_top st) (hreg : regions_below_top st) (n : Nat) (hn : 1 ≤ n) :
    regions_below_top (allocate st n).2 := by
  rcases allocate_spec st n hn with ⟨h, _⟩ | ⟨hrun, _, ⟨_, h⟩ | ⟨f, hf, h⟩⟩
  · rw [h]; exact hreg
  · rw [h]
    exact regions_below_top_record st htop hreg _ _ st.memoryRegionsSize
      (st.memoryRegionsSize + 2) hrun (pages_of_pos n hn) hinv.1
      (by intro j hj hje hne; have := hinv.1; omega)
  · rw [h]
    exact regions_below_top_record st htop hreg _ _ f st.memoryRegionsSize hrun
      (pages_of_pos n hn) hf.2.1 (by intro j hj _ _; exact hj)

theorem regions_below_top_release (st : Pool) (hreg : regions_below_top st) (x : Nat) :
    regions_below_top (release st x).1 := by
  rcases release_spec st x with ⟨h, _⟩ | ⟨i, hi, hie, _, _, h⟩
  · rw [h]; exact hreg
  · rw [h]
    intro j hj hje
    simp only at hj ⊢
    by_cases hji : j = i
    · subst hji
      rw [store_pair_start, store_pair_length]
      norm_num
    · rw [store_pair_other _ _ _ _ j hji (by omega),
        store_pair_other _ _ _ _ (j + 1) (by omega) (by omega)]
      exact hreg j hj hje

/-- A state reached with the 32-bit arithmetic in a pool below the top of the address space is
reached with exact sums as well, and none of its regions reaches the top. -/
theorem reachable_wrapping_exact (st : Pool) (h : Reachable_wrapping st) (htop : below_top st) :
    Reachable st ∧ regions_below_top st := by
  induction h with
  | construct base_address size memory =>
    exact ⟨Reachable.construct base_address size memory,
      fun j hj => absurd hj (Nat.not_lt_zero j)⟩
  | allocate st n fuel r _ hn hal ih =>
    obtain ⟨hb, hs⟩ := allocate_wrapping_pool st n fuel r hal
    have htop1 := below_top_of_pool st r.2 hb hs htop
    obtain ⟨hreach, hreg⟩ := ih htop1
    have hr := ((allocate_wrapping_eq st htop1 hreg n fuel).2 r hal).2
    rw [hr]
    exact ⟨Reachable.allocate st n hreach hn,
      regions_below_top_allocate st (reachable_invariant st hreach) htop1 hreg n hn⟩
  | release free_page st a fuel pt r _ hrel ih =>
    have hr := release_wrapping_pool free_page st a fuel pt r hrel
    have hpool : (release st a).1.base_address = st.base_address ∧
        (release st a).1.size = st.size := by
      rcases release_spec st a with ⟨h, _⟩ | ⟨i, _, _, _, _, h⟩
      · rw [h]; exact ⟨rfl, rfl⟩
      · rw [h]; exact ⟨rfl, rfl⟩
    rw [hr] at htop ⊢
    have htop1 := below_top_of_pool st _ hpool.1 hpool.2 htop
    obtain ⟨hreach, hreg⟩ := ih htop1
    exact ⟨Reachable.release st a hreach, regions_below_top_release st hreg a⟩

/-! ## The 32-bit scan up to the first fit -/

theorem scan_regions_wrapping_eq_at (st : Pool) (i : Nat)
    (hi : ∀ j, j < st.memoryRegionsSize → j % 2 = 0 → st.memoryRegions j ≤ i →
      st.memoryRegions j + st.memoryRegions (j + 1) < 2 ^ 32) :
    ∀ fuel j fri, j % 2 = 0 →
      scan_regions_wrapping st i fuel j fri = scan_regions st i fuel j fri := by
  intro fuel
  induction fuel with
  | zero => intro j fri _; rfl
  | succ fuel ih =>
    intro j fri hj
    unfold scan_regions_wrapping scan_regions
    by_cases hlt : j < st.memoryRegionsSize
    · rw [if_pos hlt, if_pos hlt]
      simp only
      rw [ih (j + 2) _ (by omega)]
      by_cases hle : st.memoryRegions j ≤ i
      · rw [Nat.mod_eq_of_lt (hi j hlt hj hle)]
      · have h1 : ¬ (i ≥ st.memoryRegions j ∧
            i < (st.memoryRegions j + st.memoryRegions (j + 1)) % 2 ^ 32) := fun h => hle h.1
        have h2 : ¬ (i ≥ st.memoryRegions j ∧
            i < st.memoryRegions j + st.memoryRegions (j + 1)) := fun h => hle h.1
        rw [if_neg h1, if_neg h2]
    · rw [if_neg hlt, if_neg hlt]

theorem allocate_loop_all_covered (st : Pool) (len p : Nat) (hp : 1 ≤ p) :
    ∀ F k s c a f,
      (∀ k1, k ≤ k1 → k1 * PAGE_SIZE < st.size →
        covered st (st.base_address + k1 * PAGE_SIZE)) →
      allocate_loop st len p F (st.base_address + k * PAGE_SIZE) s c a f = (0, st) := by
  intro F
  induction F with
  | zero => intro k s c a f _; unfold allocate_loop; rfl
  | succ F ih =>
    intro k s c a f hcov
    by_cases hlt : st.base_address + k * PAGE_SIZE < st.base_address + st.size
    · have hw := (scan_regions_within st (st.base_address + k * PAGE_SIZE) f).2
        (hcov k (Nat.le_refl k) (by omega))
      have e : st.base_address + k * PAGE_SIZE + PAGE_SIZE
          = st.base_address + (k + 1) * PAGE_SIZE := by ring
      rw [allocate_loop_within st len p F _ s c a f hlt hp hw, e]
      exact ih (k + 1) _ _ _ _ (fun k1 h1 h2 => hcov k1 (by omega) h2)
    · exact allocate_loop_exit st len p F _ s c a f hlt

/-- With a pool below the top of the address space and any tracking list, the 32-bit scan of
`allocate` for at least one page gives the result of the scan with exact sums whenever that
scan finds a run; a region of the list that reaches the top covers every page behind its start,
so the scan with exact sums finds no run once it meets one. -/
theorem allocate_loop_wrapping_found (st : Pool) (htop : below_top st) (len p : Nat)
    (hp : 1 ≤ p) :
    ∀ fuel F k start c atStart fri, c ≤ k → st.size ≤ (k + F) * PAGE_SIZE →
      allocate_loop st len p F (st.base_address + k * PAGE_SIZE) start c atStart fri = (0, st) ∨
      ((F < fuel →
        allocate_loop_wrapping st len p fuel (st.base_address + k * PAGE_SIZE) start c atStart
            fri
          = some (allocate_loop st len p F (st.base_address + k * PAGE_SIZE) start c atStart
              fri)) ∧
      (∀ r, allocate_loop_wrapping st len p fuel (st.base_address + k * PAGE_SIZE) start c
            atStart fri = some r →
          r = allocate_loop st len p F (st.base_address + k * PAGE_SIZE) start c atStart
            fri)) := by
  intro fuel
  induction fuel with
  | zero =>
    intro F k start c atStart fri _ _
    right
    refine ⟨fun h => absurd h (Nat.not_lt_zero F), ?_⟩
    intro r h
    unfold allocate_loop_wrapping at h
    cases h
  | succ fuel ih =>
    intro F k start c atStart fri hck hF
    have hb := below_top_bound st htop
    by_cases hlt : st.base_address + k * PAGE_SIZE < st.base_address + st.size
    · by_cases hH : ∀ j, j < st.memoryRegionsSize → j % 2 = 0 →
          st.memoryRegions j ≤ st.base_address + k * PAGE_SIZE →
          st.memoryRegions j + st.memoryRegions (j + 1) < 2 ^ 32
      · have hks : k * PAGE_SIZE < st.size := by omega
        have hFpos : 1 ≤ F := by
          by_contra hcon
          have h0 : F = 0 := by omega
          rw [h0, Nat.add_zero] at hF
          omega
        obtain ⟨F1, hF1⟩ : ∃ F1, F = F1 + 1 := ⟨F - 1, by omega⟩
        subst hF1
        have hnext := below_top_next st htop k hks
        have e1 : (st.base_address + k * PAGE_SIZE + PAGE_SIZE) % 2 ^ 32
            = st.base_address + (k + 1) * PAGE_SIZE := by
          have : st.base_address + k * PAGE_SIZE + PAGE_SIZE
              = st.base_address + (k + 1) * PAGE_SIZE := by ring
          rw [this]
          exact Nat.mod_eq_of_lt hnext
        have e2 : (c + 1) % 2 ^ 32 = c + 1 := by
          apply Nat.mod_eq_of_lt
          unfold PAGE_SIZE at hnext
          omega
        have e3 : st.base_address + k * PAGE_SIZE + PAGE_SIZE
            = st.base_address + (k + 1) * PAGE_SIZE := by ring
        rw [allocate_loop_wrapping_step st len p fuel _ start c atStart fri
            (by rw [hb]; exact hlt),
          allocate_loop_step st len p F1 _ start c atStart fri hlt,
          scan_regions_wrapping_eq_at st _ hH _ 0 fri (by rfl), e1, e2, e3]
        by_cases hge : (if (scan_regions st (st.base_address + k * PAGE_SIZE)
            st.memoryRegionsSize 0 fri).1 = true then 0 else c + 1) ≥ p
        · rw [if_pos hge, if_pos hge]
          by_cases hf : (scan_regions st (st.base_address + k * PAGE_SIZE) st.memoryRegionsSize
              0 fri).2 = st.memoryRegionsSize
          · rw [if_pos hf, if_pos hf]
            exact Or.inr ⟨fun _ => rfl, fun r h => (Option.some.inj h).symm⟩
          · rw [if_neg hf, if_neg hf]
            exact Or.inr ⟨fun _ => rfl, fun r h => (Option.some.inj h).symm⟩
        · rw [if_neg hge, if_neg hge]
          rcases ih F1 (k + 1)
            (if (scan_regions st (st.base_address + k * PAGE_SIZE) st.memoryRegionsSize 0 fri).1
              = true then 0 else if atStart = true then st.base_address + k * PAGE_SIZE
                else start)
            (if (scan_regions st (st.base_address + k * PAGE_SIZE) st.memoryRegionsSize 0 fri).1
              = true then 0 else c + 1)
            (if (scan_regions st (st.base_address + k * PAGE_SIZE) st.memoryRegionsSize 0 fri).1
              = true then true else false)
            (scan_regions st (st.base_address + k * PAGE_SIZE) st.memoryRegionsSize 0 fri).2
            (by split <;> omega) (by unfold PAGE_SIZE at hF ⊢; omega) with h0 | ⟨ih1, ih2⟩
          · exact Or.inl h0
          · exact Or.inr ⟨fun h => ih1 (by omega), ih2⟩
      · left
        push_neg at hH
        obtain ⟨j, hj, hje, hle, hwrap⟩ := hH
        apply allocate_loop_all_covered st len p hp
        intro k1 hk1 hk1s
        have hk1top := below_top_next st htop k1 hk1s
        refine ⟨j, hj, hje, ?_, ?_⟩
        · unfold PAGE_SIZE at hle ⊢; omega
        · unfold PAGE_SIZE at hk1top ⊢; omega
    · right
      rw [allocate_loop_wrapping_exit st len p fuel _ start c atStart fri
          (by rw [hb]; exact hlt),
        allocate_loop_done st len p F _ start c atStart fri hlt]
      exact ⟨fun _ => rfl, fun r h => (Option.some.inj h).symm⟩

theorem allocate_wrapping_found (st : Pool) (htop : below_top st) (n fuel : Nat) (hn1 : 1 ≤ n)
    (hn : n ≤ 2 ^ 32 - PAGE_SIZE) :
    allocate st n = (0, st) ∨
    ((st.size + n < fuel → allocate_wrapping fuel st n = some (allocate st n)) ∧
      (∀ r, allocate_wrapping fuel st n = some r → r = allocate st n)) := by
  have hstart : (st.base_address + PAGE_SIZE) % 2 ^ 32 = st.base_address + 1 * PAGE_SIZE := by
    rw [Nat.one_mul]
    exact Nat.mod_eq_of_lt htop.1
  have hstart2 : st.base_address + PAGE_SIZE = st.base_address + 1 * PAGE_SIZE := by
    rw [Nat.one_mul]
  have hU : allocate st n = allocate_loop st (pages_of n * PAGE_SIZE) (pages_of n) st.size
      (st.base_address + 1 * PAGE_SIZE) 0 0 true st.memoryRegionsSize := by
    unfold allocate
    rw [round_up_eq]
    simp only
    rw [hstart2]
  rcases allocate_loop_wrapping_found st htop (pages_of n * PAGE_SIZE) (pages_of n)
    (pages_of_pos n hn1) fuel st.size 1 0 0 true st.memoryRegionsSize (by omega)
    (by unfold PAGE_SIZE; omega) with h0 | ⟨h1, h2⟩
  · left
    rw [hU]; exact h0
  · right
    constructor
    · intro hfuel
      obtain ⟨f1, hf1⟩ : ∃ f1, fuel = f1 + 1 := ⟨fuel - 1, by omega⟩
      unfold allocate_wrapping
      rw [hf1, round_up_loop_wrapping_returns n hn f1 0 0 (by simp) (Or.inl rfl) (by omega)]
      simp only
      rw [hstart, hU, ← hf1]
      exact h1 (by omega)
    · intro r h
      unfold allocate_wrapping at h
      cases hr : round_up_loop_wrapping n fuel 0 0 with
      | none => rw [hr] at h; cases h
      | some q =>
        rw [hr] at h
        simp only at h
        obtain ⟨_, hq⟩ := round_up_loop_wrapping_some n fuel 0 0 (by simp) (by norm_num)
          (Or.inl rfl) q hr
        rw [hq, hstart] at h
        rw [hU]
        exact h2 r h

/-! ## C12: first fit -/

/-- C12 as stated fails for a pool that ends at the top of the 32-bit address space: in the
pool of 1 GB at 3 GB with an empty list the page at 3221229568 fits a request of one page, yet
`base_address + size` wraps to 0 in line 112, the scan makes no round, and `allocate(4096)`
returns 0 and records nothing, with any number of rounds allowed from two on. -/
theorem allocate_misses_fit_at_top :
    (construct 3221225472 1073741824 (words [])).size % PAGE_SIZE = 0 ∧
    fits (construct 3221225472 1073741824 (words [])) 3221229568 (pages_of 4096) ∧
    (3221225472 + 1073741824) % 2 ^ 32 = 0 ∧
    ∀ fuel, allocate_wrapping (fuel + 2) (construct 3221225472 1073741824 (words [])) 4096
      = some (0, construct 3221225472 1073741824 (words [])) := by
  refine ⟨by decide, ⟨⟨1, by decide, by decide⟩, by decide, ?_⟩, by decide, ?_⟩
  · intro t _ hc
    obtain ⟨j, hj, _⟩ := hc
    exact absurd hj (Nat.not_lt_zero j)
  · intro fuel
    rfl

/-- C12, amended: for a pool whose size is a multiple of PAGE_SIZE and whose range ends below
2 ^ 32, a tracking list of whole pairs and `_size` n >= 1, with p the page count n rounds up to:
if some address s, k >= 1 pages behind `base_address`, has its p pages inside
`[base_address + PAGE_SIZE, base_address + size)` and covered by no tracked region, then
`allocate(n)` in 32-bit arithmetic returns, within `size + n + 1` rounds of its loops, an
address a with these properties such that no such address is lower, and the pair
(a, p * PAGE_SIZE) is a tracked entry afterwards; it returns nothing else. -/
theorem allocate_first_fit_below_top (st : Pool) (n : Nat) (hn : 1 ≤ n)
    (hsize : st.size % PAGE_SIZE = 0) (heven : st.memoryRegionsSize % 2 = 0)
    (htop : st.base_address + st.size < 2 ^ 32)
    (s : Nat) (hs : fits st s (pages_of n)) :
    ∃ a st1,
      (∀ fuel, st.size + n < fuel → allocate_wrapping fuel st n = some (a, st1)) ∧
      (∀ fuel r, allocate_wrapping fuel st n = some r → r = (a, st1)) ∧
      fits st a (pages_of n) ∧
      (∀ s1, fits st s1 (pages_of n) → a ≤ s1) ∧
      recorded st1 a (pages_of n * PAGE_SIZE) := by
  have hp := pages_of_pos n hn
  have hsz : (pages_of n + 1) * PAGE_SIZE ≤ st.size := by
    obtain ⟨⟨k, hk, hks⟩, hin, _⟩ := hs
    rw [hks] at hin
    unfold PAGE_SIZE at hin ⊢
    omega
  have hbt : below_top st := by
    constructor
    · unfold PAGE_SIZE at hsz ⊢; omega
    · unfold pages_of PAGE_SIZE
      unfold PAGE_SIZE at hsize
      omega
  have hn32 : n ≤ 2 ^ 32 - PAGE_SIZE := by
    have h1 : n ≤ pages_of n * PAGE_SIZE := by unfold pages_of PAGE_SIZE; omega
    unfold PAGE_SIZE at hsz h1 ⊢
    omega
  refine ⟨(allocate st n).1, (allocate st n).2, ?_⟩
  rcases allocate_spec st n hn with ⟨_, hno⟩ | ⟨hrun, hlow, hrec⟩
  · exact absurd ((fits_iff_page_run st hsize s _ hp).1 hs) (hno s)
  · have hne : allocate st n ≠ (0, st) := by
      intro h0
      obtain ⟨⟨k, hk, hks⟩, _, _⟩ := hrun
      rw [h0] at hks
      simp only at hks
      unfold PAGE_SIZE at hks
      omega
    rcases allocate_wrapping_found st hbt n 0 hn hn32 with h0 | _
    · exact absurd h0 hne
    · refine ⟨?_, ?_, (fits_iff_page_run st hsize _ _ hp).2 hrun,
        fun s1 h1 => hlow s1 ((fits_iff_page_run st hsize s1 _ hp).1 h1), ?_⟩
      · intro fuel hfuel
        rcases allocate_wrapping_found st hbt n fuel hn hn32 with h0 | ⟨h1, _⟩
        · exact absurd h0 hne
        · exact h1 hfuel
      · intro fuel r hr
        rcases allocate_wrapping_found st hbt n fuel hn hn32 with h0 | ⟨_, h2⟩
        · exact absurd h0 hne
        · exact h2 r hr
      · rcases hrec with ⟨_, h⟩ | ⟨f, hf, h⟩
        · rw [h]
          exact ⟨st.memoryRegionsSize, by simp, heven, store_pair_start _ _ _ _,
            store_pair_length _ _ _ _⟩
        · rw [h]
          exact ⟨f, hf.1, hf.2.1, store_pair_start _ _ _ _, store_pair_length _ _ _ _⟩

/-- Witness for C12: in `fragmented_pool` page 1 is free, page 2 is taken and pages 3 and 4 are
free, so a request of two pages fits at 77824. -/
theorem allocate_first_fit_below_top_witness :
    ∃ a st1,
      (∀ fuel, fragmented_pool.size + 8192 < fuel →
        allocate_wrapping fuel fragmented_pool 8192 = some (a, st1)) ∧
      (∀ fuel r, allocate_wrapping fuel fragmented_pool 8192 = some r → r = (a, st1)) ∧
      fits fragmented_pool a (pages_of 8192) ∧
      (∀ s1, fits fragmented_pool s1 (pages_of 8192) → a ≤ s1) ∧
      recorded st1 a (pages_of 8192 * PAGE_SIZE) :=
  allocate_first_fit_below_top fragmented_pool 8192 (by decide) (by decide) (by decide)
    (by decide) 77824 ⟨⟨3, by decide, by decide⟩, by decide, by decide⟩

/-! ## C13: regions never overlap -/

/-- C13 as stated fails for a pool whose last page ends at the top of the 32-bit address space:
in the pool of 8191 bytes at 0xFFFFE000 the first `allocate(1)` records the region
(0xFFFFF000, 0x1000); its end wraps to 0 in line 128, so the page counts as free again and the
second `allocate(1)` returns 0xFFFFF000 once more and records the same region in a second
entry: the entries at words 0 and 2 are tracked, not cleared, and overlap. -/
theorem region_recorded_twice_at_top :
    (∀ fuel, allocate_wrapping (fuel + 2) (construct 4294959104 8191 (words [])) 1
      = some (4294963200, top_pool)) ∧
    (4294963200 + 4096) % 2 ^ 32 = 0 ∧
    ∃ st, (∀ fuel, allocate_wrapping (fuel + 2) top_pool 1 = some (4294963200, st)) ∧
      Reachable_wrapping st ∧
      st.memoryRegionsSize = 4 ∧
      st.memoryRegions 0 = 4294963200 ∧ st.memoryRegions 1 = 4096 ∧
      st.memoryRegions 2 = 4294963200 ∧ st.memoryRegions 3 = 4096 ∧
      ¬ (st.memoryRegions 0 + st.memoryRegions (0 + 1) ≤ st.memoryRegions 2 ∨
        st.memoryRegions 2 + st.memoryRegions (2 + 1) ≤ st.memoryRegions 0) := by
  refine ⟨fun _ => rfl, by decide,
    ⟨4294959104, 8191,
      store (store top_pool.memoryRegions 2 4294963200) 3 4096, 4⟩,
    fun _ => rfl, ?_, rfl, by decide, by decide, by decide, by decide, by decide⟩
  exact Reachable_wrapping.allocate top_pool 1 2 (4294963200, _)
    (Reachable_wrapping.allocate (construct 4294959104 8191 (words [])) 1 2
      (4294963200, top_pool) (Reachable_wrapping.construct 4294959104 8191 (words []))
      (by decide) rfl)
    (by decide) rfl

/-- C13, amended: in every state reached, with the 32-bit arithmetic of the code, from the
construction of a pool whose range (size rounded up to whole pages) ends below 2 ^ 32 through
returning `allocate` (`_size >= 1`) and `release` calls, two different tracked entries that are
not cleared hold disjoint regions `[s1, s1 + len1)` and `[s2, s2 + len2)`, both below 2 ^ 32. -/
theorem regions_never_overlap_below_top (st : Pool) (hr : Reachable_wrapping st)
    (htop : below_top st) (j1 j2 : Nat)
    (hj1 : j1 < st.memoryRegionsSize) (hj2 : j2 < st.memoryRegionsSize)
    (he1 : j1 % 2 = 0) (he2 : j2 % 2 = 0) (hne : j1 ≠ j2)
    (hn1 : ¬ (st.memoryRegions j1 = 0 ∧ st.memoryRegions (j1 + 1) = 0))
    (hn2 : ¬ (st.memoryRegions j2 = 0 ∧ st.memoryRegions (j2 + 1) = 0)) :
    (st.memoryRegions j1 + st.memoryRegions (j1 + 1) ≤ st.memoryRegions j2 ∨
      st.memoryRegions j2 + st.memoryRegions (j2 + 1) ≤ st.memoryRegions j1) ∧
    st.memoryRegions j1 + st.memoryRegions (j1 + 1) < 2 ^ 32 ∧
    st.memoryRegions j2 + st.memoryRegions (j2 + 1) < 2 ^ 32 := by
  obtain ⟨hreach, hreg⟩ := reachable_wrapping_exact st hr htop
  obtain ⟨_, hal, hdis⟩ := reachable_invariant st hreach
  have hnz : ∀ j, j < st.memoryRegionsSize → j % 2 = 0 →
      ¬ (st.memoryRegions j = 0 ∧ st.memoryRegions (j + 1) = 0) → st.memoryRegions j ≠ 0 := by
    intro j hj he hn
    rcases hal j hj he with h | ⟨k, q, hk, _, hs, _⟩
    · exact absurd h hn
    · rw [hs]; unfold PAGE_SIZE; omega
  exact ⟨hdis j1 j2 hj1 hj2 he1 he2 hne (hnz j1 hj1 he1 hn1) (hnz j2 hj2 he2 hn2),
    hreg j1 hj1 he1, hreg j2 hj2 he2⟩

/-- Witness for C13: `two_regions_pool`, reached by `allocate(1)` and `allocate(4096)` on a
fresh pool of 16 pages at 65536, whose entries at words 0 and 2 hold the regions at 69632 and
73728, one page each. -/
theorem regions_never_overlap_below_top_witness :
    (two_regions_pool.memoryRegions 0 + two_regions_pool.memoryRegions (0 + 1)
        ≤ two_regions_pool.memoryRegions 2 ∨
      two_regions_pool.memoryRegions 2 + two_regions_pool.memoryRegions (2 + 1)
        ≤ two_regions_pool.memoryRegions 0) ∧
    two_regions_pool.memoryRegions 0 + two_regions_pool.memoryRegions (0 + 1) < 2 ^ 32 ∧
    two_regions_pool.memoryRegions 2 + two_regions_pool.memoryRegions (2 + 1) < 2 ^ 32 :=
  regions_never_overlap_below_top two_regions_pool
    (Reachable_wrapping.allocate
      ⟨65536, 65536, store (store (words []) 0 69632) 1 4096, 2⟩ 4096 2
      (73728, two_regions_pool)
      (Reachable_wrapping.allocate (construct 65536 65536 (words [])) 1 2 (69632, _)
        (Reachable_wrapping.construct 65536 65536 (words [])) (by decide) rfl)
      (by decide) rfl)
    (by decide) 0 2 (by decide) (by decide) (by decide) (by decide) (by decide) (by decide)
    (by decide)

/-! ## C15: a full pool -/

/-- C15 as stated fails where the 32-bit arithmetic of `allocate` wraps. (1) For `_size` =
2 ^ 32 - 4095 the pool of 16 pages at 65536 has no run of 2 ^ 20 pages, yet the loop of lines
93-97 never ends: `memoryToAllocate` wraps from 2 ^ 32 - 4096 to 0 and stays below `_size`.
(2) In `top_pool` the only page behind the first page lies in the tracked region
(0xFFFFF000, 0x1000), yet `allocate(1)` returns 0xFFFFF000 and appends an entry: the end of
the region wraps to 0 in line 128.  (3) The pool of 8191 bytes at 0xFFFFE000 with an empty
list has one page behind its first page and no run of two, yet `allocate(8192)` returns
0xFFFFF000 and appends an entry: `i` wraps from 0xFFFFF000 to 0 in line 112 and the page at
address 0 is counted. -/
theorem allocate_full_fails_on_wrap :
    ((∀ s, ¬ page_run (construct 65536 65536 (words [])) s (pages_of 4294963201)) ∧
      ¬ ∃ fuel r, allocate_wrapping fuel (construct 65536 65536 (words [])) 4294963201
        = some r) ∧
    ((∀ s, ¬ page_run top_pool s (pages_of 1)) ∧
      ∀ fuel, allocate_wrapping (fuel + 2) top_pool 1
        = some (4294963200,
            ⟨4294959104, 8191, store (store top_pool.memoryRegions 2 4294963200) 3 4096,
              4⟩)) ∧
    ((∀ s, ¬ page_run (construct 4294959104 8191 (words [])) s (pages_of 8192)) ∧
      ∀ fuel, allocate_wrapping (fuel + 3) (construct 4294959104 8191 (words [])) 8192
        = some (4294963200,
            ⟨4294959104, 8191, store (store (words []) 0 4294963200) 1 8192, 2⟩)) := by
  refine ⟨⟨?_, ?_⟩, ⟨?_, fun _ => rfl⟩, ⟨?_, fun _ => rfl⟩⟩
  · rintro s ⟨⟨k, hk, hs⟩, hlast, _⟩
    have hp : pages_of 4294963201 = 1048576 := by decide
    rw [hp, hs] at hlast
    simp only [construct, PAGE_SIZE] at hlast
    omega
  · rintro ⟨fuel, r, h⟩
    unfold allocate_wrapping at h
    rw [round_up_loop_wrapping_none 4294963201 (by decide) fuel 0 0 (by decide) (by decide)]
      at h
    cases h
  · rintro s ⟨⟨k, hk, hs⟩, hlast, hfree⟩
    have hp : pages_of 1 = 1 := by decide
    rw [hp] at hlast hfree
    subst hs
    have hk1 : k = 1 := by
      simp only [top_pool, PAGE_SIZE] at hlast
      omega
    subst hk1
    exact hfree 0 (by decide) (by decide)
  · rintro s ⟨⟨k, hk, hs⟩, hlast, _⟩
    have hp : pages_of 8192 = 2 := by decide
    rw [hp, hs] at hlast
    simp only [construct, PAGE_SIZE] at hlast
    omega

/-- C15, amended: for every pool whose range (size rounded up to whole pages) ends below
2 ^ 32, every tracking list whose regions end below 2 ^ 32 and every `_size` n with
1 <= n <= 2 ^ 32 - PAGE_SIZE: if no run of ceil(n / PAGE_SIZE) consecutive pages behind the
first page (pages that start below the end of the pool) is free of tracked regions,
`allocate(n)` in 32-bit arithmetic returns 0, within `size + n + 1` rounds of its loops, and
leaves the pool, the tracking list and its length included, as it was; it returns nothing
else. -/
theorem allocate_full_below_top (st : Pool) (n : Nat) (hn : 1 ≤ n)
    (hn32 : n ≤ 2 ^ 32 - PAGE_SIZE) (htop : below_top st) (hreg : regions_below_top st)
    (hno : ∀ s, ¬ page_run st s (pages_of n)) :
    (∀ fuel, st.size + n < fuel → allocate_wrapping fuel st n = some (0, st)) ∧
    (∀ fuel r, allocate_wrapping fuel st n = some r → r = (0, st)) := by
  have hU : allocate st n = (0, st) := by
    rcases allocate_spec st n hn with ⟨h, _⟩ | ⟨hrun, _, _⟩
    · exact h
    · exact absurd hrun (hno _)
  constructor
  · intro fuel hfuel
    rw [(allocate_wrapping_eq st htop hreg n fuel).1 hn32 hfuel, hU]
  · intro fuel r hr
    rw [((allocate_wrapping_eq st htop hreg n fuel).2 r hr).2, hU]

/-- Witness for C15: in a pool of four pages at 65536 page 1 and page 3 are free and page 2 is
taken, so a request of two pages finds no run. -/
theorem allocate_full_below_top_witness :
    (∀ fuel, 16384 + 8192 < fuel →
      allocate_wrapping fuel ⟨65536, 16384, words [0, 0, 73728, 4096], 4⟩ 8192
        = some (0, ⟨65536, 16384, words [0, 0, 73728, 4096], 4⟩)) ∧
    (∀ fuel r, allocate_wrapping fuel ⟨65536, 16384, words [0, 0, 73728, 4096], 4⟩ 8192
        = some r → r = (0, ⟨65536, 16384, words [0, 0, 73728, 4096], 4⟩)) :=
  allocate_full_below_top ⟨65536, 16384, words [0, 0, 73728, 4096], 4⟩ 8192 (by decide)
    (by decide) (by decide) (by decide) (by
    rintro s ⟨⟨k, hk, hs⟩, hlast, hfree⟩
    have hp : pages_of 8192 = 2 := by decide
    rw [hp] at hlast hfree
    subst hs
    have hk3 : k ≤ 2 := by
      simp only [PAGE_SIZE] at hlast
      omega
    interval_cases k
    · exact hfree 1 (by decide) (by decide)
    · exact hfree 0 (by decide) (by decide))

/-! ## C18: the pages `release` frees -/

/-- C18 as stated fails for a region that ends at the top of the 32-bit address space:
`top_pool`, reached by one `allocate(1)`, has a well-formed list with the region
(0xFFFFF000, 0x1000) of one page, number 0xFFFFF; the bound of line 214 wraps to 0, so
`release(0xFFFFF000)` makes no call of `free_page` at all, and clears the entry.  And where a
call of `free_page` does not return, as on a page table whose `free_page` never returns,
`release` does not return either: in `two_regions_pool` no entry is cleared by
`release(69632)`. -/
theorem release_skips_region_at_top :
    (∀ fuel, allocate_wrapping (fuel + 2) (construct 4294959104 8191 (words [])) 1
      = some (4294963200, top_pool)) ∧
    tracking_invariant top_pool ∧
    top_pool.memoryRegions 0 = 4294963200 ∧ top_pool.memoryRegions 1 = 4096 ∧
    (List.range (top_pool.memoryRegions 1 / PAGE_SIZE)).map
        (fun k => (top_pool.memoryRegions 0 + k * PAGE_SIZE) >>> 12) = [1048575] ∧
    (top_pool.memoryRegions 0 + top_pool.memoryRegions 1) % 2 ^ 32 = 0 ∧
    (∀ fuel, release_wrapping record_call (fuel + 1) top_pool 4294963200 []
      = some (⟨4294959104, 8191, store (store top_pool.memoryRegions 0 0) 1 0, 2⟩, [])) ∧
    ∀ fuel, release_wrapping (fun (_ : Unit) (_ : Nat) => (none : Option Unit)) fuel
      two_regions_pool 69632 () = none := by
  refine ⟨fun _ => rfl, ⟨rfl, ?_, ?_⟩, by decide, by decide, by decide, by decide,
    fun _ => rfl, ?_⟩
  · intro j hj hje
    have hj0 : j = 0 := by
      have : j < 2 := hj
      omega
    subst hj0
    exact Or.inr ⟨1, 1, by decide, by decide, by decide, by decide⟩
  · intro j1 j2 hj1 hj2 he1 he2 hne
    have h1 : j1 < 2 := hj1
    have h2 : j2 < 2 := hj2
    omega
  · intro fuel
    cases fuel <;> rfl

/-- C18, amended: for every well-formed tracking list and every tracked entry `j` that holds a
region (s, len) with s != 0 and s + len < 2 ^ 32, and for every page table: `release(s)` in
32-bit arithmetic, allowed more than len / PAGE_SIZE rounds of the loop of lines 214-217, makes
the calls `free_page((s + k * PAGE_SIZE) >> 12)` for k = 0, ..., len / PAGE_SIZE - 1 in this
order, each page once and no other, each call when the one before it has returned; when all
have returned it sets the two words of that entry to 0 and leaves every other word and
`memoryRegionsSize` as they are. -/
theorem release_frees_region_below_top (st : Pool) (hinv : tracking_invariant st) (j : Nat)
    (hj : j < st.memoryRegionsSize) (hje : j % 2 = 0) (hs : st.memoryRegions j ≠ 0)
    (hend : st.memoryRegions j + st.memoryRegions (j + 1) < 2 ^ 32)
    {σ : Type} (free_page : σ → Nat → Option σ) (pt : σ) (fuel : Nat)
    (hfuel : st.memoryRegions (j + 1) / PAGE_SIZE < fuel) :
    release_wrapping free_page fuel st (st.memoryRegions j) pt
      = (free_page_calls free_page
          ((List.range (st.memoryRegions (j + 1) / PAGE_SIZE)).map
            (fun k => (st.memoryRegions j + k * PAGE_SIZE) >>> 12)) pt).map
          (fun pt1 =>
            ({ st with memoryRegions := store (store st.memoryRegions j 0) (j + 1) 0 }, pt1)) ∧
    ((List.range (st.memoryRegions (j + 1) / PAGE_SIZE)).map
      (fun k => (st.memoryRegions j + k * PAGE_SIZE) >>> 12)).Nodup := by
  obtain ⟨_, hal, hdis⟩ := hinv
  have hlen : ∀ i, i < st.memoryRegionsSize → i % 2 = 0 → st.memoryRegions i ≠ 0 →
      ∃ q, 1 ≤ q ∧ st.memoryRegions (i + 1) = q * PAGE_SIZE := by
    intro i hi hie hne
    rcases hal i hi hie with h | ⟨k, q, _, hq, _, hl⟩
    · exact absurd h.1 hne
    · exact ⟨q, hq, hl⟩
  have hfirst : ∀ i1, 0 ≤ i1 → i1 < j → i1 % 2 = 0 →
      st.memoryRegions i1 ≠ st.memoryRegions j := by
    intro i hi0 hlt hie hia
    have hine : st.memoryRegions i ≠ 0 := by rw [hia]; exact hs
    obtain ⟨q1, hq1, hl1⟩ := hlen i (by omega) hie hine
    obtain ⟨q2, hq2, hl2⟩ := hlen j hj hje hs
    have hd := hdis i j (by omega) hj hie hje (by omega) hine hs
    rw [hl1, hl2, hia] at hd
    unfold PAGE_SIZE at hd
    omega
  obtain ⟨q, hq, hl⟩ := hlen j hj hje hs
  have hq2 : st.memoryRegions (j + 1) / PAGE_SIZE = q := by
    rw [hl]; unfold PAGE_SIZE; omega
  constructor
  · unfold release_wrapping
    rw [release_loop_wrapping_found free_page st (st.memoryRegions j) fuel j hje (by omega) rfl
      (st.memoryRegionsSize + 1) 0 pt (by rfl) (Nat.zero_le j) (by omega) hfirst,
      Nat.mod_eq_of_lt hend, hq2]
    rw [hl] at hend ⊢
    rw [free_pages_wrapping_eq free_page q fuel (st.memoryRegions j) pt (by omega) hend]
  · rw [hq2]
    apply List.Nodup.map _ (List.nodup_range _)
    intro k1 k2 hk
    simp only [page_number_eq] at hk
    omega

/-- Witness for C18: the entry at word 2 of `fragmented_pool` holds the region
(73728, 4096); the page table records the calls. -/
theorem release_frees_region_below_top_witness :
    release_wrapping record_call 2 fragmented_pool (fragmented_pool.memoryRegions 2) []
      = (free_page_calls record_call
          ((List.range (fragmented_pool.memoryRegions (2 + 1) / PAGE_SIZE)).map
            (fun k => (fragmented_pool.memoryRegions 2 + k * PAGE_SIZE) >>> 12)) []).map
          (fun pt1 =>
            ({ fragmented_pool with
                memoryRegions := store (store fragmented_pool.memoryRegions 2 0) (2 + 1) 0 },
              pt1)) ∧
    ((List.range (fragmented_pool.memoryRegions (2 + 1) / PAGE_SIZE)).map
      (fun k => (fragmented_pool.memoryRegions 2 + k * PAGE_SIZE) >>> 12)).Nodup :=
  release_frees_region_below_top fragmented_pool
    (reachable_invariant _
      (Reachable.release _ 69632
        (Reachable.allocate _ 4096
          (Reachable.allocate _ 1 (Reachable.construct 65536 65536 (words [])) (by decide))
          (by decide))))
    2 (by decide) (by decide) (by decide) (by decide) record_call [] 2 (by decide)

/-! ## C37: the length of the tracking list in 32-bit arithmetic -/

theorem packed_regions_below_top (st : Pool) (m : Nat) (hp : packed st m)
    (hroom : (m + 1) * PAGE_SIZE ≤ st.size) (htop : below_top st) : regions_below_top st := by
  intro j hj hje
  obtain ⟨hsize, hent⟩ := hp
  obtain ⟨e1, e2⟩ := hent (j / 2) (by omega)
  have hj2 : 2 * (j / 2) = j := by omega
  rw [hj2] at e1 e2
  rw [e1, e2]
  have h := htop.2
  unfold pages_of PAGE_SIZE at h
  unfold PAGE_SIZE at hroom ⊢
  omega

theorem allocate_times_wrapping_packed (fuel : Nat) : ∀ (k : Nat) (st : Pool) (m : Nat),
    packed st m → (m + k + 1) * PAGE_SIZE ≤ st.size → below_top st → st.size + 1 < fuel →
    allocate_times_wrapping fuel 1 k st = some (allocate_times k st) := by
  intro k
  induction k with
  | zero => intro st m _ _ _ _; rfl
  | succ k ih =>
    intro st m hp hroom htop hfuel
    obtain ⟨_, a2, a3, a4⟩ := allocate_packed st m hp (by unfold PAGE_SIZE at hroom ⊢; omega)
    have hreg := packed_regions_below_top st m hp (by unfold PAGE_SIZE at hroom ⊢; omega) htop
    have h1 := (allocate_wrapping_eq st htop hreg 1 fuel).1 (by decide) hfuel
    have hu : allocate_times (k + 1) st = allocate_times k (allocate st 1).2 := rfl
    unfold allocate_times_wrapping
    rw [h1, hu]
    exact ih (allocate st 1).2 (m + 1) a4 (by rw [a3]; unfold PAGE_SIZE at hroom ⊢; omega)
      (below_top_of_pool _ st (by rw [a2]) (by rw [a3]) htop) (by rw [a3]; exact hfuel)

theorem allocate_times_wrapping_reachable (fuel n : Nat) (hn : 1 ≤ n) :
    ∀ (k : Nat) (st st1 : Pool), Reachable_wrapping st →
      allocate_times_wrapping fuel n k st = some st1 → Reachable_wrapping st1 := by
  intro k
  induction k with
  | zero =>
    intro st st1 hr h
    unfold allocate_times_wrapping at h
    injection h with h
    rw [← h]; exact hr
  | succ k ih =>
    intro st st1 hr h
    unfold allocate_times_wrapping at h
    cases ha : allocate_wrapping fuel st n with
    | none => rw [ha] at h; cases h
    | some r =>
      rw [ha] at h
      exact ih r.2 st1 (Reachable_wrapping.allocate st n fuel r hr hn ha) h

theorem scan_regions_wrapping_repeated (st : Pool) (a len m : Nat) (hrep : repeated st a len m)
    (ha : a ≠ 0) (hnc : ¬ a < (a + len) % 2 ^ 32) :
    ∀ fuel j fri, j % 2 = 0 → scan_regions_wrapping st a fuel j fri = (false, fri) := by
  intro fuel
  induction fuel with
  | zero => intro j fri _; rfl
  | succ fuel ih =>
    intro j fri hj
    unfold scan_regions_wrapping
    by_cases hlt : j < st.memoryRegionsSize
    · rw [if_pos hlt]
      obtain ⟨e1, e2⟩ := hrep.2 (j / 2) (by have := hrep.1; omega)
      have hj2 : 2 * (j / 2) = j := by omega
      rw [hj2] at e1 e2
      simp only
      rw [e1, e2, if_neg ha, if_neg (fun h => hnc h.2)]
      exact ih (j + 2) fri (by omega)
    · rw [if_neg hlt]

theorem allocate_wrapping_repeated (st : Pool) (a len m n p fuel : Nat)
    (hrep : repeated st a len m) (ha : a ≠ 0) (hnc : ¬ a < (a + len) % 2 ^ 32)
    (hstart : (st.base_address + PAGE_SIZE) % 2 ^ 32 = a)
    (hbound : a < (st.base_address + st.size) % 2 ^ 32)
    (hround : round_up_loop_wrapping n (fuel + 2) 0 0 = some (len, p)) (hp : p ≤ 1) :
    allocate_wrapping (fuel + 2) st n
      = some (a, ⟨st.base_address, st.size,
          store (store st.memoryRegions st.memoryRegionsSize a) (st.memoryRegionsSize + 1) len,
          st.memoryRegionsSize + 2⟩) := by
  unfold allocate_wrapping
  rw [hround]
  simp only
  rw [hstart, allocate_loop_wrapping_step st len p (fuel + 1) a 0 0 true _ hbound,
    scan_regions_wrapping_repeated st a len m hrep ha hnc _ 0 _ (by rfl)]
  have h1 : (0 + 1) % 2 ^ 32 = 1 := by norm_num
  simp only [Bool.false_eq_true, if_false, if_true, h1]
  rw [if_pos hp]

theorem repeated_append (st : Pool) (a len m : Nat) (hrep : repeated st a len m) :
    repeated ⟨st.base_address, st.size,
      store (store st.memoryRegions st.memoryRegionsSize a) (st.memoryRegionsSize + 1) len,
      st.memoryRegionsSize + 2⟩ a len (m + 1) := by
  have hsz := hrep.1
  refine ⟨by show st.memoryRegionsSize + 2 = 2 * (m + 1); omega, ?_⟩
  intro e he
  show store (store st.memoryRegions st.memoryRegionsSize a) (st.memoryRegionsSize + 1) len
      (2 * e) = a ∧
    store (store st.memoryRegions st.memoryRegionsSize a) (st.memoryRegionsSize + 1) len
      (2 * e + 1) = len
  by_cases hem : e = m
  · subst hem
    have e1 : 2 * e = st.memoryRegionsSize := by omega
    rw [e1]
    exact ⟨store_pair_start _ _ _ _, store_pair_length _ _ _ _⟩
  · obtain ⟨e1, e2⟩ := hrep.2 e (by omega)
    rw [store_pair_other _ _ _ _ _ (by omega) (by omega),
      store_pair_other _ _ _ _ _ (by omega) (by omega)]
    exact ⟨e1, e2⟩

theorem allocate_times_wrapping_repeated (a len n p fuel B S : Nat) (ha : a ≠ 0)
    (hnc : ¬ a < (a + len) % 2 ^ 32) (hstart : (B + PAGE_SIZE) % 2 ^ 32 = a)
    (hbound : a < (B + S) % 2 ^ 32)
    (hround : round_up_loop_wrapping n (fuel + 2) 0 0 = some (len, p)) (hp : p ≤ 1) :
    ∀ (k : Nat) (st : Pool) (m : Nat), repeated st a len m → st.base_address = B →
      st.size = S →
      allocate_times_wrapping (fuel + 2) n k st = some (record_times a len k st) ∧
        repeated (record_times a len k st) a len (m + k) := by
  intro k
  induction k with
  | zero => intro st m hrep _ _; exact ⟨rfl, hrep⟩
  | succ k ih =>
    intro st m hrep hB hS
    have h1 := allocate_wrapping_repeated st a len m n p fuel hrep ha hnc
      (by rw [hB]; exact hstart) (by rw [hB, hS]; exact hbound) hround hp
    obtain ⟨h2, h3⟩ := ih _ (m + 1) (repeated_append st a len m hrep) hB hS
    refine ⟨?_, ?_⟩
    · unfold allocate_times_wrapping
      rw [h1]
      exact h2
    · have e : m + (k + 1) = m + 1 + k := by omega
      rw [e]; exact h3

/-- C37 as written fails in three ways.  (1) In a pool of 514 pages at 1 GB, 513 calls
`allocate(1)` lead to a reachable state whose list has 1026 words, 4104 bytes; the last entry
lies in the words 1024 and 1025, at the start of the second page of the pool, which the first
call handed out.  (2) In a pool of two pages at 65536, 513 calls `allocate(0)` append 513
entries (69632, 0): a request of no page is met at the first page looked at, and an entry of
length 0 covers no page.  (3) In the pool of 8191 bytes at 0xFFFFE000, 513 calls `allocate(1)`
lead to a reachable state with 513 entries (0xFFFFF000, 0x1000): the end of the region wraps to
0 in line 128 and the page counts as free every time. -/
theorem tracking_list_outgrows_first_page :
    ((∀ fuel, allocate_wrapping (fuel + 2) (construct 1073741824 2105344 (words [])) 1
        = some (1073741824 + PAGE_SIZE,
            ⟨1073741824, 2105344, store (store (words []) 0 1073745920) 1 4096, 2⟩)) ∧
      ∃ st, (∀ fuel, 2105345 < fuel →
          allocate_times_wrapping fuel 1 513 (construct 1073741824 2105344 (words []))
            = some st) ∧
        Reachable_wrapping st ∧ st.memoryRegionsSize = 1026 ∧ PAGE_SIZE < 4 * 1026 ∧
        st.memoryRegions 1024 = 1073741824 + 513 * PAGE_SIZE) ∧
    ((∀ fuel, allocate_times_wrapping (fuel + 2) 0 513 (construct 65536 8192 (words []))
        = some (record_times 69632 0 513 (construct 65536 8192 (words [])))) ∧
      (record_times 69632 0 513 (construct 65536 8192 (words []))).memoryRegionsSize = 1026) ∧
    ((∀ fuel, allocate_times_wrapping (fuel + 2) 1 513 (construct 4294959104 8191 (words []))
        = some (record_times 4294963200 4096 513 (construct 4294959104 8191 (words [])))) ∧
      Reachable_wrapping
        (record_times 4294963200 4096 513 (construct 4294959104 8191 (words []))) ∧
      (record_times 4294963200 4096 513
        (construct 4294959104 8191 (words []))).memoryRegionsSize = 1026) := by
  refine ⟨⟨fun _ => rfl, ?_⟩, ?_, ?_⟩
  · have hp0 : packed (construct 1073741824 2105344 (words [])) 0 :=
      ⟨rfl, fun e he => absurd he (Nat.not_lt_zero e)⟩
    have htop : below_top (construct 1073741824 2105344 (words [])) := by decide
    have hrun : ∀ fuel, 2105345 < fuel →
        allocate_times_wrapping fuel 1 513 (construct 1073741824 2105344 (words []))
          = some (allocate_times 513 (construct 1073741824 2105344 (words []))) :=
      fun fuel hf => allocate_times_wrapping_packed fuel 513 _ 0 hp0 (by decide) htop hf
    have hreach := allocate_times_wrapping_reachable 2105346 1 (Nat.le_refl 1) 513 _ _
      (Reachable_wrapping.construct 1073741824 2105344 (words [])) (hrun 2105346 (by decide))
    obtain ⟨hb, _, h3, h4⟩ := allocate_times_packed 513 _ 0 hp0 (by decide)
    have hbase : (construct 1073741824 2105344 (words [])).base_address = 1073741824 := rfl
    rw [hbase] at hb
    have h := (h4 512 (by decide)).1
    generalize allocate_times 513 (construct 1073741824 2105344 (words [])) = st
      at hreach hb h3 h h4 hrun
    rw [hb] at h
    have e1 : (2 * 512 : Nat) = 1024 := rfl
    have e3 : (512 + 1 : Nat) = 513 := rfl
    rw [e1, e3] at h
    exact ⟨st, hrun, hreach, h3, by decide, h⟩
  · have hall := fun fuel => allocate_times_wrapping_repeated 69632 0 0 0 fuel 65536 8192
      (by decide) (by decide) (by decide) (by decide) rfl (by decide) 513
      (construct 65536 8192 (words [])) 0 ⟨rfl, fun e he => absurd he (Nat.not_lt_zero e)⟩
      rfl rfl
    have hsz := (hall 0).2.1
    generalize record_times 69632 0 513 (construct 65536 8192 (words [])) = st at hall hsz
    exact ⟨fun fuel => (hall fuel).1, hsz⟩
  · have hall := fun fuel => allocate_times_wrapping_repeated 4294963200 4096 1 1 fuel
      4294959104 8191 (by decide) (by decide) (by decide) (by decide) rfl (by decide) 513
      (construct 4294959104 8191 (words [])) 0
      ⟨rfl, fun e he => absurd he (Nat.not_lt_zero e)⟩ rfl rfl
    have hsz := (hall 0).2.1
    have hreach := allocate_times_wrapping_reachable 2 1 (Nat.le_refl 1) 513 _ _
      (Reachable_wrapping.construct 4294959104 8191 (words [])) (hall 0).1
    generalize record_times 4294963200 4096 513 (construct 4294959104 8191 (words [])) = st
      at hall hsz hreach
    exact ⟨fun fuel => (hall fuel).1, hreach, hsz⟩

/-- C37, amended: for every pool of at most 513 pages whose range (size rounded up to whole
pages) ends below 2 ^ 32, in every state reached with the 32-bit arithmetic of the code from
construction through returning `allocate` calls with `_size >= 1` and `release` calls, the
`memoryRegionsSize` words of four bytes occupy at most PAGE_SIZE bytes, and a further `allocate`
with `_size >= 1` leaves every word from index 1024 on, the words behind the first page, as it
is; for such a pool of any size the list has at most two words for every page that starts
behind the first page and below the end of the pool. -/
theorem tracking_list_fits (st : Pool) (h : Reachable_wrapping st) (htop : below_top st) :
    st.memoryRegionsSize ≤ 2 * ((st.size - 1) / PAGE_SIZE) ∧
    (st.size ≤ 513 * PAGE_SIZE → 4 * st.memoryRegionsSize ≤ PAGE_SIZE ∧
      ∀ n fuel r w, 1 ≤ n → 1024 ≤ w → allocate_wrapping fuel st n = some r →
        r.2.memoryRegions w = st.memoryRegions w) := by
  obtain ⟨hreach, hreg⟩ := reachable_wrapping_exact st h htop
  have hb := (reachable_list_bound st hreach).2
  refine ⟨hb, ?_⟩
  intro hs
  refine ⟨by unfold PAGE_SIZE at hb hs ⊢; omega, ?_⟩
  intro n fuel r w hn hw hr
  rw [((allocate_wrapping_eq st htop hreg n fuel).2 r hr).2]
  have hb2 := (reachable_list_bound _ (Reachable.allocate st n hreach hn)).2
  have heven := (reachable_invariant st hreach).1
  rcases allocate_spec st n hn with ⟨h1, _⟩ | ⟨_, _, ⟨_, h1⟩ | ⟨f, hf, h1⟩⟩
  · rw [h1]
  · rw [h1] at hb2 ⊢
    simp only at hb2 ⊢
    apply store_pair_other
    · unfold PAGE_SIZE at hb2 hs; omega
    · unfold PAGE_SIZE at hb2 hs; omega
  · rw [h1]
    simp only
    obtain ⟨hf1, hf2, _⟩ := hf
    apply store_pair_other
    · unfold PAGE_SIZE at hb hs; omega
    · unfold PAGE_SIZE at hb hs; omega

/-- Witness for C37: `two_regions_pool`, a pool of 16 pages after two allocations. -/
theorem tracking_list_fits_witness :
    two_regions_pool.memoryRegionsSize ≤ 2 * ((two_regions_pool.size - 1) / PAGE_SIZE) ∧
    (two_regions_pool.size ≤ 513 * PAGE_SIZE →
      4 * two_regions_pool.memoryRegionsSize ≤ PAGE_SIZE ∧
      ∀ n fuel r w, 1 ≤ n → 1024 ≤ w → allocate_wrapping fuel two_regions_pool n = some r →
        r.2.memoryRegions w = two_regions_pool.memoryRegions w) :=
  tracking_list_fits two_regions_pool
    (Reachable_wrapping.allocate
      ⟨65536, 65536, store (store (words []) 0 69632) 1 4096, 2⟩ 4096 2
      (73728, two_regions_pool)
      (Reachable_wrapping.allocate (construct 65536 65536 (words [])) 1 2 (69632, _)
        (Reachable_wrapping.construct 65536 65536 (words [])) (by decide) rfl)
      (by decide) rfl)
    (by decide)

end VMPool
